import Mathlib

/-!
# darkchat-protocol: the framing layer (package protocol)

A shallow embedding of the Go package: constants.go, heartbeat.go, message.go,
p_errors.go and protocol.go.  Go byte slices and strings are lists of bytes,
readers and writers are explicit state-passing records, and a Go result pair
(value, error) is a Lean pair whose error component is an Option.

The standard-library routines the package calls (bytes.Buffer, io.ReadFull,
io.MultiReader, encoding/binary, encoding/base64, encoding/json, unicode/utf8)
are embedded from their Go sources with the simplifications stated at each
definition.
-/

namespace Protocol

/-! ## Bytes and errors -/

/-- A byte (Go uint8 / byte). -/
abbrev Byte := Fin 256

/-- A Go byte slice, or a Go string. -/
abbrev Bytes := List Byte

/-- The bytes of an ASCII string literal. -/
def ascii (s : String) : List Byte := s.toList.map (fun c => Fin.ofNat c.toNat)

/-- Go conversion uint8(n) of a non-negative int. -/
def uint8 (n : Nat) : Nat := n % 2 ^ 8

/-- Go conversion uint32(n) of a non-negative int. -/
def uint32 (n : Nat) : Nat := n % 2 ^ 32

/-- The error values that can flow through the package.  The three sentinels of
constants.go keep their names; the others are the library errors that the
package propagates.  Offsets and messages carried by library errors are not
modelled.  A failing sink or source reports writeError / readError with a code of
its own choosing. -/
inductive GoError where
  | EOF
  | ErrUnexpectedEOF
  | ErrNoProgress
  | ErrorMaxPayloadSize
  | ErrorEmptyHeaders
  | ErrorUnknownType
  | CorruptInputError
  | SyntaxError
  | UnmarshalTypeError
  | writeError (code : Nat)
  | readError (code : Nat)
  deriving DecidableEq, Repr

/-! ## constants.go -/

def MessageType : Byte := 1
def HeartBeat : Byte := 2
def Error : Byte := 3
def MaxPayloadsize : Nat := 10 <<< 20

/-- The struct PayloadHeaders; Size is a uint32 and Type_ (Go field Type) a uint8. -/
structure PayloadHeaders where
  Size : Nat
  Type_ : Nat
  Encoding : List Byte
  deriving DecidableEq, Repr

/-! ## io.Writer, io.Reader, bytes.Buffer -/

/-- An io.Writer with state σ: Write(p) returns (n, err) and the next state. -/
structure Writer (σ : Type) where
  Write : σ → List Byte → (Nat × Option GoError) × σ

/-- An io.Reader with state σ: Read(p) for a destination of the given length
returns the bytes copied into the front of p (n is their number), err, and the
next state. -/
structure Reader (σ : Type) where
  Read : σ → Nat → (List Byte × Option GoError) × σ

/-- The method bytes.Buffer.Write; the state is the unread content. -/
def Buffer.Write (b : List Byte) (p : List Byte) : (Nat × Option GoError) × List Byte :=
  ((p.length, none), b ++ p)

/-- The method bytes.Buffer.Read; the state is the unread content. -/
def Buffer.Read (b : List Byte) (k : Nat) : (List Byte × Option GoError) × List Byte :=
  if b.isEmpty then
    if k = 0 then (([], none), []) else (([], some GoError.EOF), [])
  else ((b.take k, none), b.drop k)

/-- A bytes.Buffer used as a sink. -/
def bufferWriter : Writer (List Byte) := ⟨Buffer.Write⟩

/-- A bytes.Buffer used as a source. -/
def bufferReader : Reader (List Byte) := ⟨Buffer.Read⟩

/-- The loop of io.ReadAtLeast: acc is buf[:n], err the error of the last Read.
Go spins forever on a reader that keeps returning (0, nil); the loop here is cut
after the given number of reads and then reports ErrNoProgress, so that running
out of reads is never taken for success. -/
def ReadAtLeastLoop {σ : Type} (R : Reader σ) (bufLen min : Nat) :
    Nat → σ → List Byte → Option GoError → (List Byte × Option GoError) × σ
  | fuel, s, acc, err =>
    if acc.length < min ∧ err = none then
      match fuel with
      | 0 => ((acc, some GoError.ErrNoProgress), s)
      | fuel + 1 =>
        let r := R.Read s (bufLen - acc.length)
        ReadAtLeastLoop R bufLen min fuel r.2 (acc ++ r.1.1) r.1.2
    else ((acc, err), s)

/-- The function io.ReadFull(r, buf) for a buffer of bufLen bytes: returns buf[:n], err. -/
def ReadFull {σ : Type} (R : Reader σ) (s : σ) (bufLen : Nat) :
    (List Byte × Option GoError) × σ :=
  let r := ReadAtLeastLoop R bufLen bufLen bufLen s [] none
  let n := r.1.1.length
  let err :=
    if n ≥ bufLen then none
    else if n > 0 ∧ r.1.2 = some GoError.EOF then some GoError.ErrUnexpectedEOF
    else r.1.2
  ((r.1.1, err), r.2)

/-- State of io.MultiReader(first, second) where first is a bytes.Buffer:
remaining is len(mr.readers), readers being dropped from the front. -/
structure MultiReader (σ : Type) where
  first : List Byte
  second : σ
  remaining : Nat

/-- One pass of the multiReader.Read loop with only the second reader left. -/
def MultiReader.readSecond {σ : Type} (R : Reader σ) (mr : MultiReader σ) (k : Nat) :
    (List Byte × Option GoError) × MultiReader σ :=
  let r := R.Read mr.second k
  let remaining := if r.1.2 = some GoError.EOF then 0 else 1
  if r.1.1.length > 0 ∨ r.1.2 ≠ some GoError.EOF then
    let err := if r.1.2 = some GoError.EOF ∧ remaining > 0 then none else r.1.2
    ((r.1.1, err), { first := mr.first, second := r.2, remaining := remaining })
  else (([], some GoError.EOF), { first := mr.first, second := r.2, remaining := remaining })

/-- The method multiReader.Read. -/
def MultiReader.Read {σ : Type} (R : Reader σ) (mr : MultiReader σ) (k : Nat) :
    (List Byte × Option GoError) × MultiReader σ :=
  if mr.remaining = 2 then
    let r := Buffer.Read mr.first k
    let remaining := if r.1.2 = some GoError.EOF then 1 else 2
    if r.1.1.length > 0 ∨ r.1.2 ≠ some GoError.EOF then
      let err := if r.1.2 = some GoError.EOF ∧ remaining > 0 then none else r.1.2
      ((r.1.1, err), { first := r.2, second := mr.second, remaining := remaining })
    else MultiReader.readSecond R { first := r.2, second := mr.second, remaining := remaining } k
  else if mr.remaining = 1 then MultiReader.readSecond R mr k
  else (([], some GoError.EOF), mr)

/-- The reader io.MultiReader(first, second). -/
def multiReader {σ : Type} (R : Reader σ) : Reader (MultiReader σ) := ⟨MultiReader.Read R⟩

/-- The constructor io.MultiReader(bytes.Buffer holding first, r). -/
def NewMultiReader {σ : Type} (first : List Byte) (s : σ) : MultiReader σ :=
  { first := first, second := s, remaining := 2 }

/-! ## encoding/binary, big endian -/

/-- The function binary.BigEndian.PutUint32. -/
def PutUint32 (v : Nat) : List Byte :=
  [Fin.ofNat (v / 2 ^ 24), Fin.ofNat (v / 2 ^ 16), Fin.ofNat (v / 2 ^ 8), Fin.ofNat v]

/-- The function binary.BigEndian.Uint32 on the bytes that were read. -/
def Uint32 (bs : List Byte) : Nat :=
  (bs.getD 0 0).val * 2 ^ 24 + (bs.getD 1 0).val * 2 ^ 16 + (bs.getD 2 0).val * 2 ^ 8
    + (bs.getD 3 0).val

/-- The call binary.Write(w, binary.BigEndian, v) for v of type uint8. -/
def binaryWriteUint8 {σ : Type} (W : Writer σ) (s : σ) (v : Byte) : Option GoError × σ :=
  let r := W.Write s [v]
  (r.1.2, r.2)

/-- The call binary.Write(w, binary.BigEndian, v) for v of type uint32. -/
def binaryWriteUint32 {σ : Type} (W : Writer σ) (s : σ) (v : Nat) : Option GoError × σ :=
  let r := W.Write s (PutUint32 v)
  (r.1.2, r.2)

/-- The call binary.Read(r, binary.BigEndian, &v) for v of type uint8. -/
def binaryReadUint8 {σ : Type} (R : Reader σ) (s : σ) : Except GoError Byte × σ :=
  let r := ReadFull R s 1
  match r.1.2 with
  | some e => (Except.error e, r.2)
  | none => (Except.ok (r.1.1.getD 0 0), r.2)

/-- The call binary.Read(r, binary.BigEndian, &v) for v of type uint32. -/
def binaryReadUint32 {σ : Type} (R : Reader σ) (s : σ) : Except GoError Nat × σ :=
  let r := ReadFull R s 4
  match r.1.2 with
  | some e => (Except.error e, r.2)
  | none => (Except.ok (Uint32 r.1.1), r.2)

/-! ## encoding/base64, StdEncoding -/

/-- The alphabet of base64.StdEncoding. -/
def encodeStd : List Byte :=
  ascii "ABCDEFGHIJKLMNOPQRSTUVWXYZabcdefghijklmnopqrstuvwxyz0123456789+/"

/-- The table enc.encode. -/
def b64Char (i : Nat) : Byte := encodeStd.getD i 0

/-- The table enc.decodeMap: the index in the alphabet, 0xff when there is none. -/
def decodeMap (c : Byte) : Nat :=
  match encodeStd.indexOf? c with
  | some i => i
  | none => 255

/-- The padding character of StdEncoding. -/
def padChar : Byte := 61

/-- The method Encoding.EncodeToString of base64.StdEncoding. -/
def EncodeToString : List Byte → List Byte
  | [] => []
  | [a] =>
    let val := a.val * 2 ^ 16
    [b64Char (val / 2 ^ 18 % 64), b64Char (val / 2 ^ 12 % 64), padChar, padChar]
  | [a, b] =>
    let val := a.val * 2 ^ 16 + b.val * 2 ^ 8
    [b64Char (val / 2 ^ 18 % 64), b64Char (val / 2 ^ 12 % 64), b64Char (val / 2 ^ 6 % 64), padChar]
  | a :: b :: c :: rest =>
    let val := a.val * 2 ^ 16 + b.val * 2 ^ 8 + c.val
    b64Char (val / 2 ^ 18 % 64) :: b64Char (val / 2 ^ 12 % 64) :: b64Char (val / 2 ^ 6 % 64)
      :: b64Char (val % 64) :: EncodeToString rest

/-- Skips the line breaks that the decoder ignores. -/
def skipNewlines : List Byte → List Byte
  | [] => []
  | c :: cs => if c = 10 ∨ c = 13 then skipNewlines cs else c :: cs

/-- After the padding of a quantum only line breaks may follow (trailing garbage
is an error). -/
def afterPadding (dbuf : List Nat) (src : List Byte) : Except GoError (List Nat × List Byte) :=
  if (skipNewlines src).isEmpty then Except.ok (dbuf, []) else Except.error GoError.CorruptInputError

/-- The character loop of Encoding.decodeQuantum for StdEncoding (padded, not
strict): dbuf holds the j sextets read so far.  Returns the sextets of the
quantum and the unread input. -/
def decodeQuantumLoop : List Byte → List Nat → Except GoError (List Nat × List Byte)
  | [], dbuf =>
    if dbuf.length = 4 then Except.ok (dbuf, [])
    else if dbuf.length = 0 then Except.ok ([], [])
    else Except.error GoError.CorruptInputError
  | c :: rest, dbuf =>
    if dbuf.length = 4 then Except.ok (dbuf, c :: rest)
    else if decodeMap c ≠ 255 then decodeQuantumLoop rest (dbuf ++ [decodeMap c])
    else if c = 10 ∨ c = 13 then decodeQuantumLoop rest dbuf
    else if c ≠ padChar then Except.error GoError.CorruptInputError
    else if dbuf.length < 2 then Except.error GoError.CorruptInputError
    else if dbuf.length = 2 then
      match skipNewlines rest with
      | [] => Except.error GoError.CorruptInputError
      | c2 :: rest2 =>
        if c2 ≠ padChar then Except.error GoError.CorruptInputError else afterPadding dbuf rest2
    else afterPadding dbuf rest

/-- The conversion at the end of decodeQuantum: dlen sextets give dlen - 1 bytes. -/
def quantumBytes (dbuf : List Nat) : List Byte :=
  let val := dbuf.getD 0 0 * 2 ^ 18 + dbuf.getD 1 0 * 2 ^ 12 + dbuf.getD 2 0 * 2 ^ 6 + dbuf.getD 3 0
  match dbuf.length with
  | 4 => [Fin.ofNat (val / 2 ^ 16), Fin.ofNat (val / 2 ^ 8), Fin.ofNat val]
  | 3 => [Fin.ofNat (val / 2 ^ 16), Fin.ofNat (val / 2 ^ 8)]
  | 2 => [Fin.ofNat (val / 2 ^ 16)]
  | _ => []

/-- The loop of Encoding.Decode, one decodeQuantum per pass (the 8 and 4
character fast paths of the Go source compute the same bytes).  A quantum
consumes at least one character, so the number of passes is bounded by the
length of the input. -/
def decodeLoop : Nat → List Byte → Except GoError (List Byte)
  | 0, src => if src.isEmpty then Except.ok [] else Except.error GoError.ErrNoProgress
  | fuel + 1, src =>
    if src.isEmpty then Except.ok []
    else
      match decodeQuantumLoop src [] with
      | Except.error e => Except.error e
      | Except.ok (dbuf, rest) =>
        match decodeLoop fuel rest with
        | Except.error e => Except.error e
        | Except.ok out => Except.ok (quantumBytes dbuf ++ out)

/-- The method Encoding.DecodeString of base64.StdEncoding.  The partial output
that Go returns next to an error is dropped: every caller in this package
discards it. -/
def DecodeString (s : List Byte) : Except GoError (List Byte) := decodeLoop s.length s

/-! ## unicode/utf8 -/

def RuneError : Nat := 0xFFFD

/-- The function utf8.DecodeRune (and DecodeRuneInString): the rune and its
width in bytes; (RuneError, 1) marks an invalid encoding. -/
def DecodeRune (p : List Byte) : Nat × Nat :=
  match p with
  | [] => (RuneError, 0)
  | p0 :: t =>
    if p0.val < 0x80 then (p0.val, 1)
    else if p0.val < 0xC2 ∨ 0xF4 < p0.val then (RuneError, 1)
    else
      let sz := if p0.val < 0xE0 then 2 else if p0.val < 0xF0 then 3 else 4
      let lo := if p0.val = 0xE0 then 0xA0 else if p0.val = 0xF0 then 0x90 else 0x80
      let hi := if p0.val = 0xED then 0x9F else if p0.val = 0xF4 then 0x8F else 0xBF
      match t with
      | [] => (RuneError, 1)
      | b1 :: t1 =>
        if b1.val < lo ∨ hi < b1.val then (RuneError, 1)
        else if sz ≤ 2 then (p0.val % 32 * 2 ^ 6 + b1.val % 64, 2)
        else
          match t1 with
          | [] => (RuneError, 1)
          | b2 :: t2 =>
            if b2.val < 0x80 ∨ 0xBF < b2.val then (RuneError, 1)
            else if sz ≤ 3 then (p0.val % 16 * 2 ^ 12 + b1.val % 64 * 2 ^ 6 + b2.val % 64, 3)
            else
              match t2 with
              | [] => (RuneError, 1)
              | b3 :: _ =>
                if b3.val < 0x80 ∨ 0xBF < b3.val then (RuneError, 1)
                else (p0.val % 8 * 2 ^ 18 + b1.val % 64 * 2 ^ 12 + b2.val % 64 * 2 ^ 6
                  + b3.val % 64, 4)

/-- The second byte that utf8.DecodeRune accepts after a given first byte. -/
def acceptSecond (b b1 : Byte) : Prop :=
  (if b.val = 0xE0 then 0xA0 else if b.val = 0xF0 then 0x90 else 0x80) ≤ b1.val ∧
  b1.val ≤ (if b.val = 0xED then 0x9F else if b.val = 0xF4 then 0x8F else 0xBF)

/-- The function utf8.AppendRune / EncodeRune: the UTF-8 bytes of a rune. -/
def EncodeRune (r : Nat) : List Byte :=
  if r ≤ 0x7F then [Fin.ofNat r]
  else if r ≤ 0x7FF then [Fin.ofNat (0xC0 + r / 2 ^ 6), Fin.ofNat (0x80 + r % 64)]
  else if r > 0x10FFFF ∨ (0xD800 ≤ r ∧ r ≤ 0xDFFF) then [0xEF, 0xBF, 0xBD]
  else if r ≤ 0xFFFF then
    [Fin.ofNat (0xE0 + r / 2 ^ 12), Fin.ofNat (0x80 + r / 2 ^ 6 % 64), Fin.ofNat (0x80 + r % 64)]
  else
    [Fin.ofNat (0xF0 + r / 2 ^ 18), Fin.ofNat (0x80 + r / 2 ^ 12 % 64),
      Fin.ofNat (0x80 + r / 2 ^ 6 % 64), Fin.ofNat (0x80 + r % 64)]

/-- The function utf8.Valid. -/
def Valid : Nat → List Byte → Bool
  | 0, p => p.isEmpty
  | fuel + 1, p =>
    if p.isEmpty then true
    else
      let d := DecodeRune p
      if d.1 = RuneError ∧ d.2 = 1 then false else Valid fuel (p.drop d.2)

/-- The function utf8.ValidString. -/
def ValidString (s : List Byte) : Bool := Valid s.length s

/-! ## strconv and encoding/json: encoding -/

/-- The lower-case hexadecimal digits used by encoding/json. -/
def hex (n : Nat) : Byte := (ascii "0123456789abcdef").getD n 0

/-- The table htmlSafeSet of encoding/json: the ASCII bytes written unescaped. -/
def htmlSafeSet (b : Byte) : Bool :=
  decide (0x20 ≤ b.val ∧ b.val < 0x80 ∧ b.val ≠ 0x22 ∧ b.val ≠ 0x26 ∧ b.val ≠ 0x3C ∧ b.val ≠ 0x3E
    ∧ b.val ≠ 0x5C)

/-- The escape that appendString writes for an ASCII byte outside htmlSafeSet
(Go 1.22 and later; earlier releases write backspace and form feed as \u0008 and
\u000c, which the decoder reads back to the same bytes). -/
def escapeByte (b : Byte) : List Byte :=
  if b.val = 0x5C ∨ b.val = 0x22 then [0x5C, b]
  else if b.val = 0x08 then ascii "\\b"
  else if b.val = 0x0C then ascii "\\f"
  else if b.val = 0x0A then ascii "\\n"
  else if b.val = 0x0D then ascii "\\r"
  else if b.val = 0x09 then ascii "\\t"
  else ascii "\\u00" ++ [hex (b.val / 16), hex (b.val % 16)]

/-- The loop of the string encoder of encoding/json (escapeHTML on), without the
surrounding quotes.  A byte that is not valid UTF-8 is written as the
replacement character U+FFFD, the three bytes EF BF BD (the encoder of older Go
releases wrote the six-byte escape of U+FFFD there).  Each pass consumes at least
one byte of the input. -/
def appendStringLoop : Nat → List Byte → List Byte
  | 0, _ => []
  | _ + 1, [] => []
  | fuel + 1, b :: rest =>
    if b.val < 0x80 then
      if htmlSafeSet b then b :: appendStringLoop fuel rest
      else escapeByte b ++ appendStringLoop fuel rest
    else
      let d := DecodeRune (b :: rest)
      if d.1 = RuneError ∧ d.2 = 1 then [0xEF, 0xBF, 0xBD] ++ appendStringLoop fuel rest
      else if d.1 = 0x2028 ∨ d.1 = 0x2029 then
        ascii "\\u202" ++ [hex (d.1 % 16)] ++ appendStringLoop fuel ((b :: rest).drop d.2)
      else (b :: rest).take d.2 ++ appendStringLoop fuel ((b :: rest).drop d.2)

/-- The function appendString of encoding/json: a Go string as a JSON string
literal. -/
def appendString (s : List Byte) : List Byte :=
  [0x22] ++ appendStringLoop s.length s ++ [0x22]

/-- The digit loop of strconv.FormatUint in base 10. -/
def formatUintLoop : Nat → Nat → List Byte → List Byte
  | 0, _, acc => acc
  | fuel + 1, n, acc =>
    if n < 10 then Fin.ofNat (0x30 + n) :: acc
    else formatUintLoop fuel (n / 10) (Fin.ofNat (0x30 + n % 10) :: acc)

/-- The function strconv.FormatUint(n, 10) for a uint64 (at most 20 digits). -/
def FormatUint (n : Nat) : List Byte := formatUintLoop 20 n []

/-- The call json.Marshal(m) for a Message; it cannot fail. -/
def marshalMessage (Message To From : List Byte) : List Byte :=
  ascii "\x7b\"Message\":" ++ appendString Message ++ ascii ",\"To\":" ++ appendString To
    ++ ascii ",\"From\":" ++ appendString From ++ ascii "\x7d"

/-- The call json.Marshal(h) for a PayloadHeaders; it cannot fail. -/
def marshalHeaders (h : PayloadHeaders) : List Byte :=
  ascii "\x7b\"Size\":" ++ FormatUint h.Size ++ ascii ",\"Type\":" ++ FormatUint h.Type_
    ++ ascii ",\"Encoding\":" ++ appendString h.Encoding ++ ascii "\x7d"

/-! ## encoding/json: decoding -/

/-- A parsed JSON value.  Strings and member names are stored unquoted, numbers
as their literal. -/
inductive JValue where
  | null
  | bool (b : Bool)
  | number (lit : List Byte)
  | string (s : List Byte)
  | array (items : List JValue)
  | object (members : List (List Byte × JValue))

/-- The function isSpace of the JSON scanner. -/
def isSpace (c : Byte) : Bool := decide (c.val = 0x20 ∨ c.val = 0x09 ∨ c.val = 0x0D ∨ c.val = 0x0A)

def skipSpace : List Byte → List Byte
  | [] => []
  | c :: cs => if isSpace c then skipSpace cs else c :: cs

/-- The value of a hexadecimal digit, either case. -/
def hexVal (c : Byte) : Option Nat :=
  if 0x30 ≤ c.val ∧ c.val ≤ 0x39 then some (c.val - 0x30)
  else if 0x61 ≤ c.val ∧ c.val ≤ 0x66 then some (c.val - 0x61 + 10)
  else if 0x41 ≤ c.val ∧ c.val ≤ 0x46 then some (c.val - 0x41 + 10)
  else none

/-- Four hexadecimal digits at the front of the input. -/
def hex4 : List Byte → Option (Nat × List Byte)
  | a :: b :: c :: d :: rest =>
    match hexVal a, hexVal b, hexVal c, hexVal d with
    | some x, some y, some z, some w => some (((x * 16 + y) * 16 + z) * 16 + w, rest)
    | _, _, _, _ => none
  | _ => none

/-- The function getu4 of encoding/json: the rune of a leading \uXXXX escape. -/
def getu4 : List Byte → Option (Nat × List Byte)
  | a :: b :: rest => if a.val = 0x5C ∧ b.val = 0x75 then hex4 rest else none
  | _ => none

/-- The function utf16.DecodeRune; the second half is absent when getu4 failed. -/
def utf16DecodeRune (r1 : Nat) (r2 : Option Nat) : Nat :=
  match r2 with
  | some r2 =>
    if 0xD800 ≤ r1 ∧ r1 < 0xDC00 ∧ 0xDC00 ≤ r2 ∧ r2 < 0xE000 then
      (r1 - 0xD800) * 2 ^ 10 + (r2 - 0xDC00) + 0x10000
    else RuneError
  | none => RuneError

/-- The escape case of unquoteBytes, the input standing just after the
backslash: the bytes produced and the unread input.  Only the escapes that the
scanner admits are accepted. -/
def unescape : List Byte → Option (List Byte × List Byte)
  | [] => none
  | e :: rest =>
    if e.val = 0x22 ∨ e.val = 0x5C ∨ e.val = 0x2F then some ([e], rest)
    else if e.val = 0x62 then some ([0x08], rest)
    else if e.val = 0x66 then some ([0x0C], rest)
    else if e.val = 0x6E then some ([0x0A], rest)
    else if e.val = 0x72 then some ([0x0D], rest)
    else if e.val = 0x74 then some ([0x09], rest)
    else if e.val = 0x75 then
      match hex4 rest with
      | none => none
      | some (rr, rest1) =>
        if 0xD800 ≤ rr ∧ rr < 0xE000 then
          let dec := utf16DecodeRune rr ((getu4 rest1).map Prod.fst)
          if dec ≠ RuneError then some (EncodeRune dec, rest1.drop 6)
          else some (EncodeRune RuneError, rest1)
        else some (EncodeRune rr, rest1)
    else none

/-- A JSON string literal from just after its opening quote: the scanner's
validation and unquoteBytes in one pass (the scanner rejects exactly the inputs
on which this fails).  Returns the unquoted string and the input after the
closing quote. -/
def parseStringLoop : Nat → List Byte → Except GoError (List Byte × List Byte)
  | 0, _ => Except.error GoError.SyntaxError
  | _ + 1, [] => Except.error GoError.SyntaxError
  | fuel + 1, c :: rest =>
    if c.val = 0x22 then Except.ok ([], rest)
    else if c.val = 0x5C then
      match unescape rest with
      | none => Except.error GoError.SyntaxError
      | some (out, rest1) =>
        match parseStringLoop fuel rest1 with
        | Except.error e => Except.error e
        | Except.ok (s, rest2) => Except.ok (out ++ s, rest2)
    else if c.val < 0x20 then Except.error GoError.SyntaxError
    else if c.val < 0x80 then
      match parseStringLoop fuel rest with
      | Except.error e => Except.error e
      | Except.ok (s, rest2) => Except.ok (c :: s, rest2)
    else
      let d := DecodeRune (c :: rest)
      match parseStringLoop fuel ((c :: rest).drop d.2) with
      | Except.error e => Except.error e
      | Except.ok (s, rest2) => Except.ok (EncodeRune d.1 ++ s, rest2)

def parseString (src : List Byte) : Except GoError (List Byte × List Byte) :=
  parseStringLoop (src.length + 1) src

def isDigit (c : Byte) : Bool := decide (0x30 ≤ c.val ∧ c.val ≤ 0x39)

def takeDigits : List Byte → List Byte × List Byte
  | [] => ([], [])
  | c :: cs => if isDigit c then ((takeDigits cs).1.cons c, (takeDigits cs).2) else ([], c :: cs)

/-- The exponent of a number literal, if one follows. -/
def scanExponent (src : List Byte) : Option (List Byte × List Byte) :=
  match src with
  | e :: rest =>
    if e.val = 0x65 ∨ e.val = 0x45 then
      match rest with
      | sg :: rest1 =>
        if sg.val = 0x2B ∨ sg.val = 0x2D then
          let ds := takeDigits rest1
          if ds.1.isEmpty then none else some (e :: sg :: ds.1, ds.2)
        else
          let ds := takeDigits rest
          if ds.1.isEmpty then none else some (e :: ds.1, ds.2)
      | [] => none
    else some ([], src)
  | [] => some ([], [])

/-- The fraction and exponent of a number literal, if they follow. -/
def scanFraction (src : List Byte) : Option (List Byte × List Byte) :=
  match src with
  | dot :: rest =>
    if dot.val = 0x2E then
      let ds := takeDigits rest
      if ds.1.isEmpty then none
      else (scanExponent ds.2).map (fun r => (dot :: ds.1 ++ r.1, r.2))
    else scanExponent src
  | [] => some ([], [])

/-- The integer part, fraction and exponent of a number literal. -/
def scanUnsigned (src : List Byte) : Option (List Byte × List Byte) :=
  match src with
  | c :: rest =>
    if c.val = 0x30 then (scanFraction rest).map (fun r => (c :: r.1, r.2))
    else if 0x31 ≤ c.val ∧ c.val ≤ 0x39 then
      let ds := takeDigits rest
      (scanFraction ds.2).map (fun r => (c :: ds.1 ++ r.1, r.2))
    else none
  | [] => none

/-- A JSON number literal as the scanner delimits it: the literal and the rest. -/
def scanNumber (src : List Byte) : Option (List Byte × List Byte) :=
  match src with
  | c :: rest =>
    if c.val = 0x2D then (scanUnsigned rest).map (fun r => (c :: r.1, r.2))
    else scanUnsigned src
  | [] => none

/-- Removes an expected literal from the front of the input. -/
def expectLit (lit : List Byte) (src : List Byte) : Option (List Byte) :=
  if src.take lit.length = lit then some (src.drop lit.length) else none

/-- What the parser is reading: a value, the members of an object (after the
opening brace or a comma, white space skipped) or the items of an array. -/
inductive ParseMode where
  | value
  | members (acc : List (List Byte × JValue))
  | elems (acc : List JValue)

/-- The nesting limit of the JSON scanner. -/
def maxNestingDepth : Nat := 10000

/-- The JSON grammar as the scanner of encoding/json accepts it.  The depth is the
number of open objects and arrays. -/
def parse : Nat → Nat → ParseMode → List Byte → Except GoError (JValue × List Byte)
  | 0, _, _, _ => Except.error GoError.SyntaxError
  | fuel + 1, depth, ParseMode.value, src =>
    match skipSpace src with
    | [] => Except.error GoError.SyntaxError
    | c :: t =>
      if c.val = 0x7B then
        if depth + 1 > maxNestingDepth then Except.error GoError.SyntaxError
        else
          match skipSpace t with
          | [] => Except.error GoError.SyntaxError
          | c1 :: t1 =>
            if c1.val = 0x7D then Except.ok (JValue.object [], t1)
            else parse fuel (depth + 1) (ParseMode.members []) (c1 :: t1)
      else if c.val = 0x5B then
        if depth + 1 > maxNestingDepth then Except.error GoError.SyntaxError
        else
          match skipSpace t with
          | [] => Except.error GoError.SyntaxError
          | c1 :: t1 =>
            if c1.val = 0x5D then Except.ok (JValue.array [], t1)
            else parse fuel (depth + 1) (ParseMode.elems []) (c1 :: t1)
      else if c.val = 0x22 then
        match parseString t with
        | Except.error e => Except.error e
        | Except.ok (s, rest) => Except.ok (JValue.string s, rest)
      else if c.val = 0x2D ∨ isDigit c then
        match scanNumber (c :: t) with
        | none => Except.error GoError.SyntaxError
        | some (lit, rest) => Except.ok (JValue.number lit, rest)
      else if c.val = 0x74 then
        match expectLit (ascii "true") (c :: t) with
        | none => Except.error GoError.SyntaxError
        | some rest => Except.ok (JValue.bool true, rest)
      else if c.val = 0x66 then
        match expectLit (ascii "false") (c :: t) with
        | none => Except.error GoError.SyntaxError
        | some rest => Except.ok (JValue.bool false, rest)
      else if c.val = 0x6E then
        match expectLit (ascii "null") (c :: t) with
        | none => Except.error GoError.SyntaxError
        | some rest => Except.ok (JValue.null, rest)
      else Except.error GoError.SyntaxError
  | fuel + 1, depth, ParseMode.members acc, src =>
    match src with
    | [] => Except.error GoError.SyntaxError
    | q :: t =>
      if q.val ≠ 0x22 then Except.error GoError.SyntaxError
      else
        match parseString t with
        | Except.error e => Except.error e
        | Except.ok (key, rest) =>
          match skipSpace rest with
          | [] => Except.error GoError.SyntaxError
          | colon :: rest1 =>
            if colon.val ≠ 0x3A then Except.error GoError.SyntaxError
            else
              match parse fuel depth ParseMode.value rest1 with
              | Except.error e => Except.error e
              | Except.ok (v, rest2) =>
                match skipSpace rest2 with
                | [] => Except.error GoError.SyntaxError
                | sep :: rest3 =>
                  if sep.val = 0x2C then
                    parse fuel depth (ParseMode.members (acc ++ [(key, v)])) (skipSpace rest3)
                  else if sep.val = 0x7D then Except.ok (JValue.object (acc ++ [(key, v)]), rest3)
                  else Except.error GoError.SyntaxError
  | fuel + 1, depth, ParseMode.elems acc, src =>
    match parse fuel depth ParseMode.value src with
    | Except.error e => Except.error e
    | Except.ok (v, rest) =>
      match skipSpace rest with
      | [] => Except.error GoError.SyntaxError
      | sep :: rest1 =>
        if sep.val = 0x2C then parse fuel depth (ParseMode.elems (acc ++ [v])) rest1
        else if sep.val = 0x5D then Except.ok (JValue.array (acc ++ [v]), rest1)
        else Except.error GoError.SyntaxError

/-- The function checkValid together with the scan of the decoder: the whole
input is one JSON value between white space. -/
def parseJSON (data : List Byte) : Except GoError JValue :=
  match parse (data.length + 1) 0 ParseMode.value data with
  | Except.error e => Except.error e
  | Except.ok (v, rest) =>
    if (skipSpace rest).isEmpty then Except.ok v else Except.error GoError.SyntaxError

/-- The function foldRune of encoding/json restricted to what can be observed
against ASCII field names: the only runes outside ASCII that fold to an ASCII
letter are U+017F (to S) and U+212A (to K); any other rune folds to a rune
outside ASCII and is kept as it is here. -/
def foldRune (r : Nat) : Nat :=
  if r = 0x17F then 0x53 else if r = 0x212A then 0x4B else r

/-- The loop of appendFoldedName. -/
def foldNameLoop : Nat → List Byte → List Byte
  | 0, _ => []
  | _ + 1, [] => []
  | fuel + 1, c :: rest =>
    if c.val < 0x80 then
      (if 0x61 ≤ c.val ∧ c.val ≤ 0x7A then Fin.ofNat (c.val - 0x20) else c) :: foldNameLoop fuel rest
    else
      let d := DecodeRune (c :: rest)
      EncodeRune (foldRune d.1) ++ foldNameLoop fuel ((c :: rest).drop d.2)

/-- The function foldName of encoding/json. -/
def foldName (name : List Byte) : List Byte := foldNameLoop name.length name

/-- The field that a member name selects: an exact match first, then a match of
the folded names. -/
def findField (names : List (List Byte)) (key : List Byte) : Option Nat :=
  match names.indexOf? key with
  | some i => some i
  | none => (names.map foldName).indexOf? (foldName key)

/-- The function strconv.ParseUint(lit, 10, 64) followed by the overflow check
for a field of the given width; a literal that is not a plain run of digits, or
whose value does not fit, is rejected. -/
def parseUintLit (bits : Nat) (lit : List Byte) : Option Nat :=
  if lit.isEmpty ∨ ¬ lit.all isDigit then none
  else
    let v := lit.foldl (fun n c => n * 10 + (c.val - 0x30)) 0
    if v < 2 ^ bits then some v else none

/-- The method decodeState.saveError: the first error is kept. -/
def saveError (saved : Option GoError) (e : GoError) : Option GoError :=
  match saved with
  | some e0 => some e0
  | none => some e

/-! ## message.go: the Message payload -/

structure Message where
  Message : Bytes
  To : Bytes
  From : Bytes
  deriving DecidableEq, Repr

/-- The exported field names of Message, in declaration order. -/
def messageFields : List (Bytes) := [ascii "Message", ascii "To", ascii "From"]

/-- The decoder's treatment of one object member for a Message destination: a
JSON string is stored in the selected field, null leaves it alone, any other
value is an UnmarshalTypeError that is saved while decoding goes on; members
that select no field are skipped. -/
def storeMessageField (st : Message × Option GoError) (kv : Bytes × JValue) :
    Message × Option GoError :=
  match findField messageFields kv.1 with
  | none => st
  | some i =>
    match kv.2 with
    | JValue.string v =>
      if i = 0 then ({ st.1 with Message := v }, st.2)
      else if i = 1 then ({ st.1 with To := v }, st.2)
      else ({ st.1 with From := v }, st.2)
    | JValue.null => st
    | _ => (st.1, saveError st.2 GoError.UnmarshalTypeError)

/-- The call json.Unmarshal(data, &m) for a Message: the value of m afterwards
and the error. -/
def unmarshalMessage (data : Bytes) (m : Protocol.Message) : Message × Option GoError :=
  match parseJSON data with
  | Except.error e => (m, some e)
  | Except.ok v =>
    match v with
    | JValue.object members => members.foldl storeMessageField (m, none)
    | JValue.null => (m, none)
    | _ => (m, some GoError.UnmarshalTypeError)

/-- The exported field names of PayloadHeaders, in declaration order. -/
def headerFields : List (Bytes) := [ascii "Size", ascii "Type", ascii "Encoding"]

/-- The decoder's treatment of one object member for a PayloadHeaders
destination. -/
def storeHeaderField (st : PayloadHeaders × Option GoError) (kv : Bytes × JValue) :
    PayloadHeaders × Option GoError :=
  match findField headerFields kv.1 with
  | none => st
  | some i =>
    match kv.2 with
    | JValue.null => st
    | JValue.number lit =>
      if i = 0 then
        match parseUintLit 32 lit with
        | some v => ({ st.1 with Size := v }, st.2)
        | none => (st.1, saveError st.2 GoError.UnmarshalTypeError)
      else if i = 1 then
        match parseUintLit 8 lit with
        | some v => ({ st.1 with Type_ := v }, st.2)
        | none => (st.1, saveError st.2 GoError.UnmarshalTypeError)
      else (st.1, saveError st.2 GoError.UnmarshalTypeError)
    | JValue.string v =>
      if i = 2 then ({ st.1 with Encoding := v }, st.2)
      else (st.1, saveError st.2 GoError.UnmarshalTypeError)
    | _ => (st.1, saveError st.2 GoError.UnmarshalTypeError)

/-- The call json.Unmarshal(data, &h) for a PayloadHeaders. -/
def unmarshalHeaders (data : Bytes) (h : PayloadHeaders) : PayloadHeaders × Option GoError :=
  match parseJSON data with
  | Except.error e => (h, some e)
  | Except.ok v =>
    match v with
    | JValue.object members => members.foldl storeHeaderField (h, none)
    | JValue.null => (h, none)
    | _ => (h, some GoError.UnmarshalTypeError)

def Message.String (m : Protocol.Message) : Bytes := marshalMessage m.Message m.To m.From

def Message.Byte (m : Protocol.Message) : Bytes := marshalMessage m.Message m.To m.From

def Message.WriteTo {σ : Type} (m : Protocol.Message) (W : Writer σ) (s : σ) : (Nat × Option GoError) × σ :=
  let encoded := EncodeToString m.Byte
  W.Write s encoded

/-- The buffer after r.Read(buf) on a fresh make([]byte, size): the bytes read,
then zeros. -/
def filled (size : Nat) (read : Bytes) : Bytes :=
  read.take size ++ List.replicate (size - read.length) 0

/-- The method (m *Message) ReadFrom: the receiver afterwards, the count, the
error, and the source afterwards. -/
def Message.ReadFrom {σ : Type} (m : Protocol.Message) (R : Reader σ) (s : σ) :
    (Protocol.Message × Nat × Option GoError) × σ :=
  let r := binaryReadUint32 R s
  match r.1 with
  | Except.error e => ((m, 0, some e), r.2)
  | Except.ok size =>
    let rd := R.Read r.2 size
    let n := rd.1.1.length
    match rd.1.2 with
    | some e => ((m, n, some e), rd.2)
    | none =>
      match DecodeString (filled size rd.1.1) with
      | Except.error e => ((m, n, some e), rd.2)
      | Except.ok decoded =>
        let u := unmarshalMessage decoded { Message := [], To := [], From := [] }
        match u.2 with
        | some e => ((m, n, some e), rd.2)
        | none => ((u.1, n, none), rd.2)

/-! ## p_errors.go: the Error_ payload, and heartbeat.go: the Beat payload -/

def Error_.String (e : Bytes) : Bytes := e

def Error_.Byte (e : Bytes) : Bytes := e

def Error_.WriteTo {σ : Type} (e : Bytes) (W : Writer σ) (s : σ) : (Nat × Option GoError) × σ :=
  let encoded := EncodeToString (Error_.Byte e)
  W.Write s encoded

/-- The method (e *Error_) ReadFrom. -/
def Error_.ReadFrom {σ : Type} (e : Bytes) (R : Reader σ) (s : σ) :
    (Bytes × Nat × Option GoError) × σ :=
  let r := binaryReadUint32 R s
  match r.1 with
  | Except.error err => ((e, 0, some err), r.2)
  | Except.ok size =>
    let rd := R.Read r.2 size
    let n := rd.1.1.length
    match rd.1.2 with
    | some err => ((e, n, some err), rd.2)
    | none =>
      match DecodeString (filled size rd.1.1) with
      | Except.error err => ((e, n, some err), rd.2)
      | Except.ok decoded => ((decoded, n, none), rd.2)

def Beat.String (_ : Bytes) : Bytes := []

def Beat.Byte (_ : Bytes) : Bytes := []

def Beat.WriteTo {σ : Type} (_ : Bytes) (W : Writer σ) (s : σ) : (Nat × Option GoError) × σ :=
  let r := W.Write s []
  match r.1.2 with
  | some err => ((0, some err), r.2)
  | none => ((r.1.1, none), r.2)

def Beat.ReadFrom {σ : Type} (b : Bytes) (_ : Reader σ) (s : σ) :
    (Bytes × Nat × Option GoError) × σ :=
  ((b, 0, none), s)

/-! ## The Payload interface -/

/-- The three implementations of the interface Payload. -/
inductive Payload where
  | Beat (b : Bytes)
  | Message (m : Protocol.Message)
  | Error_ (e : Bytes)
  deriving DecidableEq, Repr

def Payload.String : Payload → Bytes
  | Payload.Beat b => Beat.String b
  | Payload.Message m => m.String
  | Payload.Error_ e => Error_.String e

def Payload.Byte : Payload → Bytes
  | Payload.Beat b => Beat.Byte b
  | Payload.Message m => m.Byte
  | Payload.Error_ e => Error_.Byte e

def Payload.WriteTo {σ : Type} (p : Payload) (W : Writer σ) (s : σ) : (Nat × Option GoError) × σ :=
  match p with
  | Payload.Beat b => Beat.WriteTo b W s
  | Payload.Message m => m.WriteTo W s
  | Payload.Error_ e => Error_.WriteTo e W s

/-! ## heartbeat.go, message.go, p_errors.go: the codecs -/

def encodeBeat {σ : Type} (W : Writer σ) (s : σ) (payload : Payload) : (Nat × Option GoError) × σ :=
  let r := binaryWriteUint8 W s HeartBeat
  match r.1 with
  | some err => ((0, some err), r.2)
  | none =>
    let n := 1
    let w := payload.WriteTo W r.2
    ((n + w.1.1, w.1.2), w.2)

def decodeBeat {σ : Type} (s : σ) : (Option Payload × Option GoError) × σ :=
  ((some (Payload.Beat []), none), s)

def encodeMessage {σ : Type} (W : Writer σ) (s : σ) (payload : Payload) :
    (Nat × Option GoError) × σ :=
  let r1 := binaryWriteUint8 W s MessageType
  match r1.1 with
  | some err => ((0, some err), r1.2)
  | none =>
    let n := 1
    let payloadHeaders : PayloadHeaders :=
      { Size := uint32 (EncodeToString payload.Byte).length, Type_ := 0, Encoding := [] }
    let payloadHeadersJson := marshalHeaders payloadHeaders
    let encoded := EncodeToString payloadHeadersJson
    let r2 := binaryWriteUint8 W r1.2 (Fin.ofNat (uint8 encoded.length))
    match r2.1 with
    | some err => ((n, some err), r2.2)
    | none =>
      let r3 := W.Write r2.2 encoded
      match r3.1.2 with
      | some _ => ((n, none), r3.2)
      | none =>
        let n := n + encoded.length
        let w := payload.WriteTo W r3.2
        ((n + w.1.1, w.1.2), w.2)

def decodeMessage {σ : Type} (R : Reader σ) (s : σ) : (Option Payload × Option GoError) × σ :=
  let r1 := binaryReadUint8 R s
  match r1.1 with
  | Except.error err => ((none, some err), r1.2)
  | Except.ok size =>
    let rd := R.Read r1.2 size.val
    match rd.1.2 with
    | some err => ((none, some err), rd.2)
    | none =>
      match DecodeString (filled size.val rd.1.1) with
      | Except.error err => ((none, some err), rd.2)
      | Except.ok decoded =>
        let u := unmarshalHeaders decoded { Size := 0, Type_ := 0, Encoding := [] }
        match u.2 with
        | some err => ((none, some err), rd.2)
        | none =>
          let headers := u.1
          if headers.Size > MaxPayloadsize then ((none, some GoError.ErrorMaxPayloadSize), rd.2)
          else
            let payloadSize := headers.Size
            let payloadSizeBuf := PutUint32 payloadSize
            let rf := Message.ReadFrom { Message := [], To := [], From := [] } (multiReader R)
              (NewMultiReader payloadSizeBuf rd.2)
            match rf.1.2.2 with
            | some err => ((none, some err), rf.2.second)
            | none => ((some (Payload.Message rf.1.1), none), rf.2.second)

def encodeError {σ : Type} (W : Writer σ) (s : σ) (payload : Payload) : (Nat × Option GoError) × σ :=
  let r1 := binaryWriteUint8 W s Error
  match r1.1 with
  | some err => ((0, some err), r1.2)
  | none =>
    let n := 1
    let r2 := binaryWriteUint32 W r1.2 (uint32 (EncodeToString payload.Byte).length)
    match r2.1 with
    | some err => ((n, some err), r2.2)
    | none =>
      let n := n + 1
      let w := payload.WriteTo W r2.2
      ((n + w.1.1, w.1.2), w.2)

def decodeError {σ : Type} (R : Reader σ) (s : σ) : (Option Payload × Option GoError) × σ :=
  let r1 := binaryReadUint32 R s
  match r1.1 with
  | Except.error err => ((none, some err), r1.2)
  | Except.ok size =>
    if uint32 size > MaxPayloadsize then ((none, some GoError.ErrorMaxPayloadSize), r1.2)
    else
      let payloadSize := size
      let errorBuf := PutUint32 payloadSize
      let rf := Error_.ReadFrom [] (multiReader R) (NewMultiReader errorBuf r1.2)
      match rf.1.2.2 with
      | some err => ((none, some err), rf.2.second)
      | none => ((some (Payload.Error_ rf.1.1), none), rf.2.second)

/-! ## protocol.go: the dispatcher -/

/-- The function Decode: the pair (Payload, error) it returns and the source
afterwards. -/
def Decode {σ : Type} (R : Reader σ) (s : σ) : (Option Payload × Option GoError) × σ :=
  let r := binaryReadUint8 R s
  match r.1 with
  | Except.error err => ((none, some err), r.2)
  | Except.ok typ =>
    if typ = HeartBeat then decodeBeat r.2
    else if typ = MessageType then decodeMessage R r.2
    else if typ = Error then decodeError R r.2
    else ((none, some GoError.ErrorUnknownType), r.2)

/-- The function Encode: the pair (count, error) it returns and the sink
afterwards. -/
def Encode {σ : Type} (W : Writer σ) (s : σ) (payload : Payload) (payloadType : Byte) :
    (Nat × Option GoError) × σ :=
  if payloadType = HeartBeat then encodeBeat W s payload
  else if payloadType = MessageType then encodeMessage W s payload
  else if payloadType = Error then encodeError W s payload
  else ((0, some GoError.ErrorUnknownType), s)

/-! ## Sinks that fail -/

/-- A sink that accepts as many writes as the first component of its state says
and fails every later write, storing nothing of it and reporting writeError 1. -/
def limitedWriter : Writer (Nat × Bytes) :=
  ⟨fun s p =>
    match s.1 with
    | 0 => ((0, some (GoError.writeError 1)), s)
    | k + 1 => ((p.length, none), (k, s.2 ++ p))⟩

/-! ## Frames that decode to their payload -/

/-- A payload with the tag of its variant and a base64 body within the size
limit. -/
def validFrame (p : Payload) (t : Byte) : Prop :=
  match p with
  | Payload.Beat _ => t = HeartBeat
  | Payload.Message m =>
    t = MessageType ∧ (EncodeToString (marshalMessage m.Message m.To m.From)).length ≤ 10485760
  | Payload.Error_ e => t = Error ∧ (EncodeToString e).length ≤ 10485760

instance validFrame.decidable (p : Payload) (t : Byte) : Decidable (validFrame p t) := by
  cases p <;> (unfold validFrame; infer_instance)

/-! ## Facts about the in-memory reader and writer -/

theorem MaxPayloadsize_eq : MaxPayloadsize = 10485760 := by decide

theorem ReadAtLeastLoop_done {σ : Type} (R : Reader σ) (bufLen min fuel : Nat) (s : σ)
    (acc : Bytes) (err : Option GoError) (h : ¬ (acc.length < min ∧ err = none)) :
    ReadAtLeastLoop R bufLen min fuel s acc err = ((acc, err), s) := by
  unfold ReadAtLeastLoop
  simp [h]

theorem ReadFull_buffer_of_le (src : Bytes) (k : Nat) (h : k ≤ src.length) :
    ReadFull bufferReader src k = ((src.take k, none), src.drop k) := by
  rcases Nat.eq_zero_or_pos k with hk | hk
  · subst hk
    simp [ReadFull, ReadAtLeastLoop_done]
  · obtain ⟨j, rfl⟩ : ∃ j, k = j + 1 := ⟨k - 1, by omega⟩
    have hne : src ≠ [] := by
      intro h0
      subst h0
      simp at h
    unfold ReadFull
    unfold ReadAtLeastLoop
    have hlen : (List.take (j + 1) src).length = j + 1 := by
      simp [List.length_take]
      omega
    simp [bufferReader, Buffer.Read, hne, ReadAtLeastLoop_done, hlen]

theorem ReadFull_buffer_append (bs rest : Bytes) :
    ReadFull bufferReader (bs ++ rest) bs.length = ((bs, none), rest) := by
  rw [ReadFull_buffer_of_le _ _ (by simp)]
  simp

theorem ReadFull_buffer_nil (k : Nat) (hk : 0 < k) :
    ReadFull bufferReader [] k = (([], some GoError.EOF), []) := by
  obtain ⟨j, rfl⟩ : ∃ j, k = j + 1 := ⟨k - 1, by omega⟩
  unfold ReadFull
  unfold ReadAtLeastLoop
  simp [bufferReader, Buffer.Read, ReadAtLeastLoop_done]

theorem binaryReadUint8_buffer_cons (b : Byte) (rest : Bytes) :
    binaryReadUint8 bufferReader (b :: rest) = (Except.ok b, rest) := by
  have h := ReadFull_buffer_append [b] rest
  simp only [List.length_singleton, List.singleton_append] at h
  simp [binaryReadUint8, h]

theorem binaryReadUint32_buffer (b0 b1 b2 b3 : Byte) (rest : Bytes) :
    binaryReadUint32 bufferReader (b0 :: b1 :: b2 :: b3 :: rest)
      = (Except.ok (Uint32 [b0, b1, b2, b3]), rest) := by
  have h := ReadFull_buffer_append [b0, b1, b2, b3] rest
  simp only [List.length_cons, List.length_nil, List.cons_append, List.nil_append] at h
  simp [binaryReadUint32, h]

theorem Uint32_lt (bs : Bytes) : Uint32 bs < 2 ^ 32 := by
  unfold Uint32
  have h0 := (bs.getD 0 0).isLt
  have h1 := (bs.getD 1 0).isLt
  have h2 := (bs.getD 2 0).isLt
  have h3 := (bs.getD 3 0).isLt
  omega

theorem Uint32_PutUint32 (v : Nat) : Uint32 (PutUint32 v) = v % 2 ^ 32 := by
  simp [Uint32, PutUint32, Fin.ofNat]
  omega

theorem PutUint32_length (v : Nat) : (PutUint32 v).length = 4 := rfl

theorem uint32_of_lt (n : Nat) (h : n < 2 ^ 32) : uint32 n = n := by
  unfold uint32
  omega

/-- Reading the synthesized four-byte length back from the MultiReader. -/
theorem binaryReadUint32_multi {σ : Type} (R : Reader σ) (v : Nat) (s : σ) :
    binaryReadUint32 (multiReader R) (NewMultiReader (PutUint32 v) s)
      = (Except.ok (v % 2 ^ 32), { first := [], second := s, remaining := 2 }) := by
  have hU := Uint32_PutUint32 v
  simp only [PutUint32] at hU
  unfold binaryReadUint32 ReadFull
  unfold ReadAtLeastLoop
  simp only [Nat.reducePow] at hU
  simp [multiReader, MultiReader.Read, NewMultiReader, Buffer.Read, PutUint32,
    ReadAtLeastLoop_done, hU]

/-- The body read that follows: the first reader is exhausted, so the request
goes to the in-memory source, except that a request for zero bytes is answered
by the exhausted first reader. -/
theorem MultiReader_Read_body (src : Bytes) (k : Nat) :
    MultiReader.Read bufferReader { first := [], second := src, remaining := 2 } k
      = if k = 0 then (([], none), { first := [], second := src, remaining := 2 })
        else if src = [] then (([], some GoError.EOF), { first := [], second := [], remaining := 0 })
        else ((src.take k, none), { first := [], second := src.drop k, remaining := 1 }) := by
  by_cases hk : k = 0
  · simp [MultiReader.Read, Buffer.Read, hk]
  · by_cases hs : src = []
    · simp [MultiReader.Read, MultiReader.readSecond, Buffer.Read, hk, hs, bufferReader]
    · have : 0 < (List.take k src).length := by
        simp [List.length_take]
        exact ⟨by omega, List.length_pos.mpr hs⟩
      simp [MultiReader.Read, MultiReader.readSecond, Buffer.Read, hk, hs, bufferReader]

/-! ## base64: decoding inverts encoding -/

theorem decodeMap_b64Char_fin : ∀ i : Fin 64, decodeMap (b64Char i.val) = i.val := by decide

theorem decodeMap_b64Char (i : Nat) (h : i < 64) : decodeMap (b64Char i) = i :=
  decodeMap_b64Char_fin ⟨i, h⟩

theorem decodeMap_padChar : decodeMap padChar = 255 := by decide

theorem padChar_not_newline : ¬ (padChar = 10 ∨ padChar = 13) := by decide

theorem decodeQuantumLoop_full (src : Bytes) (dbuf : List Nat) (h : dbuf.length = 4) :
    decodeQuantumLoop src dbuf = Except.ok (dbuf, src) := by
  cases src <;> simp [decodeQuantumLoop, h]

theorem decodeQuantumLoop_valid (i : Nat) (h : i < 64) (src : Bytes) (dbuf : List Nat)
    (hd : dbuf.length < 4) :
    decodeQuantumLoop (b64Char i :: src) dbuf = decodeQuantumLoop src (dbuf ++ [i]) := by
  have h1 := decodeMap_b64Char i h
  rw [decodeQuantumLoop]
  have : dbuf.length ≠ 4 := by omega
  have h2 : decodeMap (b64Char i) ≠ 255 := by omega
  simp [this, h1]
  omega

theorem decodeQuantum_four (d0 d1 d2 d3 : Nat) (h0 : d0 < 64) (h1 : d1 < 64) (h2 : d2 < 64)
    (h3 : d3 < 64) (tl : Bytes) :
    decodeQuantumLoop (b64Char d0 :: b64Char d1 :: b64Char d2 :: b64Char d3 :: tl) []
      = Except.ok ([d0, d1, d2, d3], tl) := by
  rw [decodeQuantumLoop_valid _ h0 _ _ (by simp), decodeQuantumLoop_valid _ h1 _ _ (by simp),
    decodeQuantumLoop_valid _ h2 _ _ (by simp), decodeQuantumLoop_valid _ h3 _ _ (by simp),
    decodeQuantumLoop_full _ _ (by simp)]
  simp

theorem decodeQuantum_three (d0 d1 d2 : Nat) (h0 : d0 < 64) (h1 : d1 < 64) (h2 : d2 < 64) :
    decodeQuantumLoop [b64Char d0, b64Char d1, b64Char d2, padChar] []
      = Except.ok ([d0, d1, d2], []) := by
  rw [decodeQuantumLoop_valid _ h0 _ _ (by simp), decodeQuantumLoop_valid _ h1 _ _ (by simp),
    decodeQuantumLoop_valid _ h2 _ _ (by simp)]
  simp [decodeQuantumLoop, decodeMap_padChar, afterPadding, skipNewlines, padChar_not_newline]

theorem decodeQuantum_two (d0 d1 : Nat) (h0 : d0 < 64) (h1 : d1 < 64) :
    decodeQuantumLoop [b64Char d0, b64Char d1, padChar, padChar] []
      = Except.ok ([d0, d1], []) := by
  rw [decodeQuantumLoop_valid _ h0 _ _ (by simp), decodeQuantumLoop_valid _ h1 _ _ (by simp)]
  simp [decodeQuantumLoop, decodeMap_padChar, afterPadding, skipNewlines, padChar_not_newline]

theorem decodeLoop_nil (fuel : Nat) : decodeLoop fuel [] = Except.ok [] := by
  cases fuel <;> simp [decodeLoop]

theorem EncodeToString_length (e : Bytes) : (EncodeToString e).length = 4 * ((e.length + 2) / 3) := by
  induction e using EncodeToString.induct with
  | case1 => simp [EncodeToString]
  | case2 a => simp [EncodeToString]
  | case3 a b => simp [EncodeToString]
  | case4 a b c rest ih =>
    simp [EncodeToString, ih]
    omega

theorem decodeLoop_EncodeToString (e : Bytes) :
    ∀ fuel, e.length ≤ fuel → decodeLoop fuel (EncodeToString e) = Except.ok e := by
  induction e using EncodeToString.induct with
  | case1 => intro fuel _; simp [EncodeToString, decodeLoop_nil]
  | case2 a =>
    intro fuel hf
    obtain ⟨f, rfl⟩ : ∃ f, fuel = f + 1 := ⟨fuel - 1, by simp at hf; omega⟩
    have ha := a.isLt
    simp only [EncodeToString, decodeLoop]
    rw [decodeQuantum_two _ _ (Nat.mod_lt _ (by norm_num)) (Nat.mod_lt _ (by norm_num))]
    simp [decodeLoop_nil, quantumBytes]
    apply Fin.ext
    simp [Fin.ofNat]
    omega
  | case3 a b =>
    intro fuel hf
    obtain ⟨f, rfl⟩ : ∃ f, fuel = f + 1 := ⟨fuel - 1, by simp at hf; omega⟩
    have ha := a.isLt
    have hb := b.isLt
    simp only [EncodeToString, decodeLoop]
    rw [decodeQuantum_three _ _ _ (Nat.mod_lt _ (by norm_num)) (Nat.mod_lt _ (by norm_num))
      (Nat.mod_lt _ (by norm_num))]
    simp [decodeLoop_nil, quantumBytes]
    constructor <;> (apply Fin.ext; simp [Fin.ofNat]; omega)
  | case4 a b c rest ih =>
    intro fuel hf
    obtain ⟨f, rfl⟩ : ∃ f, fuel = f + 1 := ⟨fuel - 1, by simp at hf; omega⟩
    have ha := a.isLt
    have hb := b.isLt
    have hc := c.isLt
    simp only [EncodeToString, decodeLoop]
    rw [decodeQuantum_four _ _ _ _ (Nat.mod_lt _ (by norm_num)) (Nat.mod_lt _ (by norm_num))
      (Nat.mod_lt _ (by norm_num)) (Nat.mod_lt _ (by norm_num))]
    simp only [List.isEmpty_cons, Bool.false_eq_true, if_false]
    rw [ih f (by simp at hf; omega)]
    simp [quantumBytes]
    refine ⟨?_, ?_, ?_⟩ <;> (apply Fin.ext; simp [Fin.ofNat]; omega)

/-- DecodeString inverts EncodeToString. -/
theorem DecodeString_EncodeToString (e : Bytes) : DecodeString (EncodeToString e) = Except.ok e := by
  unfold DecodeString
  apply decodeLoop_EncodeToString
  rw [EncodeToString_length]
  omega

/-! ## The readers of the two payloads behind the synthesized prefix -/

theorem binaryReadUint32_buffer_PutUint32 (v : Nat) (rest : Bytes) :
    binaryReadUint32 bufferReader (PutUint32 v ++ rest) = (Except.ok (v % 2 ^ 32), rest) := by
  have h := binaryReadUint32_buffer (Fin.ofNat (v / 2 ^ 24)) (Fin.ofNat (v / 2 ^ 16))
    (Fin.ofNat (v / 2 ^ 8)) (Fin.ofNat v) rest
  have hU := Uint32_PutUint32 v
  simp only [PutUint32] at hU
  rw [hU] at h
  simpa [PutUint32] using h

theorem filled_self (bs : Bytes) : filled bs.length bs = bs := by
  simp [filled]

theorem DecodeString_nil : DecodeString [] = Except.ok [] := by
  simp [DecodeString, decodeLoop]

/-- What Error_.ReadFrom does on MultiReader(prefix holding v, in-memory source). -/
theorem Error_ReadFrom_multi (e0 src : Bytes) (v : Nat) :
    Error_.ReadFrom e0 (multiReader bufferReader) (NewMultiReader (PutUint32 v) src)
      = if v % 2 ^ 32 = 0 then
          (([], 0, none), { first := [], second := src, remaining := 2 })
        else if src = [] then
          ((e0, 0, some GoError.EOF), { first := [], second := [], remaining := 0 })
        else
          match DecodeString (filled (v % 2 ^ 32) (src.take (v % 2 ^ 32))) with
          | Except.error err =>
            ((e0, (src.take (v % 2 ^ 32)).length, some err),
              { first := [], second := src.drop (v % 2 ^ 32), remaining := 1 })
          | Except.ok decoded =>
            ((decoded, (src.take (v % 2 ^ 32)).length, none),
              { first := [], second := src.drop (v % 2 ^ 32), remaining := 1 }) := by
  unfold Error_.ReadFrom
  rw [binaryReadUint32_multi]
  simp only [multiReader]
  rw [MultiReader_Read_body]
  generalize v % 2 ^ 32 = size
  by_cases hv : size = 0
  · simp [hv, filled, DecodeString_nil]
  · by_cases hs : src = []
    · simp [hv, hs]
    · simp only [hv, hs, if_false]

/-- What decodeError does on an in-memory source that starts with four bytes. -/
theorem decodeError_buffer (b0 b1 b2 b3 : Byte) (rest : Bytes) :
    decodeError bufferReader (b0 :: b1 :: b2 :: b3 :: rest)
      = if Uint32 [b0, b1, b2, b3] > MaxPayloadsize then
          ((none, some GoError.ErrorMaxPayloadSize), rest)
        else
          let rf := Error_.ReadFrom [] (multiReader bufferReader)
            (NewMultiReader (PutUint32 (Uint32 [b0, b1, b2, b3])) rest)
          match rf.1.2.2 with
          | some err => ((none, some err), rf.2.second)
          | none => ((some (Payload.Error_ rf.1.1), none), rf.2.second) := by
  have hlt : uint32 (Uint32 [b0, b1, b2, b3]) = Uint32 [b0, b1, b2, b3] :=
    uint32_of_lt _ (Uint32_lt _)
  unfold decodeError
  rw [binaryReadUint32_buffer]
  dsimp only
  rw [hlt]

theorem afterPadding_error (dbuf : List Nat) (src : Bytes) (e : GoError)
    (h : afterPadding dbuf src = Except.error e) : e = GoError.CorruptInputError := by
  unfold afterPadding at h
  split at h
  · cases h
  · cases h; rfl

theorem decodeQuantumLoop_error (src : Bytes) :
    ∀ (dbuf : List Nat) (e : GoError), decodeQuantumLoop src dbuf = Except.error e →
      e = GoError.CorruptInputError := by
  induction src with
  | nil =>
    intro dbuf e h
    unfold decodeQuantumLoop at h
    split at h
    · cases h
    · split at h
      · cases h
      · cases h; rfl
  | cons c rest ih =>
    intro dbuf e h
    unfold decodeQuantumLoop at h
    split at h
    · cases h
    · split at h
      · exact ih _ _ h
      · split at h
        · exact ih _ _ h
        · split at h
          · cases h; rfl
          · split at h
            · cases h; rfl
            · split at h
              · split at h
                · cases h; rfl
                · split at h
                  · cases h; rfl
                  · exact afterPadding_error _ _ _ h
              · exact afterPadding_error _ _ _ h

theorem decodeLoop_error (fuel : Nat) :
    ∀ (src : Bytes) (e : GoError), decodeLoop fuel src = Except.error e →
      e = GoError.CorruptInputError ∨ e = GoError.ErrNoProgress := by
  induction fuel with
  | zero =>
    intro src e h
    unfold decodeLoop at h
    split at h
    · cases h
    · cases h; exact Or.inr rfl
  | succ f ih =>
    intro src e h
    unfold decodeLoop at h
    split at h
    · cases h
    · split at h
      · rename_i e1 hq
        cases h
        exact Or.inl (decodeQuantumLoop_error _ _ _ hq)
      · split at h
        · rename_i e1 hq
          cases h
          exact ih _ _ hq
        · cases h

/-- The errors of DecodeString are base64 errors. -/
theorem DecodeString_error (s : Bytes) (e : GoError) (h : DecodeString s = Except.error e) :
    e = GoError.CorruptInputError ∨ e = GoError.ErrNoProgress :=
  decodeLoop_error _ _ _ h

/-- Below the limit, the Error decoder never reports ErrorMaxPayloadSize. -/
theorem Error_ReadFrom_multi_not_max (e0 src : Bytes) (v : Nat) :
    (Error_.ReadFrom e0 (multiReader bufferReader) (NewMultiReader (PutUint32 v) src)).1.2.2
      ≠ some GoError.ErrorMaxPayloadSize := by
  rw [Error_ReadFrom_multi]
  generalize v % 2 ^ 32 = size
  split
  · simp
  · split
    · simp
    · split
      · rename_i err hd
        rcases DecodeString_error _ _ hd with h | h <;> simp [h]
      · simp

/-- C5. Size limit on Error frames: on an in-memory source [3] ++ (n as four
big-endian bytes) ++ rest, Decode returns ErrorMaxPayloadSize exactly when
n > 10,485,760 (so n = 10,485,760 is not rejected with that error), and then it
returns no payload and leaves all of rest unread. -/
theorem Decode_error_size_limit (b0 b1 b2 b3 : Byte) (rest : Bytes) :
    ((Decode bufferReader (3 :: b0 :: b1 :: b2 :: b3 :: rest)).1.2
        = some GoError.ErrorMaxPayloadSize ↔ Uint32 [b0, b1, b2, b3] > 10485760) ∧
    (Uint32 [b0, b1, b2, b3] > 10485760 →
      Decode bufferReader (3 :: b0 :: b1 :: b2 :: b3 :: rest)
        = ((none, some GoError.ErrorMaxPayloadSize), rest)) := by
  have hD : Decode bufferReader (3 :: b0 :: b1 :: b2 :: b3 :: rest)
      = decodeError bufferReader (b0 :: b1 :: b2 :: b3 :: rest) := by
    unfold Decode
    rw [binaryReadUint8_buffer_cons]
    simp [HeartBeat, MessageType, Error]
  rw [hD, decodeError_buffer, MaxPayloadsize_eq]
  by_cases hn : Uint32 [b0, b1, b2, b3] > 10485760
  · simp [hn]
  · simp only [hn, if_false, false_implies, and_true, iff_false]
    have hne := Error_ReadFrom_multi_not_max [] rest (Uint32 [b0, b1, b2, b3])
    revert hne
    generalize Error_.ReadFrom [] (multiReader bufferReader)
      (NewMultiReader (PutUint32 (Uint32 [b0, b1, b2, b3])) rest) = rf
    intro hne
    cases hrf : rf.1.2.2 with
    | none => simp
    | some err =>
      simp only [Option.some.injEq]
      intro h
      rw [hrf, h] at hne
      exact hne rfl

/-- The size limit on Error frames at the declared size 10,485,761 followed by three bytes. -/
theorem Decode_error_size_limit_witness :
    Uint32 [0, 160, 0, 1] > 10485760 ∧
    Decode bufferReader [3, 0, 160, 0, 1, 1, 2, 3]
      = ((none, some GoError.ErrorMaxPayloadSize), [1, 2, 3]) :=
  ⟨by decide, (Decode_error_size_limit 0 160 0 1 [1, 2, 3]).2 (by decide)⟩

/-! ## Claims about the dispatcher and the Error codec -/

/-- C9. Unknown tag on decode: on a non-empty in-memory source whose first byte
is none of the three tags, Decode returns no payload and ErrorUnknownType, and
exactly that one byte has been consumed. -/
theorem Decode_unknown_tag (b : Byte) (rest : Bytes) (h1 : b ≠ MessageType) (h2 : b ≠ HeartBeat)
    (h3 : b ≠ Error) :
    Decode bufferReader (b :: rest) = ((none, some GoError.ErrorUnknownType), rest) := by
  unfold Decode
  rw [binaryReadUint8_buffer_cons]
  simp [h1, h2, h3]

/-- The unknown-tag rule of Decode at the source [7, 1, 2]. -/
theorem Decode_unknown_tag_witness :
    Decode bufferReader [7, 1, 2] = ((none, some GoError.ErrorUnknownType), [1, 2]) :=
  Decode_unknown_tag 7 [1, 2] (by decide) (by decide) (by decide)

/-- C10. Unknown tag on encode: for every sink, payload and tag other than the
three defined ones, Encode returns count 0 and ErrorUnknownType and performs no
write, so the sink is unchanged. -/
theorem Encode_unknown_tag {σ : Type} (W : Writer σ) (s : σ) (payload : Payload) (tag : Byte)
    (h1 : tag ≠ MessageType) (h2 : tag ≠ HeartBeat) (h3 : tag ≠ Error) :
    Encode W s payload tag = ((0, some GoError.ErrorUnknownType), s) := by
  simp [Encode, h1, h2, h3]

/-- The unknown-tag rule of Encode at tag 0 and a sink holding [9, 9]. -/
theorem Encode_unknown_tag_witness :
    Encode bufferWriter [9, 9] (Payload.Error_ [65]) 0
      = ((0, some GoError.ErrorUnknownType), [9, 9]) :=
  Encode_unknown_tag bufferWriter [9, 9] (Payload.Error_ [65]) 0 (by decide) (by decide)
    (by decide)

/-- What Encode does for an ErrorText on an in-memory sink. -/
theorem Encode_error_buffer (buf e : Bytes) :
    Encode bufferWriter buf (Payload.Error_ e) Error
      = ((2 + (EncodeToString e).length, none),
          buf ++ ([3] ++ PutUint32 (uint32 (EncodeToString e).length) ++ EncodeToString e)) := by
  simp [Encode, encodeError, binaryWriteUint8, binaryWriteUint32, bufferWriter, Buffer.Write,
    Payload.WriteTo, Error_.WriteTo, Payload.Byte, Error_.Byte, Error, HeartBeat, MessageType]

/-- C4. ErrorText wire layout: Encode of an ErrorText with tag 3 into an
in-memory sink succeeds and appends the tag byte 3, the length of the base64
text as a four-byte big-endian uint32, and the base64 text. -/
theorem Encode_error_wire_layout (buf e : Bytes) :
    (Encode bufferWriter buf (Payload.Error_ e) Error).1.2 = none ∧
    (Encode bufferWriter buf (Payload.Error_ e) Error).2
      = buf ++ ([3] ++ PutUint32 (uint32 (EncodeToString e).length) ++ EncodeToString e) := by
  rw [Encode_error_buffer]
  exact ⟨rfl, rfl⟩

/-- C2. ErrorText round trip: when the base64 text of e is at most 10,485,760
bytes long (the empty text included), Decode on an in-memory source holding
exactly the bytes that Encode wrote for e with tag 3 succeeds, consumes them all,
and returns an ErrorText with the display string and the bytes of e. -/
theorem Decode_Encode_error (e : Bytes) (h : (EncodeToString e).length ≤ 10485760) :
    ∃ p, Decode bufferReader (Encode bufferWriter [] (Payload.Error_ e) Error).2
          = ((some p, none), []) ∧
      p = Payload.Error_ e ∧ p.String = (Payload.Error_ e).String ∧
      p.Byte = (Payload.Error_ e).Byte := by
  refine ⟨Payload.Error_ e, ?_, rfl, rfl, rfl⟩
  have hlen : uint32 (EncodeToString e).length = (EncodeToString e).length :=
    uint32_of_lt _ (by omega)
  have hmod : (EncodeToString e).length % 2 ^ 32 = (EncodeToString e).length :=
    Nat.mod_eq_of_lt (by omega)
  rw [Encode_error_buffer, hlen]
  simp only [List.nil_append, List.singleton_append, List.cons_append]
  unfold Decode
  rw [binaryReadUint8_buffer_cons]
  simp only [HeartBeat, MessageType, Error]
  simp only [show ((3 : Byte) = 2) = False from by decide, show ((3 : Byte) = 1) = False from by decide,
    if_false, if_true]
  unfold decodeError
  rw [binaryReadUint32_buffer_PutUint32, hmod]
  simp only [hlen]
  have hle : ¬ (EncodeToString e).length > MaxPayloadsize := by
    rw [MaxPayloadsize_eq]
    omega
  simp only [hle, if_false]
  rw [Error_ReadFrom_multi, hmod]
  by_cases h0 : (EncodeToString e).length = 0
  · have he : e = [] := by
      rw [EncodeToString_length] at h0
      have : e.length = 0 := by omega
      exact List.length_eq_zero.mp this
    subst he
    simp [EncodeToString]
  · have hne : EncodeToString e ≠ [] := by
      intro h1
      rw [h1] at h0
      exact h0 rfl
    simp only [h0, hne, if_false, List.take_length, filled_self, DecodeString_EncodeToString,
      List.drop_length]

/-- The ErrorText round trip at the text of the test TestDecodeErrorPayload. -/
theorem Decode_Encode_error_witness :
    (EncodeToString (ascii "Something went wrong")).length ≤ 10485760 ∧
    ∃ p, Decode bufferReader
          (Encode bufferWriter [] (Payload.Error_ (ascii "Something went wrong")) Error).2
          = ((some p, none), []) ∧
      p = Payload.Error_ (ascii "Something went wrong") ∧
      p.String = (Payload.Error_ (ascii "Something went wrong")).String ∧
      p.Byte = (Payload.Error_ (ascii "Something went wrong")).Byte :=
  ⟨by decide, Decode_Encode_error (ascii "Something went wrong") (by decide)⟩

/-! ## The Message encoder -/

theorem formatUintLoop_length_le (fuel : Nat) :
    ∀ (n : Nat) (acc : Bytes), (formatUintLoop fuel n acc).length ≤ fuel + acc.length := by
  induction fuel with
  | zero => intro n acc; simp [formatUintLoop]
  | succ f ih =>
    intro n acc
    unfold formatUintLoop
    split
    · simp
      omega
    · have := ih (n / 10) (Fin.ofNat (0x30 + n % 10) :: acc)
      simp at this
      omega

theorem FormatUint_length_le (n : Nat) : (FormatUint n).length ≤ 20 := by
  have := formatUintLoop_length_le 20 n []
  simpa [FormatUint] using this

theorem ascii_length (s : String) : (ascii s).length = s.length := by
  simp [ascii]

/-- The base64 text of a marshalled header with an empty Encoding is shorter
than 256 bytes, so its length fits the one-byte length field. -/
theorem header_length_lt (size typ : Nat) :
    (EncodeToString (marshalHeaders { Size := size, Type_ := typ, Encoding := [] })).length < 256 := by
  rw [EncodeToString_length]
  have h1 := FormatUint_length_le size
  have h2 := FormatUint_length_le typ
  have h3 : (ascii "\x7b\"Size\":").length = 8 := by decide
  have h4 : (ascii ",\"Type\":").length = 8 := by decide
  have h5 : (ascii ",\"Encoding\":").length = 12 := by decide
  have h6 : (ascii "\x7d").length = 1 := by decide
  simp only [marshalHeaders, appendString, appendStringLoop, List.length_append, h3, h4, h5, h6,
    List.length_cons, List.length_nil]
  omega

/-- What encodeMessage does on an in-memory sink. -/
theorem encodeMessage_buffer (buf : Bytes) (payload : Payload) :
    encodeMessage bufferWriter buf payload
      = ((1 + (EncodeToString (marshalHeaders
              { Size := uint32 (EncodeToString payload.Byte).length, Type_ := 0, Encoding := [] })).length
            + (payload.WriteTo bufferWriter []).1.1, none),
          buf ++ ([1] ++ [Fin.ofNat (uint8 (EncodeToString (marshalHeaders
              { Size := uint32 (EncodeToString payload.Byte).length, Type_ := 0,
                Encoding := [] })).length)]
            ++ EncodeToString (marshalHeaders
              { Size := uint32 (EncodeToString payload.Byte).length, Type_ := 0, Encoding := [] })
            ++ (payload.WriteTo bufferWriter []).2)) := by
  cases payload <;>
    simp [encodeMessage, binaryWriteUint8, bufferWriter, Buffer.Write, Payload.WriteTo,
      Error_.WriteTo, Message.WriteTo, Beat.WriteTo, MessageType]

/-- What Encode does for a Message on an in-memory sink. -/
theorem Encode_message_buffer (buf : Bytes) (m : Protocol.Message) :
    Encode bufferWriter buf (Payload.Message m) MessageType
      = ((1 + (EncodeToString (marshalHeaders
              { Size := uint32 (EncodeToString (marshalMessage m.Message m.To m.From)).length,
                Type_ := 0, Encoding := [] })).length
            + (EncodeToString (marshalMessage m.Message m.To m.From)).length, none),
          buf ++ ([1]
            ++ [Fin.ofNat (EncodeToString (marshalHeaders
              { Size := uint32 (EncodeToString (marshalMessage m.Message m.To m.From)).length,
                Type_ := 0, Encoding := [] })).length]
            ++ EncodeToString (marshalHeaders
              { Size := uint32 (EncodeToString (marshalMessage m.Message m.To m.From)).length,
                Type_ := 0, Encoding := [] })
            ++ EncodeToString (marshalMessage m.Message m.To m.From))) := by
  have hE : Encode bufferWriter buf (Payload.Message m) MessageType
      = encodeMessage bufferWriter buf (Payload.Message m) := by
    simp [Encode, HeartBeat, MessageType]
  have hl := header_length_lt (uint32 (EncodeToString (marshalMessage m.Message m.To m.From)).length) 0
  have hu : uint8 (EncodeToString (marshalHeaders
      { Size := uint32 (EncodeToString (marshalMessage m.Message m.To m.From)).length,
        Type_ := 0, Encoding := [] })).length
      = (EncodeToString (marshalHeaders
      { Size := uint32 (EncodeToString (marshalMessage m.Message m.To m.From)).length,
        Type_ := 0, Encoding := [] })).length := by
    unfold uint8
    omega
  rw [hE, encodeMessage_buffer]
  simp only [Payload.Byte, Message.Byte, Payload.WriteTo, Message.WriteTo, bufferWriter,
    Buffer.Write, hu, List.nil_append]

/-- C7 (the code at the failing inputs). Against an in-memory sink Encode
succeeds, yet for an ErrorText the count it returns is three less than the
number of bytes it appended (the four length bytes are counted as one), and for
a Message it is one less (the header-length byte is not counted). -/
theorem Encode_count_short (buf e : Bytes) (m : Protocol.Message) :
    (Encode bufferWriter buf (Payload.Error_ e) Error).1.2 = none ∧
    (Encode bufferWriter buf (Payload.Error_ e) Error).1.1 + 3 + buf.length
      = (Encode bufferWriter buf (Payload.Error_ e) Error).2.length ∧
    (Encode bufferWriter buf (Payload.Message m) MessageType).1.2 = none ∧
    (Encode bufferWriter buf (Payload.Message m) MessageType).1.1 + 1 + buf.length
      = (Encode bufferWriter buf (Payload.Message m) MessageType).2.length := by
  rw [Encode_error_buffer, Encode_message_buffer]
  refine ⟨rfl, ?_, rfl, ?_⟩
  · simp [PutUint32_length]
    omega
  · simp
    omega

/-- C8 (the code at the failing input). On a sink that accepts two writes and
fails the third, the write of the Message header, Encode returns count 1 and a
nil error: the error of the failing write is dropped. -/
theorem Encode_message_swallows_header_error (m : Protocol.Message) :
    (limitedWriter.Write (0, ([] : Bytes)) [0]).1.2 = some (GoError.writeError 1) ∧
    (Encode limitedWriter (2, []) (Payload.Message m) MessageType).1 = (1, none) ∧
    (Encode limitedWriter (2, []) (Payload.Message m) MessageType).2.1 = 0 ∧
    (Encode limitedWriter (2, []) (Payload.Message m) MessageType).2.2.length = 2 := by
  simp [Encode, encodeMessage, binaryWriteUint8, limitedWriter, HeartBeat, MessageType]

/-! ## UTF-8: a valid encoding is recovered by re-encoding its rune -/

theorem DecodeRune_two (b b1 : Byte) (t : Bytes) (h1 : 0xC2 ≤ b.val) (h2 : b.val < 0xE0)
    (h3 : 0x80 ≤ b1.val) (h4 : b1.val ≤ 0xBF) :
    DecodeRune (b :: b1 :: t) = (b.val % 32 * 2 ^ 6 + b1.val % 64, 2) := by
  have e1 : ¬ b.val < 0x80 := by omega
  have e2 : ¬ (b.val < 0xC2 ∨ 0xF4 < b.val) := by omega
  have e3 : ¬ b.val = 0xE0 := by omega
  have e4 : ¬ b.val = 0xF0 := by omega
  have e5 : ¬ b.val = 0xED := by omega
  have e6 : ¬ b.val = 0xF4 := by omega
  have e7 : ¬ (b1.val < 0x80 ∨ 0xBF < b1.val) := by omega
  simp only [DecodeRune, e1, e2, e3, e4, e5, e6, e7, h2, if_true, if_false, le_refl]

theorem DecodeRune_three (b b1 b2 : Byte) (t : Bytes) (h1 : 0xE0 ≤ b.val) (h2 : b.val < 0xF0)
    (h3 : acceptSecond b b1) (h5 : 0x80 ≤ b2.val) (h6 : b2.val ≤ 0xBF) :
    DecodeRune (b :: b1 :: b2 :: t)
      = (b.val % 16 * 2 ^ 12 + b1.val % 64 * 2 ^ 6 + b2.val % 64, 3) := by
  have e1 : ¬ b.val < 0x80 := by omega
  have e2 : ¬ (b.val < 0xC2 ∨ 0xF4 < b.val) := by omega
  have e3 : ¬ b.val < 0xE0 := by omega
  have e7 : ¬ (b2.val < 0x80 ∨ 0xBF < b2.val) := by omega
  have e8 : ¬ (b1.val < (if b.val = 0xE0 then 0xA0 else if b.val = 0xF0 then 0x90 else 0x80) ∨
      (if b.val = 0xED then 0x9F else if b.val = 0xF4 then 0x8F else 0xBF) < b1.val) := by
    unfold acceptSecond at h3
    omega
  simp only [DecodeRune, e1, e2, e3, e7, e8, h2, if_true, if_false, le_refl,
    show ¬ (3 ≤ 2) from by omega]

theorem DecodeRune_four (b b1 b2 b3 : Byte) (t : Bytes) (h1 : 0xF0 ≤ b.val) (h2 : b.val ≤ 0xF4)
    (h3 : acceptSecond b b1) (h5 : 0x80 ≤ b2.val) (h6 : b2.val ≤ 0xBF) (h7 : 0x80 ≤ b3.val)
    (h8 : b3.val ≤ 0xBF) :
    DecodeRune (b :: b1 :: b2 :: b3 :: t)
      = (b.val % 8 * 2 ^ 18 + b1.val % 64 * 2 ^ 12 + b2.val % 64 * 2 ^ 6 + b3.val % 64, 4) := by
  have e1 : ¬ b.val < 0x80 := by omega
  have e2 : ¬ (b.val < 0xC2 ∨ 0xF4 < b.val) := by omega
  have e3 : ¬ b.val < 0xE0 := by omega
  have e4 : ¬ b.val < 0xF0 := by omega
  have e7 : ¬ (b2.val < 0x80 ∨ 0xBF < b2.val) := by omega
  have e9 : ¬ (b3.val < 0x80 ∨ 0xBF < b3.val) := by omega
  have e8 : ¬ (b1.val < (if b.val = 0xE0 then 0xA0 else if b.val = 0xF0 then 0x90 else 0x80) ∨
      (if b.val = 0xED then 0x9F else if b.val = 0xF4 then 0x8F else 0xBF) < b1.val) := by
    unfold acceptSecond at h3
    omega
  simp only [DecodeRune, e1, e2, e3, e4, e7, e8, e9, if_true, if_false, le_refl,
    show ¬ (4 ≤ 2) from by omega, show ¬ (4 ≤ 3) from by omega]

/-- The shapes of a valid multi-byte encoding. -/
theorem DecodeRune_shape (b : Byte) (t : Bytes) (hb : 0x80 ≤ b.val)
    (hv : ¬ ((DecodeRune (b :: t)).1 = RuneError ∧ (DecodeRune (b :: t)).2 = 1)) :
    (∃ b1 t1, t = b1 :: t1 ∧ 0xC2 ≤ b.val ∧ b.val < 0xE0 ∧ 0x80 ≤ b1.val ∧ b1.val ≤ 0xBF) ∨
    (∃ b1 b2 t2, t = b1 :: b2 :: t2 ∧ 0xE0 ≤ b.val ∧ b.val < 0xF0 ∧ acceptSecond b b1 ∧
      0x80 ≤ b2.val ∧ b2.val ≤ 0xBF) ∨
    (∃ b1 b2 b3 t3, t = b1 :: b2 :: b3 :: t3 ∧ 0xF0 ≤ b.val ∧ b.val ≤ 0xF4 ∧ acceptSecond b b1 ∧
      0x80 ≤ b2.val ∧ b2.val ≤ 0xBF ∧ 0x80 ≤ b3.val ∧ b3.val ≤ 0xBF) := by
  have e1 : ¬ b.val < 0x80 := by omega
  by_cases e2 : b.val < 0xC2 ∨ 0xF4 < b.val
  · exact absurd (by simp [DecodeRune, e1, e2]) hv
  cases t with
  | nil => exact absurd (by simp [DecodeRune, e1, e2]) hv
  | cons b1 t1 =>
    by_cases e8 : (b1.val < (if b.val = 0xE0 then 0xA0 else if b.val = 0xF0 then 0x90 else 0x80) ∨
      (if b.val = 0xED then 0x9F else if b.val = 0xF4 then 0x8F else 0xBF) < b1.val)
    · exact absurd (by simp only [DecodeRune, e1, e2, e8, if_true, if_false, and_self]) hv
    have hacc : acceptSecond b b1 := by
      unfold acceptSecond
      omega
    by_cases e3 : b.val < 0xE0
    · left
      refine ⟨b1, t1, rfl, by omega, e3, ?_, ?_⟩
      · have := hacc.1
        split_ifs at this <;> omega
      · have := hacc.2
        split_ifs at this <;> omega
    right
    cases t1 with
    | nil =>
      exact absurd (by simp only [DecodeRune, e1, e2, e3, e8, if_true, if_false, and_self];
                       split_ifs <;> omega) hv
    | cons b2 t2 =>
      by_cases e7 : b2.val < 0x80 ∨ 0xBF < b2.val
      · exact absurd (by simp only [DecodeRune, e1, e2, e3, e7, e8, if_true, if_false, and_self];
                         split_ifs <;> omega) hv
      by_cases e4 : b.val < 0xF0
      · left
        exact ⟨b1, b2, t2, rfl, by omega, e4, hacc, by omega, by omega⟩
      right
      cases t2 with
      | nil =>
        exact absurd (by simp only [DecodeRune, e1, e2, e3, e4, e7, e8, if_true, if_false, and_self];
                         simp) hv
      | cons b3 t3 =>
        by_cases e9 : b3.val < 0x80 ∨ 0xBF < b3.val
        · exact absurd (by simp only [DecodeRune, e1, e2, e3, e4, e7, e8, e9, if_true, if_false,
                              and_self]; simp) hv
        exact ⟨b1, b2, b3, t3, rfl, by omega, by omega, hacc, by omega, by omega, by omega, by omega⟩

theorem Fin_ofNat_eq (n : Nat) (b : Byte) (h : n = b.val) : (Fin.ofNat n : Byte) = b := by
  apply Fin.ext
  have := b.isLt
  simp [Fin.ofNat, h]

theorem DecodeRune_valid (b : Byte) (t : Bytes) (hb : 0x80 ≤ b.val)
    (hv : ¬ ((DecodeRune (b :: t)).1 = RuneError ∧ (DecodeRune (b :: t)).2 = 1)) :
    1 ≤ (DecodeRune (b :: t)).2 ∧ (DecodeRune (b :: t)).2 ≤ (b :: t).length ∧
    0x80 ≤ (DecodeRune (b :: t)).1 ∧
    EncodeRune (DecodeRune (b :: t)).1 = (b :: t).take (DecodeRune (b :: t)).2 ∧
    ∀ q : Bytes, DecodeRune ((b :: t).take (DecodeRune (b :: t)).2 ++ q) = DecodeRune (b :: t) := by
  have hbl := b.isLt
  rcases DecodeRune_shape b t hb hv with ⟨b1, t1, rfl, h1, h2, h3, h4⟩ |
    ⟨b1, b2, t2, rfl, h1, h2, h3, h5, h6⟩ | ⟨b1, b2, b3, t3, rfl, h1, h2, h3, h5, h6, h7, h8⟩
  · have hb1 := b1.isLt
    rw [DecodeRune_two b b1 t1 h1 h2 h3 h4]
    refine ⟨by simp, by simp, by simp; omega, ?_, ?_⟩
    · have c1 : ¬ (b.val % 32 * 2 ^ 6 + b1.val % 64 ≤ 0x7F) := by omega
      have c2 : b.val % 32 * 2 ^ 6 + b1.val % 64 ≤ 0x7FF := by omega
      simp only [EncodeRune, c1, c2, if_true, if_false, List.take_succ_cons, List.take_zero]
      rw [Fin_ofNat_eq _ b (by omega), Fin_ofNat_eq _ b1 (by omega)]
    · intro q
      simpa using DecodeRune_two b b1 q h1 h2 h3 h4
  · have hb1 := b1.isLt
    have hb2 := b2.isLt
    rw [DecodeRune_three b b1 b2 t2 h1 h2 h3 h5 h6]
    have ha := h3
    unfold acceptSecond at ha
    have ha1 : 0x80 ≤ b1.val ∧ b1.val ≤ 0xBF ∧ (b.val = 0xE0 → 0xA0 ≤ b1.val) ∧
        (b.val = 0xED → b1.val ≤ 0x9F) := by
      obtain ⟨l, u⟩ := ha
      split_ifs at l u <;> omega
    refine ⟨by simp, by simp, by simp; omega, ?_, ?_⟩
    · have c1 : ¬ (b.val % 16 * 2 ^ 12 + b1.val % 64 * 2 ^ 6 + b2.val % 64 ≤ 0x7F) := by omega
      have c2 : ¬ (b.val % 16 * 2 ^ 12 + b1.val % 64 * 2 ^ 6 + b2.val % 64 ≤ 0x7FF) := by omega
      have c3 : ¬ (b.val % 16 * 2 ^ 12 + b1.val % 64 * 2 ^ 6 + b2.val % 64 > 0x10FFFF ∨
          (0xD800 ≤ b.val % 16 * 2 ^ 12 + b1.val % 64 * 2 ^ 6 + b2.val % 64 ∧
            b.val % 16 * 2 ^ 12 + b1.val % 64 * 2 ^ 6 + b2.val % 64 ≤ 0xDFFF)) := by omega
      have c4 : b.val % 16 * 2 ^ 12 + b1.val % 64 * 2 ^ 6 + b2.val % 64 ≤ 0xFFFF := by omega
      simp only [EncodeRune, c1, c2, c3, c4, if_true, if_false, List.take_succ_cons, List.take_zero]
      rw [Fin_ofNat_eq _ b (by omega), Fin_ofNat_eq _ b1 (by omega), Fin_ofNat_eq _ b2 (by omega)]
    · intro q
      simpa using DecodeRune_three b b1 b2 q h1 h2 h3 h5 h6
  · have hb1 := b1.isLt
    have hb2 := b2.isLt
    have hb3 := b3.isLt
    rw [DecodeRune_four b b1 b2 b3 t3 h1 h2 h3 h5 h6 h7 h8]
    have ha := h3
    unfold acceptSecond at ha
    have ha1 : 0x80 ≤ b1.val ∧ b1.val ≤ 0xBF ∧ (b.val = 0xF0 → 0x90 ≤ b1.val) ∧
        (b.val = 0xF4 → b1.val ≤ 0x8F) := by
      obtain ⟨l, u⟩ := ha
      split_ifs at l u <;> omega
    refine ⟨by simp, by simp, by simp; omega, ?_, ?_⟩
    · have c1 : ¬ (b.val % 8 * 2 ^ 18 + b1.val % 64 * 2 ^ 12 + b2.val % 64 * 2 ^ 6 + b3.val % 64
          ≤ 0x7F) := by omega
      have c2 : ¬ (b.val % 8 * 2 ^ 18 + b1.val % 64 * 2 ^ 12 + b2.val % 64 * 2 ^ 6 + b3.val % 64
          ≤ 0x7FF) := by omega
      have c3 : ¬ (b.val % 8 * 2 ^ 18 + b1.val % 64 * 2 ^ 12 + b2.val % 64 * 2 ^ 6 + b3.val % 64
            > 0x10FFFF ∨
          (0xD800 ≤ b.val % 8 * 2 ^ 18 + b1.val % 64 * 2 ^ 12 + b2.val % 64 * 2 ^ 6 + b3.val % 64 ∧
            b.val % 8 * 2 ^ 18 + b1.val % 64 * 2 ^ 12 + b2.val % 64 * 2 ^ 6 + b3.val % 64
              ≤ 0xDFFF)) := by omega
      have c4 : ¬ (b.val % 8 * 2 ^ 18 + b1.val % 64 * 2 ^ 12 + b2.val % 64 * 2 ^ 6 + b3.val % 64
          ≤ 0xFFFF) := by omega
      simp only [EncodeRune, c1, c2, c3, c4, if_true, if_false, List.take_succ_cons, List.take_zero]
      rw [Fin_ofNat_eq _ b (by omega), Fin_ofNat_eq _ b1 (by omega), Fin_ofNat_eq _ b2 (by omega),
        Fin_ofNat_eq _ b3 (by omega)]
    · intro q
      simpa using DecodeRune_four b b1 b2 b3 q h1 h2 h3 h5 h6 h7 h8

/-! ## JSON strings: parsing inverts appendString on valid UTF-8 -/

theorem hexVal_hex_fin : ∀ i : Fin 16, hexVal (hex i.val) = some i.val := by decide

theorem hexVal_hex (i : Nat) (h : i < 16) : hexVal (hex i) = some i := hexVal_hex_fin ⟨i, h⟩

theorem DecodeRune_ascii (b : Byte) (t : Bytes) (h : b.val < 0x80) :
    DecodeRune (b :: t) = (b.val, 1) := by
  simp [DecodeRune, h]

theorem ascii_u00 : ascii "\\u00" = [0x5C, 0x75, 0x30, 0x30] := by decide

theorem ascii_u202 : ascii "\\u202" = [0x5C, 0x75, 0x32, 0x30, 0x32] := by decide

/-- Parsing the escape that appendString wrote for an ASCII byte gives the byte back. -/
theorem parseStringLoop_escapeByte (b : Byte) (hb : b.val < 0x80) (hs : htmlSafeSet b = false)
    (fp : Nat) (q : Bytes) :
    parseStringLoop (fp + 1) (escapeByte b ++ q)
      = match parseStringLoop fp q with
        | Except.error e => Except.error e
        | Except.ok (s, r) => Except.ok (b :: s, r) := by
  have hbl := b.isLt
  by_cases h1 : b.val = 0x5C ∨ b.val = 0x22
  · have e : escapeByte b = [0x5C, b] := by simp [escapeByte, h1]
    rw [e]
    rcases h1 with h1 | h1 <;> simp [parseStringLoop, unescape, h1, Fin.coe_ofNat_eq_mod]
  by_cases h2 : b.val = 0x08
  · have e : b = 0x08 := Fin.ext h2
    subst e
    have he : escapeByte (0x08 : Byte) = [0x5C, 0x62] := by decide
    rw [he]
    simp [parseStringLoop, unescape, Fin.coe_ofNat_eq_mod]
  by_cases h3 : b.val = 0x0C
  · have e : b = 0x0C := Fin.ext h3
    subst e
    have he : escapeByte (0x0C : Byte) = [0x5C, 0x66] := by decide
    rw [he]
    simp [parseStringLoop, unescape, Fin.coe_ofNat_eq_mod]
  by_cases h4 : b.val = 0x0A
  · have e : b = 0x0A := Fin.ext h4
    subst e
    have he : escapeByte (0x0A : Byte) = [0x5C, 0x6E] := by decide
    rw [he]
    simp [parseStringLoop, unescape, Fin.coe_ofNat_eq_mod]
  by_cases h5 : b.val = 0x0D
  · have e : b = 0x0D := Fin.ext h5
    subst e
    have he : escapeByte (0x0D : Byte) = [0x5C, 0x72] := by decide
    rw [he]
    simp [parseStringLoop, unescape, Fin.coe_ofNat_eq_mod]
  by_cases h6 : b.val = 0x09
  · have e : b = 0x09 := Fin.ext h6
    subst e
    have he : escapeByte (0x09 : Byte) = [0x5C, 0x74] := by decide
    rw [he]
    simp [parseStringLoop, unescape, Fin.coe_ofNat_eq_mod]
  have e : escapeByte b = [0x5C, 0x75, 0x30, 0x30, hex (b.val / 16), hex (b.val % 16)] := by
    simp [escapeByte, h1, h2, h3, h4, h5, h6, ascii_u00]
  have hh : hexVal (hex (b.val / 16)) = some (b.val / 16) := hexVal_hex _ (by omega)
  have hl : hexVal (hex (b.val % 16)) = some (b.val % 16) := hexVal_hex _ (by omega)
  have h0 : hexVal (0x30 : Byte) = some 0 := by decide
  have hr : ((0 * 16 + 0) * 16 + b.val / 16) * 16 + b.val % 16 = b.val := by omega
  have hns : ¬ (0xD800 ≤ b.val ∧ b.val < 0xE000) := by omega
  have henc : EncodeRune b.val = [b] := by
    have : b.val ≤ 0x7F := by omega
    simp only [EncodeRune, this, if_true]
    rw [Fin_ofNat_eq _ b rfl]
  rw [e]
  have hr2 : b.val / 16 * 16 + b.val % 16 = b.val := by omega
  simp [parseStringLoop, unescape, hex4, h0, hh, hl, hr2, hns, henc, Fin.coe_ofNat_eq_mod]

theorem appendStringLoop_nil (fa : Nat) : appendStringLoop fa [] = [] := by
  cases fa <;> simp [appendStringLoop]

theorem Valid_cons (fv : Nat) (b : Byte) (t : Bytes) (h : Valid (fv + 1) (b :: t) = true) :
    ¬ ((DecodeRune (b :: t)).1 = RuneError ∧ (DecodeRune (b :: t)).2 = 1) ∧
    Valid fv ((b :: t).drop (DecodeRune (b :: t)).2) = true := by
  unfold Valid at h
  simp only [List.isEmpty_cons, Bool.false_eq_true, if_false] at h
  split at h
  · cases h
  · rename_i hn
    exact ⟨hn, h⟩

/-- The parser reads back what appendString wrote for a valid UTF-8 string. -/
theorem parseStringLoop_appendStringLoop (n : Nat) :
    ∀ (s : Bytes) (fa fv fp : Nat) (rest : Bytes), s.length ≤ n → s.length ≤ fa → s.length ≤ fv →
      Valid fv s = true → (appendStringLoop fa s).length < fp →
      parseStringLoop fp (appendStringLoop fa s ++ 0x22 :: rest) = Except.ok (s, rest) := by
  induction n with
  | zero =>
    intro s fa fv fp rest hn _ _ _ hfp
    have hs : s = [] := List.length_eq_zero.mp (by omega)
    subst hs
    obtain ⟨k, rfl⟩ : ∃ k, fp = k + 1 := ⟨fp - 1, by omega⟩
    simp [appendStringLoop_nil, parseStringLoop, Fin.coe_ofNat_eq_mod]
  | succ n ih =>
    intro s fa fv fp rest hn hfa hfv hval hfp
    cases s with
    | nil =>
      obtain ⟨k, rfl⟩ : ∃ k, fp = k + 1 := ⟨fp - 1, by omega⟩
      simp [appendStringLoop_nil, parseStringLoop, Fin.coe_ofNat_eq_mod]
    | cons b t =>
      simp only [List.length_cons] at hn hfa hfv
      obtain ⟨fa1, rfl⟩ : ∃ k, fa = k + 1 := ⟨fa - 1, by omega⟩
      obtain ⟨fv1, rfl⟩ : ∃ k, fv = k + 1 := ⟨fv - 1, by omega⟩
      obtain ⟨fp1, rfl⟩ : ∃ k, fp = k + 1 := ⟨fp - 1, by omega⟩
      obtain ⟨hnv, hvt⟩ := Valid_cons fv1 b t hval
      have hbl := b.isLt
      by_cases hb : b.val < 0x80
      · rw [DecodeRune_ascii b t hb] at hvt
        simp only [List.drop_succ_cons, List.drop_zero] at hvt
        cases hsafe : htmlSafeSet b with
        | true =>
          have hs2 := hsafe
          simp only [htmlSafeSet, decide_eq_true_eq] at hs2
          have hout : appendStringLoop (fa1 + 1) (b :: t) = b :: appendStringLoop fa1 t := by
            simp [appendStringLoop, hb, hsafe]
          rw [hout] at hfp ⊢
          simp only [List.length_cons] at hfp
          have hrec := ih t fa1 fv1 fp1 rest (by omega) (by omega) (by omega) hvt (by omega)
          have c1 : ¬ b.val = 0x22 := by omega
          have c2 : ¬ b.val = 0x5C := by omega
          have c3 : ¬ b.val < 0x20 := by omega
          rw [List.cons_append, parseStringLoop]
          simp only [c1, c2, c3, hb, if_true, if_false, hrec]
        | false =>
          have hout : appendStringLoop (fa1 + 1) (b :: t) = escapeByte b ++ appendStringLoop fa1 t := by
            simp [appendStringLoop, hb, hsafe]
          rw [hout] at hfp ⊢
          have hesc : 1 ≤ (escapeByte b).length := by
            unfold escapeByte
            split_ifs <;> simp [ascii]
          simp only [List.length_append] at hfp
          have hrec := ih t fa1 fv1 fp1 rest (by omega) (by omega) (by omega) hvt (by omega)
          rw [List.append_assoc, parseStringLoop_escapeByte b hb hsafe, hrec]
      · have hb8 : 0x80 ≤ b.val := by omega
        obtain ⟨hd1, hd2, hd3, henc, hdq⟩ := DecodeRune_valid b t hb8 hnv
        have hdroplen : (List.drop (DecodeRune (b :: t)).2 (b :: t)).length
            = t.length + 1 - (DecodeRune (b :: t)).2 := by
          simp only [List.length_drop, List.length_cons]
        have hdrop : (List.drop (DecodeRune (b :: t)).2 (b :: t)).length ≤ n := by
          omega
        have htake : (List.take (DecodeRune (b :: t)).2 (b :: t)).length = (DecodeRune (b :: t)).2 := by
          simp only [List.length_take, List.length_cons]
          simp only [List.length_cons] at hd2
          omega
        by_cases hls : (DecodeRune (b :: t)).1 = 0x2028 ∨ (DecodeRune (b :: t)).1 = 0x2029
        · have hout : appendStringLoop (fa1 + 1) (b :: t)
              = [0x5C, 0x75, 0x32, 0x30, 0x32, hex ((DecodeRune (b :: t)).1 % 16)]
                ++ appendStringLoop fa1 (List.drop (DecodeRune (b :: t)).2 (b :: t)) := by
            simp [appendStringLoop, hb, hnv, hls, ascii_u202]
          rw [hout] at hfp ⊢
          simp only [List.length_append, List.length_cons, List.length_nil] at hfp
          have hrec := ih (List.drop (DecodeRune (b :: t)).2 (b :: t)) fa1 fv1 fp1 rest hdrop
            (by omega) (by omega) hvt (by omega)
          have hh : hexVal (hex ((DecodeRune (b :: t)).1 % 16))
              = some ((DecodeRune (b :: t)).1 % 16) := hexVal_hex _ (by omega)
          have h2 : hexVal (0x32 : Byte) = some 2 := by decide
          have h0 : hexVal (0x30 : Byte) = some 0 := by decide
          have hr : 8224 + (DecodeRune (b :: t)).1 % 16 = (DecodeRune (b :: t)).1 := by
            rcases hls with h | h <;> rw [h]
          have hns : ¬ (0xD800 ≤ (DecodeRune (b :: t)).1 ∧ (DecodeRune (b :: t)).1 < 0xE000) := by
            rcases hls with h | h <;> rw [h] <;> omega
          simp [parseStringLoop, unescape, hex4, h0, h2, hh, hr, hns, henc, hrec,
            Fin.coe_ofNat_eq_mod]
        · have hout : appendStringLoop (fa1 + 1) (b :: t)
              = List.take (DecodeRune (b :: t)).2 (b :: t)
                ++ appendStringLoop fa1 (List.drop (DecodeRune (b :: t)).2 (b :: t)) := by
            simp [appendStringLoop, hb, hnv, hls]
          rw [hout] at hfp ⊢
          simp only [List.length_append, htake] at hfp
          have hrec := ih (List.drop (DecodeRune (b :: t)).2 (b :: t)) fa1 fv1 fp1 rest hdrop
            (by omega) (by omega) hvt (by omega)
          have hq := hdq (appendStringLoop fa1 (List.drop (DecodeRune (b :: t)).2 (b :: t))
            ++ 0x22 :: rest)
          obtain ⟨k, hk⟩ : ∃ k, (DecodeRune (b :: t)).2 = k + 1 := ⟨(DecodeRune (b :: t)).2 - 1, by omega⟩
          have hshape : List.take (DecodeRune (b :: t)).2 (b :: t) = b :: List.take k t := by
            rw [hk, List.take_succ_cons]
          have hdropq : List.drop (DecodeRune (b :: t)).2
              (List.take (DecodeRune (b :: t)).2 (b :: t)
                ++ (appendStringLoop fa1 (List.drop (DecodeRune (b :: t)).2 (b :: t)) ++ 0x22 :: rest))
              = appendStringLoop fa1 (List.drop (DecodeRune (b :: t)).2 (b :: t)) ++ 0x22 :: rest := by
            rw [List.drop_append_of_le_length (by omega)]
            rw [List.drop_eq_nil_of_le (by omega)]
            rfl
          have c1 : ¬ b.val = 0x22 := by omega
          have c2 : ¬ b.val = 0x5C := by omega
          have c3 : ¬ b.val < 0x20 := by omega
          rw [List.append_assoc]
          rw [hshape] at hq hdropq ⊢
          rw [List.cons_append] at hq hdropq ⊢
          rw [parseStringLoop]
          simp only [c1, c2, c3, hb, if_false]
          rw [hq, hdropq, hrec, henc]
          simp only [List.take_append_drop]

theorem Valid_mono (fv : Nat) : ∀ (s : Bytes) (fv2 : Nat), s.length ≤ fv → s.length ≤ fv2 →
    Valid fv s = true → Valid fv2 s = true := by
  induction fv with
  | zero =>
    intro s fv2 h1 _ _
    have hs : s = [] := List.length_eq_zero.mp (by omega)
    subst hs
    cases fv2 <;> simp [Valid]
  | succ f ih =>
    intro s fv2 h1 h2 hv
    cases s with
    | nil => cases fv2 <;> simp [Valid]
    | cons b t =>
      simp only [List.length_cons] at h1 h2
      obtain ⟨g, rfl⟩ : ∃ g, fv2 = g + 1 := ⟨fv2 - 1, by omega⟩
      obtain ⟨hnv, hvt⟩ := Valid_cons f b t hv
      have hlen : (List.drop (DecodeRune (b :: t)).2 (b :: t)).length
          = t.length + 1 - (DecodeRune (b :: t)).2 := by
        simp only [List.length_drop, List.length_cons]
      have hpos : 1 ≤ (DecodeRune (b :: t)).2 := by
        by_cases hb : b.val < 0x80
        · rw [DecodeRune_ascii b t hb]
        · exact (DecodeRune_valid b t (by omega) hnv).1
      unfold Valid
      simp only [List.isEmpty_cons, Bool.false_eq_true, if_false, hnv]
      exact ih _ g (by omega) (by omega) hvt

/-- A JSON string literal written by appendString is read back as the string it
was written from, when that string is valid UTF-8. -/
theorem parseString_appendString (s rest : Bytes) (hv : ValidString s = true) :
    parseString (appendStringLoop s.length s ++ 0x22 :: rest) = Except.ok (s, rest) := by
  unfold parseString
  apply parseStringLoop_appendStringLoop s.length s s.length s.length _ rest (le_refl _)
    (le_refl _) (le_refl _) hv
  simp only [List.length_append, List.length_cons]
  omega

theorem skipSpace_cons (c : Byte) (t : Bytes) (h : isSpace c = false) :
    skipSpace (c :: t) = c :: t := by
  simp [skipSpace, h]

/-! ## Numbers: the literal written by FormatUint is read back -/

theorem isDigit_iff (c : Byte) : isDigit c = true ↔ 0x30 ≤ c.val ∧ c.val ≤ 0x39 := by
  simp [isDigit]

theorem digit_val (k : Nat) (h : k < 10) : ((Fin.ofNat (0x30 + k) : Byte)).val = 0x30 + k := by
  simp [Fin.ofNat]
  omega

/-- The digits that the loop of FormatUint puts in front of acc: a leading digit
that is zero only for the number zero, further digits, and their decimal value. -/
theorem formatUintLoop_spec (fuel : Nat) :
    ∀ (n : Nat) (acc : Bytes), n < 10 ^ (fuel + 1) →
      ∃ (d : Byte) (ds : Bytes), formatUintLoop (fuel + 1) n acc = d :: (ds ++ acc) ∧
        0x30 ≤ d.val ∧ d.val ≤ 0x39 ∧ (1 ≤ n → 0x31 ≤ d.val) ∧ (n = 0 → ds = []) ∧
        ds.all isDigit = true ∧
        (d :: ds).foldl (fun n c => n * 10 + (c.val - 0x30)) 0 = n := by
  induction fuel with
  | zero =>
    intro n acc hn
    have hn10 : n < 10 := by simpa using hn
    refine ⟨Fin.ofNat (0x30 + n), [], ?_, ?_, ?_, ?_, ?_, ?_, ?_⟩
    · simp [formatUintLoop, hn10]
    · rw [digit_val n hn10]; omega
    · rw [digit_val n hn10]; omega
    · intro h; rw [digit_val n hn10]; omega
    · intro _; rfl
    · rfl
    · simp only [List.foldl_cons, List.foldl_nil]
      rw [digit_val n hn10]
      omega
  | succ f ih =>
    intro n acc hn
    by_cases hn10 : n < 10
    · refine ⟨Fin.ofNat (0x30 + n), [], ?_, ?_, ?_, ?_, ?_, ?_, ?_⟩
      · simp [formatUintLoop, hn10]
      · rw [digit_val n hn10]; omega
      · rw [digit_val n hn10]; omega
      · intro h; rw [digit_val n hn10]; omega
      · intro _; rfl
      · rfl
      · simp only [List.foldl_cons, List.foldl_nil]
        rw [digit_val n hn10]
        omega
    · have hdiv : n / 10 < 10 ^ (f + 1) := by
        rw [Nat.div_lt_iff_lt_mul (by norm_num)]
        calc n < 10 ^ (f + 1 + 1) := hn
          _ = 10 ^ (f + 1) * 10 := by ring
      obtain ⟨d, ds, hfmt, h1, h2, h3, _, h5, h6⟩ :=
        ih (n / 10) (Fin.ofNat (0x30 + n % 10) :: acc) hdiv
      have hm : n % 10 < 10 := Nat.mod_lt _ (by norm_num)
      refine ⟨d, ds ++ [Fin.ofNat (0x30 + n % 10)], ?_, h1, h2, ?_, ?_, ?_, ?_⟩
      · rw [formatUintLoop]
        simp only [hn10, if_false]
        rw [hfmt]
        simp
      · intro _
        exact h3 (by omega)
      · intro h0
        omega
      · simp only [List.all_append, h5, Bool.true_and, List.all_cons, List.all_nil, Bool.and_true]
        rw [isDigit_iff, digit_val _ hm]
        omega
      · rw [← List.cons_append, List.foldl_append, h6]
        simp only [List.foldl_cons, List.foldl_nil]
        rw [digit_val _ hm]
        omega

theorem FormatUint_spec (n : Nat) (hn : n < 10 ^ 20) :
    ∃ (d : Byte) (ds : Bytes), FormatUint n = d :: ds ∧
      0x30 ≤ d.val ∧ d.val ≤ 0x39 ∧ (1 ≤ n → 0x31 ≤ d.val) ∧ (n = 0 → ds = []) ∧
      ds.all isDigit = true ∧
      (d :: ds).foldl (fun n c => n * 10 + (c.val - 0x30)) 0 = n := by
  obtain ⟨d, ds, h, rest⟩ := formatUintLoop_spec 19 n [] hn
  exact ⟨d, ds, by simpa [FormatUint] using h, rest⟩

theorem takeDigits_append (ds : Bytes) (c : Byte) (rest : Bytes) (h : ds.all isDigit = true)
    (hc : isDigit c = false) : takeDigits (ds ++ c :: rest) = (ds, c :: rest) := by
  induction ds with
  | nil => simp [takeDigits, hc]
  | cons d ds ih =>
    simp only [List.all_cons, Bool.and_eq_true] at h
    simp [takeDigits, h.1, ih h.2]

/-- The scanner delimits the literal written by FormatUint when a comma or a
closing brace follows it. -/
theorem scanNumber_FormatUint (n : Nat) (hn : n < 10 ^ 20) (c : Byte) (rest : Bytes)
    (hc : c.val = 0x2C ∨ c.val = 0x7D) :
    scanNumber (FormatUint n ++ c :: rest) = some (FormatUint n, c :: rest) := by
  obtain ⟨d, ds, hfmt, h1, h2, h3, h4, h5, _⟩ := FormatUint_spec n hn
  rw [hfmt]
  have hcd : isDigit c = false := by
    rcases hc with h | h <;> simp [isDigit, h]
  have hc1 : ¬ c.val = 0x2E := by omega
  have hc2 : ¬ (c.val = 0x65 ∨ c.val = 0x45) := by omega
  have hfrac : scanFraction (c :: rest) = some ([], c :: rest) := by
    simp [scanFraction, scanExponent, hc1, hc2]
  have hd1 : ¬ d.val = 0x2D := by omega
  by_cases hz : d.val = 0x30
  · have hn0 : n = 0 := by
      by_contra hne
      have := h3 (by omega)
      omega
    have hds := h4 hn0
    subst hds
    simp [scanNumber, scanUnsigned, hd1, hz, hfrac]
  · have hr : 0x31 ≤ d.val ∧ d.val ≤ 0x39 := by omega
    simp [scanNumber, scanUnsigned, hd1, hz, hr, takeDigits_append ds c rest h5 hcd, hfrac]

theorem parseUintLit_FormatUint (bits n : Nat) (hn : n < 2 ^ bits) (hn2 : n < 10 ^ 20) :
    parseUintLit bits (FormatUint n) = some n := by
  obtain ⟨d, ds, hfmt, h1, h2, _, _, h5, h6⟩ := FormatUint_spec n hn2
  rw [hfmt]
  have hd : isDigit d = true := by
    rw [isDigit_iff]
    omega
  unfold parseUintLit
  simp only [List.isEmpty_cons, List.all_cons, hd, h5, Bool.and_self, not_true_eq_false,
    Bool.false_eq_true, or_self, if_false, h6, hn, if_true]

/-! ## Objects: the parser on what json.Marshal wrote -/

theorem parse_value_string (fuel depth : Nat) (s rest : Bytes) (hv : ValidString s = true) :
    parse (fuel + 1) depth ParseMode.value (0x22 :: (appendStringLoop s.length s ++ 0x22 :: rest))
      = Except.ok (JValue.string s, rest) := by
  have hsp : isSpace (0x22 : Byte) = false := by decide
  rw [parse, skipSpace_cons _ _ hsp]
  simp [parseString_appendString s rest hv, Fin.coe_ofNat_eq_mod]

theorem parse_value_number (fuel depth : Nat) (n : Nat) (hn : n < 10 ^ 20) (c : Byte)
    (rest : Bytes) (hc : c.val = 0x2C ∨ c.val = 0x7D) :
    parse (fuel + 1) depth ParseMode.value (FormatUint n ++ c :: rest)
      = Except.ok (JValue.number (FormatUint n), c :: rest) := by
  have hscan := scanNumber_FormatUint n hn c rest hc
  obtain ⟨d, ds, hfmt, h1, h2, _, _, _, _⟩ := FormatUint_spec n hn
  rw [hfmt] at hscan ⊢
  have hsp : isSpace d = false := by
    simp [isSpace]
    omega
  have hd : isDigit d = true := by
    rw [isDigit_iff]
    omega
  rw [List.cons_append] at hscan ⊢
  rw [parse, skipSpace_cons _ _ hsp]
  have c1 : ¬ d.val = 0x7B := by omega
  have c2 : ¬ d.val = 0x5B := by omega
  have c3 : ¬ d.val = 0x22 := by omega
  simp only [c1, c2, c3, hd, or_true, if_true, if_false, hscan]

/-- One member written by json.Marshal: a quoted name, a colon, a value and a
separator, with no white space. -/
theorem parse_member (fuel depth : Nat) (acc : List (Bytes × JValue)) (key src : Bytes)
    (v : JValue) (sep : Byte) (rest : Bytes) (hk : ValidString key = true)
    (hv : parse fuel depth ParseMode.value src = Except.ok (v, sep :: rest))
    (hsep : sep.val = 0x2C ∨ sep.val = 0x7D) :
    parse (fuel + 1) depth (ParseMode.members acc)
        (0x22 :: (appendStringLoop key.length key ++ 0x22 :: 0x3A :: src))
      = if sep.val = 0x2C then
          parse fuel depth (ParseMode.members (acc ++ [(key, v)])) (skipSpace rest)
        else Except.ok (JValue.object (acc ++ [(key, v)]), rest) := by
  have hsp : isSpace (0x3A : Byte) = false := by decide
  have hsp2 : isSpace sep = false := by
    rcases hsep with h | h <;> simp [isSpace, h]
  rw [parse]
  simp only [Fin.coe_ofNat_eq_mod, parseString_appendString key _ hk, skipSpace_cons _ _ hsp, hv,
    skipSpace_cons _ _ hsp2]
  rcases hsep with h | h <;> simp [h]

theorem parse_object_open (fuel : Nat) (t : Bytes) :
    parse (fuel + 1) 0 ParseMode.value (0x7B :: 0x22 :: t)
      = parse fuel 1 (ParseMode.members []) (0x22 :: t) := by
  have hsp : isSpace (0x7B : Byte) = false := by decide
  have hsp2 : isSpace (0x22 : Byte) = false := by decide
  rw [parse, skipSpace_cons _ _ hsp]
  simp [skipSpace_cons _ _ hsp2, Fin.coe_ofNat_eq_mod, maxNestingDepth]

theorem marshalMessage_shape (M T F : Bytes) :
    marshalMessage M T F
      = 0x7B :: 0x22 :: (appendStringLoop (ascii "Message").length (ascii "Message") ++ 0x22 :: 0x3A
        :: 0x22 :: (appendStringLoop M.length M ++ 0x22 :: 0x2C
        :: 0x22 :: (appendStringLoop (ascii "To").length (ascii "To") ++ 0x22 :: 0x3A
        :: 0x22 :: (appendStringLoop T.length T ++ 0x22 :: 0x2C
        :: 0x22 :: (appendStringLoop (ascii "From").length (ascii "From") ++ 0x22 :: 0x3A
        :: 0x22 :: (appendStringLoop F.length F ++ 0x22 :: 0x7D :: [])))))) := by
  have h1 : ascii "\x7b\"Message\":"
      = 0x7B :: 0x22 :: (appendStringLoop (ascii "Message").length (ascii "Message") ++ [0x22, 0x3A]) := by
    decide
  have h2 : ascii ",\"To\":"
      = 0x2C :: 0x22 :: (appendStringLoop (ascii "To").length (ascii "To") ++ [0x22, 0x3A]) := by
    decide
  have h3 : ascii ",\"From\":"
      = 0x2C :: 0x22 :: (appendStringLoop (ascii "From").length (ascii "From") ++ [0x22, 0x3A]) := by
    decide
  have h4 : ascii "\x7d" = [0x7D] := by decide
  simp only [marshalMessage, appendString, h1, h2, h3, h4, List.cons_append, List.append_assoc,
    List.nil_append, List.singleton_append]

/-- The parser on a marshalled Message with valid UTF-8 fields. -/
theorem parse_marshalMessage (M T F : Bytes) (hM : ValidString M = true) (hT : ValidString T = true)
    (hF : ValidString F = true) (fuel : Nat) :
    parse (fuel + 5) 0 ParseMode.value (marshalMessage M T F)
      = Except.ok (JValue.object [(ascii "Message", JValue.string M), (ascii "To", JValue.string T),
          (ascii "From", JValue.string F)], []) := by
  have k1 : ValidString (ascii "Message") = true := by decide
  have k2 : ValidString (ascii "To") = true := by decide
  have k3 : ValidString (ascii "From") = true := by decide
  have s1 : isSpace (0x22 : Byte) = false := by decide
  rw [marshalMessage_shape, parse_object_open]
  rw [parse_member (fuel + 3) 1 [] (ascii "Message") _ (JValue.string M) 0x2C _ k1
    (parse_value_string (fuel + 2) 1 M _ hM) (Or.inl rfl)]
  simp only [Fin.coe_ofNat_eq_mod, Nat.reduceMod, if_true, skipSpace_cons _ _ s1, List.nil_append]
  rw [parse_member (fuel + 2) 1 _ (ascii "To") _ (JValue.string T) 0x2C _ k2
    (parse_value_string (fuel + 1) 1 T _ hT) (Or.inl rfl)]
  simp only [Fin.coe_ofNat_eq_mod, Nat.reduceMod, if_true, skipSpace_cons _ _ s1, List.cons_append,
    List.nil_append]
  rw [parse_member (fuel + 1) 1 _ (ascii "From") _ (JValue.string F) 0x7D _ k3
    (parse_value_string fuel 1 F _ hF) (Or.inr rfl)]
  simp [Fin.coe_ofNat_eq_mod]

theorem parseJSON_of_parse (data : Bytes) (v : JValue) (h4 : 4 ≤ data.length)
    (h : ∀ fuel, parse (fuel + 5) 0 ParseMode.value data = Except.ok (v, [])) :
    parseJSON data = Except.ok v := by
  have hf : data.length + 1 = (data.length - 4) + 5 := by omega
  unfold parseJSON
  rw [hf, h]
  simp [skipSpace]

/-- The call json.Unmarshal inverts json.Marshal on a Message whose fields are
valid UTF-8, whatever the destination held. -/
theorem unmarshalMessage_marshalMessage (M T F : Bytes) (hM : ValidString M = true)
    (hT : ValidString T = true) (hF : ValidString F = true) (m0 : Protocol.Message) :
    unmarshalMessage (marshalMessage M T F) m0 = ({ Message := M, To := T, From := F }, none) := by
  have hlen : 4 ≤ (marshalMessage M T F).length := by
    rw [marshalMessage_shape]
    simp only [List.length_cons, List.length_append]
    omega
  have f1 : findField messageFields (ascii "Message") = some 0 := by decide
  have f2 : findField messageFields (ascii "To") = some 1 := by decide
  have f3 : findField messageFields (ascii "From") = some 2 := by decide
  unfold unmarshalMessage
  rw [parseJSON_of_parse _ _ hlen (parse_marshalMessage M T F hM hT hF)]
  simp [storeMessageField, f1, f2, f3]

theorem marshalHeaders_shape (n t : Nat) (e : Bytes) :
    marshalHeaders { Size := n, Type_ := t, Encoding := e }
      = 0x7B :: 0x22 :: (appendStringLoop (ascii "Size").length (ascii "Size") ++ 0x22 :: 0x3A
        :: (FormatUint n ++ 0x2C
        :: 0x22 :: (appendStringLoop (ascii "Type").length (ascii "Type") ++ 0x22 :: 0x3A
        :: (FormatUint t ++ 0x2C
        :: 0x22 :: (appendStringLoop (ascii "Encoding").length (ascii "Encoding") ++ 0x22 :: 0x3A
        :: 0x22 :: (appendStringLoop e.length e ++ 0x22 :: 0x7D :: [])))))) := by
  have h1 : ascii "\x7b\"Size\":"
      = 0x7B :: 0x22 :: (appendStringLoop (ascii "Size").length (ascii "Size") ++ [0x22, 0x3A]) := by
    decide
  have h2 : ascii ",\"Type\":"
      = 0x2C :: 0x22 :: (appendStringLoop (ascii "Type").length (ascii "Type") ++ [0x22, 0x3A]) := by
    decide
  have h3 : ascii ",\"Encoding\":"
      = 0x2C :: 0x22 :: (appendStringLoop (ascii "Encoding").length (ascii "Encoding")
          ++ [0x22, 0x3A]) := by
    decide
  have h4 : ascii "\x7d" = [0x7D] := by decide
  simp only [marshalHeaders, appendString, h1, h2, h3, h4, List.cons_append, List.append_assoc,
    List.nil_append, List.singleton_append]

theorem parse_marshalHeaders (n t : Nat) (e : Bytes) (hn : n < 10 ^ 20) (ht : t < 10 ^ 20)
    (he : ValidString e = true) (fuel : Nat) :
    parse (fuel + 5) 0 ParseMode.value (marshalHeaders { Size := n, Type_ := t, Encoding := e })
      = Except.ok (JValue.object [(ascii "Size", JValue.number (FormatUint n)),
          (ascii "Type", JValue.number (FormatUint t)), (ascii "Encoding", JValue.string e)], []) := by
  have k1 : ValidString (ascii "Size") = true := by decide
  have k2 : ValidString (ascii "Type") = true := by decide
  have k3 : ValidString (ascii "Encoding") = true := by decide
  have s1 : isSpace (0x22 : Byte) = false := by decide
  rw [marshalHeaders_shape, parse_object_open]
  rw [parse_member (fuel + 3) 1 [] (ascii "Size") _ (JValue.number (FormatUint n)) 0x2C _ k1
    (parse_value_number (fuel + 2) 1 n hn 0x2C _ (Or.inl rfl)) (Or.inl rfl)]
  simp only [Fin.coe_ofNat_eq_mod, Nat.reduceMod, if_true, skipSpace_cons _ _ s1, List.nil_append]
  rw [parse_member (fuel + 2) 1 _ (ascii "Type") _ (JValue.number (FormatUint t)) 0x2C _ k2
    (parse_value_number (fuel + 1) 1 t ht 0x2C _ (Or.inl rfl)) (Or.inl rfl)]
  simp only [Fin.coe_ofNat_eq_mod, Nat.reduceMod, if_true, skipSpace_cons _ _ s1, List.cons_append,
    List.nil_append]
  rw [parse_member (fuel + 1) 1 _ (ascii "Encoding") _ (JValue.string e) 0x7D _ k3
    (parse_value_string fuel 1 e _ he) (Or.inr rfl)]
  simp [Fin.coe_ofNat_eq_mod]

/-- The call json.Unmarshal inverts json.Marshal on a PayloadHeaders whose
fields fit their types. -/
theorem unmarshalHeaders_marshalHeaders (n t : Nat) (e : Bytes) (hn : n < 2 ^ 32) (ht : t < 2 ^ 8)
    (he : ValidString e = true) (h0 : PayloadHeaders) :
    unmarshalHeaders (marshalHeaders { Size := n, Type_ := t, Encoding := e }) h0
      = ({ Size := n, Type_ := t, Encoding := e }, none) := by
  have hn2 : n < 10 ^ 20 := by omega
  have ht2 : t < 10 ^ 20 := by omega
  have hlen : 4 ≤ (marshalHeaders { Size := n, Type_ := t, Encoding := e }).length := by
    rw [marshalHeaders_shape]
    simp only [List.length_cons, List.length_append]
    omega
  have f1 : findField headerFields (ascii "Size") = some 0 := by decide
  have f2 : findField headerFields (ascii "Type") = some 1 := by decide
  have f3 : findField headerFields (ascii "Encoding") = some 2 := by decide
  unfold unmarshalHeaders
  rw [parseJSON_of_parse _ _ hlen (parse_marshalHeaders n t e hn2 ht2 he)]
  simp [storeHeaderField, f1, f2, f3, parseUintLit_FormatUint 32 n hn hn2,
    parseUintLit_FormatUint 8 t ht ht2]

/-! ## The Message decoder on an in-memory source -/

theorem Buffer_Read_append (bs rest : Bytes) :
    Buffer.Read (bs ++ rest) bs.length = ((bs, none), rest) := by
  unfold Buffer.Read
  by_cases h : (bs ++ rest).isEmpty = true
  · have h2 : bs ++ rest = [] := List.isEmpty_iff.mp h
    have hb : bs = [] := (List.append_eq_nil.mp h2).1
    have hr : rest = [] := (List.append_eq_nil.mp h2).2
    subst hb hr
    simp
  · simp [h]

theorem byte_ofNat_val (n : Nat) (h : n < 256) : ((Fin.ofNat n : Byte)).val = n := by
  simp [Fin.ofNat]
  omega

/-- What Message.ReadFrom does on MultiReader(prefix holding v, in-memory source). -/
theorem Message_ReadFrom_multi (m0 : Protocol.Message) (src : Bytes) (v : Nat) :
    Message.ReadFrom m0 (multiReader bufferReader) (NewMultiReader (PutUint32 v) src)
      = if v % 2 ^ 32 = 0 then
          match (unmarshalMessage [] { Message := [], To := [], From := [] }).2 with
          | some err => ((m0, 0, some err), { first := [], second := src, remaining := 2 })
          | none => (((unmarshalMessage [] { Message := [], To := [], From := [] }).1, 0, none),
              { first := [], second := src, remaining := 2 })
        else if src = [] then
          ((m0, 0, some GoError.EOF), { first := [], second := [], remaining := 0 })
        else
          match DecodeString (filled (v % 2 ^ 32) (src.take (v % 2 ^ 32))) with
          | Except.error err =>
            ((m0, (src.take (v % 2 ^ 32)).length, some err),
              { first := [], second := src.drop (v % 2 ^ 32), remaining := 1 })
          | Except.ok decoded =>
            match (unmarshalMessage decoded { Message := [], To := [], From := [] }).2 with
            | some err =>
              ((m0, (src.take (v % 2 ^ 32)).length, some err),
                { first := [], second := src.drop (v % 2 ^ 32), remaining := 1 })
            | none =>
              (((unmarshalMessage decoded { Message := [], To := [], From := [] }).1,
                  (src.take (v % 2 ^ 32)).length, none),
                { first := [], second := src.drop (v % 2 ^ 32), remaining := 1 }) := by
  unfold Message.ReadFrom
  rw [binaryReadUint32_multi]
  simp only [multiReader]
  rw [MultiReader_Read_body]
  generalize v % 2 ^ 32 = size
  by_cases hv : size = 0
  · simp [hv, filled, DecodeString_nil]
  · by_cases hs : src = []
    · simp [hv, hs]
    · simp only [hv, hs, if_false]

/-- What decodeMessage does on an in-memory source that starts with the length
of a header and the header. -/
theorem decodeMessage_buffer (header rest : Bytes) (hlen : header.length < 256) :
    decodeMessage bufferReader (Fin.ofNat header.length :: (header ++ rest))
      = match DecodeString header with
        | Except.error err => ((none, some err), rest)
        | Except.ok decoded =>
          match (unmarshalHeaders decoded { Size := 0, Type_ := 0, Encoding := [] }).2 with
          | some err => ((none, some err), rest)
          | none =>
            if (unmarshalHeaders decoded { Size := 0, Type_ := 0, Encoding := [] }).1.Size
                > MaxPayloadsize then ((none, some GoError.ErrorMaxPayloadSize), rest)
            else
              match (Message.ReadFrom { Message := [], To := [], From := [] }
                  (multiReader bufferReader)
                  (NewMultiReader (PutUint32
                    (unmarshalHeaders decoded { Size := 0, Type_ := 0, Encoding := [] }).1.Size)
                    rest)).1.2.2 with
              | some err => ((none, some err),
                  (Message.ReadFrom { Message := [], To := [], From := [] }
                    (multiReader bufferReader)
                    (NewMultiReader (PutUint32
                      (unmarshalHeaders decoded { Size := 0, Type_ := 0, Encoding := [] }).1.Size)
                      rest)).2.second)
              | none => ((some (Payload.Message
                  (Message.ReadFrom { Message := [], To := [], From := [] }
                    (multiReader bufferReader)
                    (NewMultiReader (PutUint32
                      (unmarshalHeaders decoded { Size := 0, Type_ := 0, Encoding := [] }).1.Size)
                      rest)).1.1), none),
                  (Message.ReadFrom { Message := [], To := [], From := [] }
                    (multiReader bufferReader)
                    (NewMultiReader (PutUint32
                      (unmarshalHeaders decoded { Size := 0, Type_ := 0, Encoding := [] }).1.Size)
                      rest)).2.second) := by
  have hrd : bufferReader.Read (header ++ rest) (Fin.ofNat header.length : Byte).val
      = ((header, none), rest) := by
    rw [byte_ofNat_val _ hlen]
    exact Buffer_Read_append header rest
  have hfill : filled (Fin.ofNat header.length : Byte).val header = header := by
    rw [byte_ofNat_val _ hlen]
    exact filled_self header
  unfold decodeMessage
  rw [binaryReadUint8_buffer_cons]
  dsimp only
  rw [hrd]
  dsimp only
  rw [hfill]

theorem Decode_message_tag (src : Bytes) :
    Decode bufferReader (1 :: src) = decodeMessage bufferReader src := by
  unfold Decode
  rw [binaryReadUint8_buffer_cons]
  simp [HeartBeat, MessageType]

theorem EncodeToString_ne_nil (e : Bytes) (h : e ≠ []) : EncodeToString e ≠ [] := by
  intro h0
  have hl := EncodeToString_length e
  rw [h0] at hl
  have : 0 < e.length := List.length_pos.mpr h
  simp only [List.length_nil] at hl
  omega

theorem marshalMessage_ne_nil (M T F : Bytes) : marshalMessage M T F ≠ [] := by
  rw [marshalMessage_shape]
  simp

/-! ## The dispatcher: empty source, heartbeat, no partial success -/

/-- C11. Empty source: Decode on an in-memory source that holds no bytes returns
no payload and the end-of-input error io.EOF of the source, which is not
ErrorUnknownType. -/
theorem Decode_empty_source :
    Decode bufferReader [] = ((none, some GoError.EOF), []) ∧
    GoError.EOF ≠ GoError.ErrorUnknownType := by
  refine ⟨?_, by decide⟩
  unfold Decode binaryReadUint8
  rw [ReadFull_buffer_nil 1 (by norm_num)]

/-- C12. Heartbeat framing: Encode of a Heartbeat with tag 2 into an in-memory
sink appends exactly the byte 2 and returns count 1 with no error; Decode on an
in-memory source [2] ++ rest succeeds, returns a Heartbeat whose display string
and bytes are empty, and leaves rest unread. -/
theorem Heartbeat_framing (buf b rest : Bytes) :
    Encode bufferWriter buf (Payload.Beat b) HeartBeat = ((1, none), buf ++ [2]) ∧
    ∃ p, Decode bufferReader (2 :: rest) = ((some p, none), rest) ∧
      p = Payload.Beat [] ∧ p.String = [] ∧ p.Byte = [] := by
  constructor
  · simp [Encode, encodeBeat, binaryWriteUint8, bufferWriter, Buffer.Write, Payload.WriteTo,
      Beat.WriteTo, HeartBeat]
  · refine ⟨Payload.Beat [], ?_, rfl, rfl, rfl⟩
    unfold Decode
    rw [binaryReadUint8_buffer_cons]
    simp [HeartBeat, decodeBeat]

/-- The Message decoder returns a payload without an error or an error without a
payload. -/
theorem decodeMessage_whole {σ : Type} (R : Reader σ) (s : σ) :
    (∃ p, (decodeMessage R s).1 = (some p, none)) ∨
      (∃ e, (decodeMessage R s).1 = (none, some e)) := by
  unfold decodeMessage
  dsimp only
  split
  · exact Or.inr ⟨_, rfl⟩
  · split
    · exact Or.inr ⟨_, rfl⟩
    · split
      · exact Or.inr ⟨_, rfl⟩
      · split
        · exact Or.inr ⟨_, rfl⟩
        · split
          · exact Or.inr ⟨_, rfl⟩
          · split
            · exact Or.inr ⟨_, rfl⟩
            · exact Or.inl ⟨_, rfl⟩

/-- The Error decoder returns a payload without an error or an error without a
payload. -/
theorem decodeError_whole {σ : Type} (R : Reader σ) (s : σ) :
    (∃ p, (decodeError R s).1 = (some p, none)) ∨
      (∃ e, (decodeError R s).1 = (none, some e)) := by
  unfold decodeError
  dsimp only
  split
  · exact Or.inr ⟨_, rfl⟩
  · split
    · exact Or.inr ⟨_, rfl⟩
    · split
      · exact Or.inr ⟨_, rfl⟩
      · exact Or.inl ⟨_, rfl⟩

/-- C13. No partial success in Decode: for every reader and every state of it,
Decode returns either a payload together with a nil error or no payload together
with an error, never both and never neither. -/
theorem Decode_no_partial_success {σ : Type} (R : Reader σ) (s : σ) :
    (∃ p, (Decode R s).1 = (some p, none)) ∨ (∃ e, (Decode R s).1 = (none, some e)) := by
  have hM := decodeMessage_whole R
  have hE := decodeError_whole R
  unfold Decode
  dsimp only
  split
  · exact Or.inr ⟨_, rfl⟩
  · split
    · exact Or.inl ⟨_, rfl⟩
    · split
      · exact hM _
      · split
        · exact hE _
        · exact Or.inr ⟨_, rfl⟩

/-- C16. Readers are atomic on failure: for every reader, every state of it and
every receiver value, when Message.ReadFrom (respectively Error_.ReadFrom)
returns an error the receiver holds the value it held before the call. -/
theorem ReadFrom_atomic {σ : Type} (R : Reader σ) (s : σ) (m : Protocol.Message) (e : Bytes) :
    ((Message.ReadFrom m R s).1.2.2 ≠ none → (Message.ReadFrom m R s).1.1 = m) ∧
    ((Error_.ReadFrom e R s).1.2.2 ≠ none → (Error_.ReadFrom e R s).1.1 = e) := by
  constructor
  · unfold Message.ReadFrom
    dsimp only
    split
    · intro _; rfl
    · split
      · intro _; rfl
      · split
        · intro _; rfl
        · split
          · intro _; rfl
          · intro h; exact absurd rfl h
  · unfold Error_.ReadFrom
    dsimp only
    split
    · intro _; rfl
    · split
      · intro _; rfl
      · split
        · intro _; rfl
        · intro h; exact absurd rfl h

/-- The atomicity of the readers at a source that declares four bytes and holds
two: both calls fail and leave their receivers as they were. -/
theorem ReadFrom_atomic_witness :
    (Message.ReadFrom { Message := [1], To := [2], From := [3] } bufferReader
        [0, 0, 0, 4, 65, 65]).1.2.2 ≠ none ∧
    (Message.ReadFrom { Message := [1], To := [2], From := [3] } bufferReader
        [0, 0, 0, 4, 65, 65]).1.1 = { Message := [1], To := [2], From := [3] } ∧
    (Error_.ReadFrom [7] bufferReader [0, 0, 0, 4, 65, 65]).1.2.2 ≠ none ∧
    (Error_.ReadFrom [7] bufferReader [0, 0, 0, 4, 65, 65]).1.1 = [7] :=
  ⟨by decide,
    (ReadFrom_atomic bufferReader [0, 0, 0, 4, 65, 65] { Message := [1], To := [2], From := [3] }
      [7]).1 (by decide),
    by decide,
    (ReadFrom_atomic bufferReader [0, 0, 0, 4, 65, 65] { Message := [1], To := [2], From := [3] }
      [7]).2 (by decide)⟩

/-! ## The length of a marshalled header -/

theorem formatUintLoop_length_digits (fuel : Nat) :
    ∀ (n k : Nat) (acc : Bytes), 1 ≤ k → n < 10 ^ k →
      (formatUintLoop fuel n acc).length ≤ k + acc.length := by
  induction fuel with
  | zero => intro n k acc _ _; simp [formatUintLoop]
  | succ f ih =>
    intro n k acc hk hn
    unfold formatUintLoop
    split
    · simp only [List.length_cons]
      omega
    · rename_i h10
      obtain ⟨j, rfl⟩ : ∃ j, k = j + 1 := ⟨k - 1, by omega⟩
      have hj : 1 ≤ j := by
        by_contra hj0
        have : j = 0 := by omega
        subst this
        simp at hn
        omega
      have hdiv : n / 10 < 10 ^ j := by
        rw [Nat.div_lt_iff_lt_mul (by norm_num)]
        calc n < 10 ^ (j + 1) := hn
          _ = 10 ^ j * 10 := by ring
      have := ih (n / 10) j (Fin.ofNat (0x30 + n % 10) :: acc) hj hdiv
      simp only [List.length_cons] at this
      omega

theorem FormatUint_length_bounds (n : Nat) (hn : n < 2 ^ 32) :
    1 ≤ (FormatUint n).length ∧ (FormatUint n).length ≤ 10 := by
  constructor
  · obtain ⟨d, ds, h, _⟩ := FormatUint_spec n (by omega)
    rw [h]
    simp
  · have := formatUintLoop_length_digits 20 n 10 [] (by norm_num) (by omega)
    simpa [FormatUint] using this

theorem marshalHeaders_length (n : Nat) :
    (marshalHeaders { Size := n, Type_ := 0, Encoding := [] }).length = 32 + (FormatUint n).length := by
  have h3 : (ascii "\x7b\"Size\":").length = 8 := by decide
  have h4 : (ascii ",\"Type\":").length = 8 := by decide
  have h5 : (ascii ",\"Encoding\":").length = 12 := by decide
  have h6 : (ascii "\x7d").length = 1 := by decide
  have h7 : (FormatUint 0).length = 1 := by decide
  simp only [marshalHeaders, appendString, appendStringLoop, List.length_append, h3, h4, h5, h6, h7,
    List.length_cons, List.length_nil]
  omega

/-- C18. The one-byte Message header length never truncates: for every declared
size L below 2^32 the base64 text of the JSON serialization of
PayloadHeaders{Size = L, Type = 0, Encoding = ""} is between 44 and 56 bytes
long, so uint8(len(header)) is the header length, and the read of that many
bytes in decodeMessage returns the whole header from an in-memory source and
leaves what follows it. -/
theorem header_length_fits (L : Nat) (hL : L < 2 ^ 32) (rest : Bytes) :
    44 ≤ (EncodeToString (marshalHeaders { Size := L, Type_ := 0, Encoding := [] })).length ∧
    (EncodeToString (marshalHeaders { Size := L, Type_ := 0, Encoding := [] })).length ≤ 56 ∧
    uint8 (EncodeToString (marshalHeaders { Size := L, Type_ := 0, Encoding := [] })).length
      = (EncodeToString (marshalHeaders { Size := L, Type_ := 0, Encoding := [] })).length ∧
    bufferReader.Read
        (EncodeToString (marshalHeaders { Size := L, Type_ := 0, Encoding := [] }) ++ rest)
        (Fin.ofNat (uint8
          (EncodeToString (marshalHeaders { Size := L, Type_ := 0, Encoding := [] })).length) : Byte).val
      = ((EncodeToString (marshalHeaders { Size := L, Type_ := 0, Encoding := [] }), none), rest) := by
  obtain ⟨h1, h2⟩ := FormatUint_length_bounds L hL
  have hlen := EncodeToString_length (marshalHeaders { Size := L, Type_ := 0, Encoding := [] })
  rw [marshalHeaders_length] at hlen
  generalize EncodeToString (marshalHeaders { Size := L, Type_ := 0, Encoding := [] }) = header at *
  have hu : uint8 header.length = header.length := by
    unfold uint8
    omega
  refine ⟨by omega, by omega, hu, ?_⟩
  rw [hu, byte_ofNat_val _ (by omega)]
  exact Buffer_Read_append header rest

/-- The header that declares the largest uint32 is 56 bytes long and is read back
whole. -/
theorem header_length_fits_witness :
    (4294967295 : Nat) < 2 ^ 32 ∧
    44 ≤ (EncodeToString (marshalHeaders { Size := 4294967295, Type_ := 0, Encoding := [] })).length ∧
    (EncodeToString (marshalHeaders { Size := 4294967295, Type_ := 0, Encoding := [] })).length ≤ 56 ∧
    uint8 (EncodeToString (marshalHeaders { Size := 4294967295, Type_ := 0, Encoding := [] })).length
      = (EncodeToString (marshalHeaders { Size := 4294967295, Type_ := 0, Encoding := [] })).length ∧
    bufferReader.Read
        (EncodeToString (marshalHeaders { Size := 4294967295, Type_ := 0, Encoding := [] }) ++ [1, 2])
        (Fin.ofNat (uint8
          (EncodeToString (marshalHeaders { Size := 4294967295, Type_ := 0, Encoding := [] })).length)
            : Byte).val
      = ((EncodeToString (marshalHeaders { Size := 4294967295, Type_ := 0, Encoding := [] }), none),
          [1, 2]) :=
  ⟨by norm_num, header_length_fits 4294967295 (by norm_num) [1, 2]⟩

/-! ## A zero byte is never accepted by the base64 decoder -/

theorem decodeMap_zero : decodeMap 0 = 255 := by decide

theorem skipNewlines_mem_zero (src : Bytes) (h : (0 : Byte) ∈ src) : skipNewlines src ≠ [] ∧
    (0 : Byte) ∈ skipNewlines src := by
  induction src with
  | nil => simp at h
  | cons c t ih =>
    unfold skipNewlines
    by_cases hc : c = 10 ∨ c = 13
    · have h0 : (0 : Byte) ∈ t := by
        rcases List.mem_cons.mp h with h1 | h1
        · rcases hc with hc | hc <;> (rw [← h1] at hc; exact absurd hc (by decide))
        · exact h1
      simp only [hc, if_true]
      exact ih h0
    · simp only [hc, if_false]
      exact ⟨by simp, h⟩

theorem afterPadding_mem_zero (dbuf : List Nat) (src : Bytes) (h : (0 : Byte) ∈ src) :
    afterPadding dbuf src = Except.error GoError.CorruptInputError := by
  unfold afterPadding
  have := (skipNewlines_mem_zero src h).1
  have h2 : (skipNewlines src).isEmpty = false := by
    cases hs : skipNewlines src with
    | nil => exact absurd hs this
    | cons _ _ => rfl
  simp [h2]

/-- A quantum of input that holds a zero byte is an error, or ends before the
zero byte. -/
theorem decodeQuantumLoop_mem_zero (src : Bytes) :
    ∀ (dbuf : List Nat), (0 : Byte) ∈ src →
      (∃ e, decodeQuantumLoop src dbuf = Except.error e) ∨
      (∃ d rest, decodeQuantumLoop src dbuf = Except.ok (d, rest) ∧ (0 : Byte) ∈ rest) := by
  induction src with
  | nil => intro dbuf h; simp at h
  | cons c t ih =>
    intro dbuf h
    unfold decodeQuantumLoop
    by_cases h4 : dbuf.length = 4
    · right
      exact ⟨dbuf, c :: t, by simp [h4], h⟩
    · simp only [h4, if_false]
      by_cases hc0 : c = 0
      · left
        subst hc0
        refine ⟨GoError.CorruptInputError, ?_⟩
        have e1 : ¬ ((0 : Byte) = 10 ∨ (0 : Byte) = 13) := by decide
        have e2 : (0 : Byte) ≠ padChar := by decide
        simp [decodeMap_zero, e1, e2]
      · have ht : (0 : Byte) ∈ t := by
          rcases List.mem_cons.mp h with h1 | h1
          · exact absurd h1.symm hc0
          · exact h1
        split
        · exact ih _ ht
        · split
          · exact ih _ ht
          · split
            · exact Or.inl ⟨_, rfl⟩
            · split
              · exact Or.inl ⟨_, rfl⟩
              · split
                · have hs := skipNewlines_mem_zero t ht
                  split
                  · exact Or.inl ⟨_, rfl⟩
                  · rename_i c2 rest2 heq
                    split
                    · exact Or.inl ⟨_, rfl⟩
                    · rename_i hpad
                      have hc2 : c2 = padChar := by
                        by_contra hne
                        exact hpad hne
                      have hmem : (0 : Byte) ∈ rest2 := by
                        have := hs.2
                        rw [heq] at this
                        rcases List.mem_cons.mp this with h1 | h1
                        · rw [hc2] at h1
                          exact absurd h1 (by decide)
                        · exact h1
                      left
                      exact ⟨_, afterPadding_mem_zero _ _ hmem⟩
                · left
                  exact ⟨_, afterPadding_mem_zero _ _ ht⟩

theorem decodeLoop_mem_zero (fuel : Nat) :
    ∀ (src : Bytes), (0 : Byte) ∈ src → ∃ e, decodeLoop fuel src = Except.error e := by
  induction fuel with
  | zero =>
    intro src h
    cases src with
    | nil => simp at h
    | cons c t => exact ⟨GoError.ErrNoProgress, by simp [decodeLoop]⟩
  | succ f ih =>
    intro src h
    cases src with
    | nil => simp at h
    | cons c t =>
      unfold decodeLoop
      simp only [List.isEmpty_cons, Bool.false_eq_true, if_false]
      rcases decodeQuantumLoop_mem_zero (c :: t) [] h with ⟨e, he⟩ | ⟨d, rest, hd, hmem⟩
      · rw [he]
        exact ⟨e, rfl⟩
      · rw [hd]
        obtain ⟨e, he⟩ := ih rest hmem
        simp only [he]
        exact ⟨e, rfl⟩

/-- DecodeString rejects every input that holds a zero byte. -/
theorem DecodeString_mem_zero (s : Bytes) (h : (0 : Byte) ∈ s) :
    ∃ e, DecodeString s = Except.error e :=
  decodeLoop_mem_zero _ s h

/-- A buffer that a short read left partly unfilled is rejected. -/
theorem DecodeString_filled_short (size : Nat) (read : Bytes) (h : read.length < size) :
    ∃ e, DecodeString (filled size read) = Except.error e := by
  apply DecodeString_mem_zero
  unfold filled
  apply List.mem_append_right
  obtain ⟨k, hk⟩ : ∃ k, size - read.length = k + 1 := ⟨size - read.length - 1, by omega⟩
  rw [hk, List.replicate_succ]
  exact List.mem_cons_self _ _


/-- What Decode does on an in-memory source that starts with the Error tag and a
four-byte length within the limit. -/
theorem Decode_error_frame (L : Nat) (src : Bytes) (hmax : L ≤ 10485760) :
    Decode bufferReader ([3] ++ PutUint32 L ++ src)
      = match (Error_.ReadFrom [] (multiReader bufferReader)
            (NewMultiReader (PutUint32 L) src)).1.2.2 with
        | some err => ((none, some err),
            (Error_.ReadFrom [] (multiReader bufferReader) (NewMultiReader (PutUint32 L) src)).2.second)
        | none => ((some (Payload.Error_
            (Error_.ReadFrom [] (multiReader bufferReader) (NewMultiReader (PutUint32 L) src)).1.1),
            none),
            (Error_.ReadFrom [] (multiReader bufferReader) (NewMultiReader (PutUint32 L) src)).2.second) := by
  have hmod : L % 2 ^ 32 = L := Nat.mod_eq_of_lt (by omega)
  have hu : uint32 L = L := uint32_of_lt _ (by omega)
  have hle : ¬ L > MaxPayloadsize := by
    rw [MaxPayloadsize_eq]
    omega
  have e : [3] ++ PutUint32 L ++ src = 3 :: (PutUint32 L ++ src) := by simp
  rw [e]
  unfold Decode
  rw [binaryReadUint8_buffer_cons]
  simp only [HeartBeat, MessageType, Error]
  simp only [show ((3 : Byte) = 2) = False from by decide, show ((3 : Byte) = 1) = False from by decide,
    if_false, if_true]
  unfold decodeError
  rw [binaryReadUint32_buffer_PutUint32, hmod]
  dsimp only
  rw [hu, if_neg hle]

/-- C15. Insufficient body bytes are an error: when the declared body length L
of an Error frame, or of a Message frame (through its header), satisfies
0 < L <= 10,485,760 and the in-memory source holds fewer than L bytes after the
length declaration, Decode returns an error and no payload. -/
theorem Decode_short_body (L : Nat) (avail : Bytes) (h0 : 0 < L) (hmax : L ≤ 10485760)
    (hshort : avail.length < L) :
    (∃ e, (Decode bufferReader ([3] ++ PutUint32 L ++ avail)).1 = (none, some e)) ∧
    (∀ (header decoded : Bytes) (h : PayloadHeaders), header.length < 256 →
      DecodeString header = Except.ok decoded →
      unmarshalHeaders decoded { Size := 0, Type_ := 0, Encoding := [] } = (h, none) →
      h.Size = L →
      ∃ e, (Decode bufferReader ([1, Fin.ofNat header.length] ++ header ++ avail)).1
        = (none, some e)) := by
  have hmod : L % 2 ^ 32 = L := Nat.mod_eq_of_lt (by omega)
  have hL0 : ¬ L = 0 := by omega
  have hle : ¬ L > MaxPayloadsize := by
    rw [MaxPayloadsize_eq]
    omega
  have htake : (List.take L avail).length < L := by
    simp only [List.length_take]
    omega
  obtain ⟨eb, heb⟩ := DecodeString_filled_short L (List.take L avail) htake
  constructor
  · rw [Decode_error_frame L avail hmax, Error_ReadFrom_multi, hmod, if_neg hL0]
    by_cases hs : avail = []
    · rw [if_pos hs]
      exact ⟨_, rfl⟩
    · rw [if_neg hs, heb]
      exact ⟨_, rfl⟩
  · intro header decoded h hlen hdec hjson hsz
    have e : [1, Fin.ofNat header.length] ++ header ++ avail
        = 1 :: (Fin.ofNat header.length : Byte) :: (header ++ avail) := by simp
    rw [e, Decode_message_tag, decodeMessage_buffer header avail hlen, hdec]
    dsimp only
    rw [hjson]
    dsimp only
    rw [hsz, if_neg hle, Message_ReadFrom_multi, hmod, if_neg hL0]
    by_cases hs : avail = []
    · rw [if_pos hs]
      exact ⟨_, rfl⟩
    · rw [if_neg hs, heb]
      exact ⟨_, rfl⟩

/-- The short-body rule at a declared length of 28 with 20 bytes of base64 text
in the source, for an Error frame and for a Message frame. -/
theorem Decode_short_body_witness :
    (0 : Nat) < 28 ∧ (28 : Nat) ≤ 10485760 ∧
    ((EncodeToString (ascii "Something went")).length < 28) ∧
    (∃ e, (Decode bufferReader ([3] ++ PutUint32 28 ++ EncodeToString (ascii "Something went"))).1
      = (none, some e)) ∧
    (∃ e, (Decode bufferReader ([1, Fin.ofNat
        (EncodeToString (marshalHeaders { Size := 28, Type_ := 0, Encoding := [] })).length]
        ++ EncodeToString (marshalHeaders { Size := 28, Type_ := 0, Encoding := [] })
        ++ EncodeToString (ascii "Something went"))).1 = (none, some e)) :=
  ⟨by norm_num, by norm_num, by decide,
    (Decode_short_body 28 (EncodeToString (ascii "Something went")) (by norm_num) (by norm_num)
      (by decide)).1,
    (Decode_short_body 28 (EncodeToString (ascii "Something went")) (by norm_num) (by norm_num)
      (by decide)).2 _ _ { Size := 28, Type_ := 0, Encoding := [] } (header_length_lt 28 0)
      (DecodeString_EncodeToString _)
      (unmarshalHeaders_marshalHeaders 28 0 [] (by norm_num) (by norm_num) (by decide) _) rfl⟩

/-! ## Payloads above the size limit -/

/-- What Decode does on an in-memory source that starts with the Error tag and a
four-byte length above the limit. -/
theorem Decode_error_frame_over (L : Nat) (src : Bytes) (h1 : 10485760 < L) (h2 : L < 2 ^ 32) :
    Decode bufferReader ([3] ++ PutUint32 L ++ src)
      = ((none, some GoError.ErrorMaxPayloadSize), src) := by
  have hmod : L % 2 ^ 32 = L := Nat.mod_eq_of_lt h2
  have hu : uint32 L = L := uint32_of_lt _ h2
  have hgt : L > MaxPayloadsize := by
    rw [MaxPayloadsize_eq]
    omega
  have e : [3] ++ PutUint32 L ++ src = 3 :: (PutUint32 L ++ src) := by simp
  rw [e]
  unfold Decode
  rw [binaryReadUint8_buffer_cons]
  simp only [HeartBeat, MessageType, Error]
  simp only [show ((3 : Byte) = 2) = False from by decide, show ((3 : Byte) = 1) = False from by decide,
    if_false, if_true]
  unfold decodeError
  rw [binaryReadUint32_buffer_PutUint32, hmod]
  dsimp only
  rw [hu, if_pos hgt]

/-- What Decode does on an in-memory source that starts with the Message tag and
a marshalled header that declares a size above the limit. -/
theorem Decode_message_frame_over (L : Nat) (src : Bytes) (h1 : 10485760 < L) (h2 : L < 2 ^ 32) :
    Decode bufferReader ([1]
        ++ [Fin.ofNat (EncodeToString (marshalHeaders
              { Size := L, Type_ := 0, Encoding := [] })).length]
        ++ EncodeToString (marshalHeaders { Size := L, Type_ := 0, Encoding := [] }) ++ src)
      = ((none, some GoError.ErrorMaxPayloadSize), src) := by
  have hgt : L > MaxPayloadsize := by
    rw [MaxPayloadsize_eq]
    omega
  have hhl := header_length_lt L 0
  have hdec := DecodeString_EncodeToString (marshalHeaders { Size := L, Type_ := 0, Encoding := [] })
  have hjson := unmarshalHeaders_marshalHeaders L 0 [] h2 (by norm_num) (by decide)
    { Size := 0, Type_ := 0, Encoding := [] }
  generalize EncodeToString (marshalHeaders { Size := L, Type_ := 0, Encoding := [] }) = header at *
  have e : [1] ++ [(Fin.ofNat header.length : Byte)] ++ header ++ src
      = 1 :: (Fin.ofNat header.length : Byte) :: (header ++ src) := by simp
  rw [e, Decode_message_tag, decodeMessage_buffer header src hhl, hdec]
  dsimp only
  rw [hjson]
  dsimp only
  rw [if_pos hgt]

/-- C19. The size limit is enforced on decode only: for an ErrorText, and for a
Message, whose base64 body is longer than 10,485,760 bytes and shorter than 2^32,
Encode with the matching tag into an in-memory sink returns no error and writes
the whole frame, while Decode of exactly those bytes returns no payload and
ErrorMaxPayloadSize. -/
theorem size_limit_on_decode_only (e : Bytes) (m : Protocol.Message) :
    (10485760 < (EncodeToString e).length → (EncodeToString e).length < 2 ^ 32 →
      (Encode bufferWriter [] (Payload.Error_ e) Error).1.2 = none ∧
      (Encode bufferWriter [] (Payload.Error_ e) Error).2
        = [3] ++ PutUint32 (EncodeToString e).length ++ EncodeToString e ∧
      (Decode bufferReader (Encode bufferWriter [] (Payload.Error_ e) Error).2).1
        = (none, some GoError.ErrorMaxPayloadSize)) ∧
    (10485760 < (EncodeToString (marshalMessage m.Message m.To m.From)).length →
      (EncodeToString (marshalMessage m.Message m.To m.From)).length < 2 ^ 32 →
      (Encode bufferWriter [] (Payload.Message m) MessageType).1.2 = none ∧
      (Encode bufferWriter [] (Payload.Message m) MessageType).2
        = [1] ++ [Fin.ofNat (EncodeToString (marshalHeaders
              { Size := (EncodeToString (marshalMessage m.Message m.To m.From)).length,
                Type_ := 0, Encoding := [] })).length]
          ++ EncodeToString (marshalHeaders
              { Size := (EncodeToString (marshalMessage m.Message m.To m.From)).length,
                Type_ := 0, Encoding := [] })
          ++ EncodeToString (marshalMessage m.Message m.To m.From) ∧
      (Decode bufferReader (Encode bufferWriter [] (Payload.Message m) MessageType).2).1
        = (none, some GoError.ErrorMaxPayloadSize)) := by
  constructor
  · intro h1 h2
    have hu : uint32 (EncodeToString e).length = (EncodeToString e).length := uint32_of_lt _ h2
    rw [Encode_error_buffer, hu]
    dsimp only
    rw [List.nil_append, Decode_error_frame_over _ _ h1 h2]
    exact ⟨rfl, rfl, rfl⟩
  · intro h1 h2
    have hu : uint32 (EncodeToString (marshalMessage m.Message m.To m.From)).length
        = (EncodeToString (marshalMessage m.Message m.To m.From)).length := uint32_of_lt _ h2
    rw [Encode_message_buffer, hu]
    dsimp only
    rw [List.nil_append, Decode_message_frame_over _ _ h1 h2]
    exact ⟨rfl, rfl, rfl⟩

/-! ## Long texts made of one letter -/

theorem appendStringLoop_replicate (n : Nat) :
    ∀ fuel, n ≤ fuel → appendStringLoop fuel (List.replicate n (0x61 : Byte))
      = List.replicate n (0x61 : Byte) := by
  induction n with
  | zero => intro fuel _; simp [appendStringLoop_nil]
  | succ k ih =>
    intro fuel hf
    obtain ⟨f, rfl⟩ : ∃ f, fuel = f + 1 := ⟨fuel - 1, by omega⟩
    have h1 : ((0x61 : Byte)).val < 0x80 := by decide
    have h2 : htmlSafeSet (0x61 : Byte) = true := by decide
    rw [List.replicate_succ, appendStringLoop]
    simp only [h1, h2, if_true]
    rw [ih f (by omega)]

theorem Valid_replicate (n : Nat) :
    ∀ fuel, n ≤ fuel → Valid fuel (List.replicate n (0x61 : Byte)) = true := by
  induction n with
  | zero => intro fuel _; cases fuel <;> simp [Valid]
  | succ k ih =>
    intro fuel hf
    obtain ⟨f, rfl⟩ : ∃ f, fuel = f + 1 := ⟨fuel - 1, by omega⟩
    have h1 : ((0x61 : Byte)).val < 0x80 := by decide
    have hd := DecodeRune_ascii (0x61 : Byte) (List.replicate k (0x61 : Byte)) h1
    have hne : ¬ (((0x61 : Byte)).val = RuneError ∧ (1 : Nat) = 1) := by decide
    rw [List.replicate_succ, Valid]
    simp only [List.isEmpty_cons, Bool.false_eq_true, if_false, hd, hne, List.drop_succ_cons,
      List.drop_zero]
    exact ih f (by omega)

theorem ValidString_replicate (n : Nat) : ValidString (List.replicate n (0x61 : Byte)) = true := by
  unfold ValidString
  exact Valid_replicate n _ (by simp)

theorem marshalMessage_replicate_length (n : Nat) :
    (marshalMessage (List.replicate n (0x61 : Byte)) [] []).length = n + 32 := by
  have k1 : (appendStringLoop (ascii "Message").length (ascii "Message")).length = 7 := by decide
  have k2 : (appendStringLoop (ascii "To").length (ascii "To")).length = 2 := by decide
  have k3 : (appendStringLoop (ascii "From").length (ascii "From")).length = 4 := by decide
  rw [marshalMessage_shape, appendStringLoop_replicate n _ (by simp)]
  simp only [List.length_cons, List.length_append, List.length_replicate, List.length_nil,
    appendStringLoop_nil, k1, k2, k3]
  omega

theorem body_replicate_length (n : Nat) :
    (EncodeToString (marshalMessage (List.replicate n (0x61 : Byte)) [] [])).length
      = 4 * ((n + 34) / 3) := by
  rw [EncodeToString_length, marshalMessage_replicate_length]

/-- What Message.ReadFrom does on an in-memory source that holds a four-byte
length, the base64 body of that length for a Message with valid UTF-8 fields,
and more bytes: there is no size check. -/
theorem Message_ReadFrom_buffer (m0 m : Protocol.Message) (rest : Bytes)
    (hM : ValidString m.Message = true) (hT : ValidString m.To = true)
    (hF : ValidString m.From = true)
    (hlt : (EncodeToString (marshalMessage m.Message m.To m.From)).length < 2 ^ 32) :
    Message.ReadFrom m0 bufferReader
        (PutUint32 (EncodeToString (marshalMessage m.Message m.To m.From)).length
          ++ (EncodeToString (marshalMessage m.Message m.To m.From) ++ rest))
      = ((m, (EncodeToString (marshalMessage m.Message m.To m.From)).length, none), rest) := by
  have hdec := DecodeString_EncodeToString (marshalMessage m.Message m.To m.From)
  have hum := unmarshalMessage_marshalMessage m.Message m.To m.From hM hT hF
    { Message := [], To := [], From := [] }
  generalize EncodeToString (marshalMessage m.Message m.To m.From) = body at *
  have hmod : body.length % 2 ^ 32 = body.length := Nat.mod_eq_of_lt hlt
  have hrd : bufferReader.Read (body ++ rest) body.length = ((body, none), rest) :=
    Buffer_Read_append body rest
  unfold Message.ReadFrom
  rw [binaryReadUint32_buffer_PutUint32, hmod]
  dsimp only
  rw [hrd]
  dsimp only
  rw [filled_self, hdec]
  dsimp only
  rw [hum]

/-- C14 (the code at the failing input). Message.ReadFrom on an in-memory source
that starts with the four-byte size 10,485,804, above MaxPayloadsize, followed by
that many bytes (the base64 body of a Message whose text is 7,864,320 letters a)
returns a nil error and assigns the Message to the receiver. -/
theorem Message_ReadFrom_no_size_check :
    Uint32 (PutUint32 10485804) > MaxPayloadsize ∧
    (EncodeToString (marshalMessage (List.replicate 7864320 (0x61 : Byte)) [] [])).length
      = 10485804 ∧
    Message.ReadFrom { Message := [], To := [], From := [] } bufferReader
        (PutUint32 10485804
          ++ (EncodeToString (marshalMessage (List.replicate 7864320 (0x61 : Byte)) [] []) ++ []))
      = (({ Message := List.replicate 7864320 (0x61 : Byte), To := [], From := [] }, 10485804, none),
          []) := by
  have hlen := body_replicate_length 7864320
  have hnum : 4 * ((7864320 + 34) / 3) = 10485804 := by norm_num
  rw [hnum] at hlen
  have h := Message_ReadFrom_buffer { Message := [], To := [], From := [] }
    { Message := List.replicate 7864320 (0x61 : Byte), To := [], From := [] } []
    (ValidString_replicate _) (by decide) (by decide) (by rw [hlen]; norm_num)
  rw [hlen] at h
  refine ⟨?_, hlen, h⟩
  rw [Uint32_PutUint32, MaxPayloadsize_eq]
  norm_num

/-! ## One frame at a time -/

theorem Error_ReadFrom_frame (e0 e rest : Bytes) (hlt : (EncodeToString e).length < 2 ^ 32) :
    Error_.ReadFrom e0 (multiReader bufferReader)
        (NewMultiReader (PutUint32 (EncodeToString e).length) (EncodeToString e ++ rest))
      = ((e, (EncodeToString e).length, none),
          { first := [], second := rest,
            remaining := if (EncodeToString e).length = 0 then 2 else 1 }) := by
  have hmod : (EncodeToString e).length % 2 ^ 32 = (EncodeToString e).length :=
    Nat.mod_eq_of_lt hlt
  rw [Error_ReadFrom_multi, hmod]
  by_cases h0 : (EncodeToString e).length = 0
  · have he : e = [] := by
      rw [EncodeToString_length] at h0
      exact List.length_eq_zero.mp (by omega)
    subst he
    simp [EncodeToString]
  · have hne : EncodeToString e ++ rest ≠ [] := by
      intro h
      have := (List.append_eq_nil.mp h).1
      rw [this] at h0
      exact h0 rfl
    rw [if_neg h0, if_neg hne, List.take_left, List.drop_left, filled_self,
      DecodeString_EncodeToString, if_neg h0]

/-- The size limit on decode only, at an ErrorText of 7,864,321 letters a and at
a Message whose text is 7,864,320 letters a. -/
theorem size_limit_on_decode_only_witness :
    10485760 < (EncodeToString (List.replicate 7864321 (0x61 : Byte))).length ∧
    (EncodeToString (List.replicate 7864321 (0x61 : Byte))).length < 2 ^ 32 ∧
    (Decode bufferReader (Encode bufferWriter []
        (Payload.Error_ (List.replicate 7864321 (0x61 : Byte))) Error).2).1
      = (none, some GoError.ErrorMaxPayloadSize) ∧
    10485760 < (EncodeToString (marshalMessage (List.replicate 7864320 (0x61 : Byte)) [] [])).length ∧
    (EncodeToString (marshalMessage (List.replicate 7864320 (0x61 : Byte)) [] [])).length < 2 ^ 32 ∧
    (Decode bufferReader (Encode bufferWriter [] (Payload.Message
        { Message := List.replicate 7864320 (0x61 : Byte), To := [], From := [] }) MessageType).2).1
      = (none, some GoError.ErrorMaxPayloadSize) :=
  have e1 : (EncodeToString (List.replicate 7864321 (0x61 : Byte))).length = 10485764 := by
    rw [EncodeToString_length, List.length_replicate]
  have e2 : (EncodeToString (marshalMessage (List.replicate 7864320 (0x61 : Byte)) [] [])).length
      = 10485804 := by
    rw [body_replicate_length]
  have a1 : 10485760 < (EncodeToString (List.replicate 7864321 (0x61 : Byte))).length := by
    rw [e1]; norm_num
  have a2 : (EncodeToString (List.replicate 7864321 (0x61 : Byte))).length < 2 ^ 32 := by
    rw [e1]; norm_num
  have b1 : 10485760
      < (EncodeToString (marshalMessage (List.replicate 7864320 (0x61 : Byte)) [] [])).length := by
    rw [e2]; norm_num
  have b2 : (EncodeToString (marshalMessage (List.replicate 7864320 (0x61 : Byte)) [] [])).length
      < 2 ^ 32 := by
    rw [e2]; norm_num
  ⟨a1, a2,
    ((size_limit_on_decode_only (List.replicate 7864321 (0x61 : Byte))
      { Message := List.replicate 7864320 (0x61 : Byte), To := [], From := [] }).1 a1 a2).2.2,
    b1, b2,
    ((size_limit_on_decode_only (List.replicate 7864321 (0x61 : Byte))
      { Message := List.replicate 7864320 (0x61 : Byte), To := [], From := [] }).2 b1 b2).2.2⟩

/-! ## JSON strings that are not valid UTF-8 -/

theorem DecodeRune_replacement (q : Bytes) :
    DecodeRune (0xEF :: 0xBF :: 0xBD :: q) = (RuneError, 3) := by
  have h := DecodeRune_three 0xEF 0xBF 0xBD q (by decide) (by decide)
    (by unfold acceptSecond; decide) (by decide) (by decide)
  rw [h]
  decide

theorem EncodeRune_replacement : EncodeRune RuneError = [0xEF, 0xBF, 0xBD] := by decide

/-- One pass of appendString over a rune that is written as it stands. -/
theorem appendStringLoop_raw (g : Nat) (b : Byte) (u w : Bytes) (d : Nat × Nat)
    (hb : ¬ b.val < 0x80) (hd : DecodeRune (b :: u ++ w) = d) (hlen : (b :: u).length = d.2)
    (hnv : ¬ (d.1 = RuneError ∧ d.2 = 1)) (hls : ¬ (d.1 = 0x2028 ∨ d.1 = 0x2029)) :
    appendStringLoop (g + 1) (b :: u ++ w) = (b :: u) ++ appendStringLoop g w := by
  rw [List.cons_append, appendStringLoop]
  rw [← List.cons_append, hd]
  simp only [hb, hnv, hls, if_false]
  rw [← hlen, List.take_left, List.drop_left]

/-- One pass of appendString over the line or paragraph separator. -/
theorem appendStringLoop_separator (g : Nat) (b : Byte) (u w : Bytes) (d : Nat × Nat)
    (hb : ¬ b.val < 0x80) (hd : DecodeRune (b :: u ++ w) = d) (hlen : (b :: u).length = d.2)
    (hnv : ¬ (d.1 = RuneError ∧ d.2 = 1)) (hls : d.1 = 0x2028 ∨ d.1 = 0x2029) :
    appendStringLoop (g + 1) (b :: u ++ w)
      = [0x5C, 0x75, 0x32, 0x30, 0x32, hex (d.1 % 16)] ++ appendStringLoop g w := by
  rw [List.cons_append, appendStringLoop]
  rw [← List.cons_append, hd]
  simp only [hb, hnv, hls, if_false, if_true, ascii_u202]
  rw [← hlen, List.drop_left]
  simp

/-- The parser reads what appendString wrote for any Go string as a string that
appendString writes the same way: the string itself when it is valid UTF-8, and
otherwise the string with U+FFFD in place of each invalid byte. -/
theorem parseStringLoop_appendStringLoop_any (n : Nat) :
    ∀ (s : Bytes) (fa fp : Nat) (rest : Bytes), s.length ≤ n → s.length ≤ fa →
      (appendStringLoop fa s).length < fp →
      ∃ s2, parseStringLoop fp (appendStringLoop fa s ++ 0x22 :: rest) = Except.ok (s2, rest) ∧
        ∀ fb, s2.length ≤ fb → appendStringLoop fb s2 = appendStringLoop fa s := by
  induction n with
  | zero =>
    intro s fa fp rest hn _ hfp
    have hs : s = [] := List.length_eq_zero.mp (by omega)
    subst hs
    obtain ⟨k, rfl⟩ : ∃ k, fp = k + 1 := ⟨fp - 1, by omega⟩
    refine ⟨[], by simp [appendStringLoop_nil, parseStringLoop, Fin.coe_ofNat_eq_mod], ?_⟩
    intro fb _
    simp [appendStringLoop_nil]
  | succ n ih =>
    intro s fa fp rest hn hfa hfp
    cases s with
    | nil =>
      obtain ⟨k, rfl⟩ : ∃ k, fp = k + 1 := ⟨fp - 1, by omega⟩
      refine ⟨[], by simp [appendStringLoop_nil, parseStringLoop, Fin.coe_ofNat_eq_mod], ?_⟩
      intro fb _
      simp [appendStringLoop_nil]
    | cons b t =>
      simp only [List.length_cons] at hn hfa
      obtain ⟨fa1, rfl⟩ : ∃ k, fa = k + 1 := ⟨fa - 1, by omega⟩
      obtain ⟨fp1, rfl⟩ : ∃ k, fp = k + 1 := ⟨fp - 1, by omega⟩
      have hbl := b.isLt
      by_cases hb : b.val < 0x80
      · cases hsafe : htmlSafeSet b with
        | true =>
          have hs2 := hsafe
          simp only [htmlSafeSet, decide_eq_true_eq] at hs2
          have hout : appendStringLoop (fa1 + 1) (b :: t) = b :: appendStringLoop fa1 t := by
            simp [appendStringLoop, hb, hsafe]
          rw [hout] at hfp ⊢
          simp only [List.length_cons] at hfp
          obtain ⟨t2, hrec, hre⟩ := ih t fa1 fp1 rest (by omega) (by omega) (by omega)
          have c1 : ¬ b.val = 0x22 := by omega
          have c2 : ¬ b.val = 0x5C := by omega
          have c3 : ¬ b.val < 0x20 := by omega
          refine ⟨b :: t2, ?_, ?_⟩
          · rw [List.cons_append, parseStringLoop]
            simp only [c1, c2, c3, hb, if_true, if_false, hrec]
          · intro fb hfb
            simp only [List.length_cons] at hfb
            obtain ⟨g, rfl⟩ : ∃ k, fb = k + 1 := ⟨fb - 1, by omega⟩
            rw [appendStringLoop]
            simp only [hb, hsafe, if_true]
            rw [hre g (by omega)]
        | false =>
          have hout : appendStringLoop (fa1 + 1) (b :: t) = escapeByte b ++ appendStringLoop fa1 t := by
            simp [appendStringLoop, hb, hsafe]
          rw [hout] at hfp ⊢
          have hesc : 1 ≤ (escapeByte b).length := by
            unfold escapeByte
            split_ifs <;> simp [ascii]
          simp only [List.length_append] at hfp
          obtain ⟨t2, hrec, hre⟩ := ih t fa1 fp1 rest (by omega) (by omega) (by omega)
          refine ⟨b :: t2, ?_, ?_⟩
          · rw [List.append_assoc, parseStringLoop_escapeByte b hb hsafe, hrec]
          · intro fb hfb
            simp only [List.length_cons] at hfb
            obtain ⟨g, rfl⟩ : ∃ k, fb = k + 1 := ⟨fb - 1, by omega⟩
            rw [appendStringLoop]
            simp only [hb, hsafe, if_true, Bool.false_eq_true, if_false]
            rw [hre g (by omega)]
      · have hb8 : 0x80 ≤ b.val := by omega
        have c1 : ¬ b.val = 0x22 := by omega
        have c2 : ¬ b.val = 0x5C := by omega
        have c3 : ¬ b.val < 0x20 := by omega
        by_cases hnv : (DecodeRune (b :: t)).1 = RuneError ∧ (DecodeRune (b :: t)).2 = 1
        · have hout : appendStringLoop (fa1 + 1) (b :: t)
              = 0xEF :: 0xBF :: 0xBD :: appendStringLoop fa1 t := by
            simp [appendStringLoop, hb, hnv]
          rw [hout] at hfp ⊢
          simp only [List.length_cons] at hfp
          obtain ⟨t2, hrec, hre⟩ := ih t fa1 fp1 rest (by omega) (by omega) (by omega)
          have v1 : ¬ ((0xEF : Byte)).val = 0x22 := by decide
          have v2 : ¬ ((0xEF : Byte)).val = 0x5C := by decide
          have v3 : ¬ ((0xEF : Byte)).val < 0x20 := by decide
          have v4 : ¬ ((0xEF : Byte)).val < 0x80 := by decide
          refine ⟨0xEF :: 0xBF :: 0xBD :: t2, ?_, ?_⟩
          · simp only [List.cons_append]
            rw [parseStringLoop]
            simp only [v1, v2, v3, v4, if_false, DecodeRune_replacement, List.drop_succ_cons,
              List.drop_zero, hrec, EncodeRune_replacement]
            rfl
          · intro fb hfb
            simp only [List.length_cons] at hfb
            obtain ⟨g, rfl⟩ : ∃ k, fb = k + 1 := ⟨fb - 1, by omega⟩
            have h := appendStringLoop_raw g 0xEF [0xBF, 0xBD] t2 (RuneError, 3) v4
              (DecodeRune_replacement t2) rfl (by decide) (by decide)
            simp only [List.cons_append, List.nil_append] at h
            rw [h, hre g (by omega)]
        · obtain ⟨hd1, hd2, hd3, henc, hdq⟩ := DecodeRune_valid b t hb8 hnv
          have hdroplen : (List.drop (DecodeRune (b :: t)).2 (b :: t)).length
              = t.length + 1 - (DecodeRune (b :: t)).2 := by
            simp only [List.length_drop, List.length_cons]
          have htake : (List.take (DecodeRune (b :: t)).2 (b :: t)).length
              = (DecodeRune (b :: t)).2 := by
            simp only [List.length_take, List.length_cons]
            simp only [List.length_cons] at hd2
            omega
          obtain ⟨k, hk⟩ : ∃ k, (DecodeRune (b :: t)).2 = k + 1 :=
            ⟨(DecodeRune (b :: t)).2 - 1, by omega⟩
          have hshape : List.take (DecodeRune (b :: t)).2 (b :: t) = b :: List.take k t := by
            rw [hk, List.take_succ_cons]
          by_cases hls : (DecodeRune (b :: t)).1 = 0x2028 ∨ (DecodeRune (b :: t)).1 = 0x2029
          · have hout : appendStringLoop (fa1 + 1) (b :: t)
                = [0x5C, 0x75, 0x32, 0x30, 0x32, hex ((DecodeRune (b :: t)).1 % 16)]
                  ++ appendStringLoop fa1 (List.drop (DecodeRune (b :: t)).2 (b :: t)) := by
              simp [appendStringLoop, hb, hnv, hls, ascii_u202]
            rw [hout] at hfp ⊢
            simp only [List.length_append, List.length_cons, List.length_nil] at hfp
            obtain ⟨t2, hrec, hre⟩ := ih (List.drop (DecodeRune (b :: t)).2 (b :: t)) fa1 fp1 rest
              (by omega) (by omega) (by omega)
            have hh : hexVal (hex ((DecodeRune (b :: t)).1 % 16))
                = some ((DecodeRune (b :: t)).1 % 16) := hexVal_hex _ (by omega)
            have h2 : hexVal (0x32 : Byte) = some 2 := by decide
            have h0 : hexVal (0x30 : Byte) = some 0 := by decide
            have hr : 8224 + (DecodeRune (b :: t)).1 % 16 = (DecodeRune (b :: t)).1 := by
              rcases hls with h | h <;> rw [h]
            have hns : ¬ (0xD800 ≤ (DecodeRune (b :: t)).1 ∧ (DecodeRune (b :: t)).1 < 0xE000) := by
              rcases hls with h | h <;> rw [h] <;> omega
            refine ⟨List.take (DecodeRune (b :: t)).2 (b :: t) ++ t2, ?_, ?_⟩
            · simp [parseStringLoop, unescape, hex4, h0, h2, hh, hr, hns, henc, hrec,
                Fin.coe_ofNat_eq_mod]
            · intro fb hfb
              simp only [List.length_append, htake] at hfb
              obtain ⟨g, rfl⟩ : ∃ j, fb = j + 1 := ⟨fb - 1, by omega⟩
              have hq := hdq t2
              rw [hshape] at hq ⊢
              rw [appendStringLoop_separator g b (List.take k t) t2 (DecodeRune (b :: t)) hb hq
                (by rw [← hshape]; exact htake) hnv hls, hre g (by omega)]
          · have hout : appendStringLoop (fa1 + 1) (b :: t)
                = List.take (DecodeRune (b :: t)).2 (b :: t)
                  ++ appendStringLoop fa1 (List.drop (DecodeRune (b :: t)).2 (b :: t)) := by
              simp [appendStringLoop, hb, hnv, hls]
            rw [hout] at hfp ⊢
            simp only [List.length_append, htake] at hfp
            obtain ⟨t2, hrec, hre⟩ := ih (List.drop (DecodeRune (b :: t)).2 (b :: t)) fa1 fp1 rest
              (by omega) (by omega) (by omega)
            have hq := hdq (appendStringLoop fa1 (List.drop (DecodeRune (b :: t)).2 (b :: t))
              ++ 0x22 :: rest)
            have hdropq : List.drop (DecodeRune (b :: t)).2
                (List.take (DecodeRune (b :: t)).2 (b :: t)
                  ++ (appendStringLoop fa1 (List.drop (DecodeRune (b :: t)).2 (b :: t))
                    ++ 0x22 :: rest))
                = appendStringLoop fa1 (List.drop (DecodeRune (b :: t)).2 (b :: t)) ++ 0x22 :: rest := by
              rw [List.drop_append_of_le_length (by omega)]
              rw [List.drop_eq_nil_of_le (by omega)]
              rfl
            refine ⟨List.take (DecodeRune (b :: t)).2 (b :: t) ++ t2, ?_, ?_⟩
            · rw [List.append_assoc]
              rw [hshape] at hq hdropq ⊢
              rw [List.cons_append] at hq hdropq ⊢
              rw [parseStringLoop]
              simp only [c1, c2, c3, hb, if_false]
              rw [hq, hdropq, hrec, henc, hshape]
            · intro fb hfb
              simp only [List.length_append, htake] at hfb
              obtain ⟨g, rfl⟩ : ∃ j, fb = j + 1 := ⟨fb - 1, by omega⟩
              have hq2 := hdq t2
              rw [hshape] at hq2 ⊢
              rw [appendStringLoop_raw g b (List.take k t) t2 (DecodeRune (b :: t)) hb hq2
                (by rw [← hshape]; exact htake) hnv hls, hre g (by omega)]


/-- A JSON string literal written by appendString is read back as a string that
appendString writes the same way. -/
theorem parseString_appendString_any (s rest : Bytes) :
    ∃ s2, parseString (appendStringLoop s.length s ++ 0x22 :: rest) = Except.ok (s2, rest) ∧
      appendStringLoop s2.length s2 = appendStringLoop s.length s := by
  obtain ⟨s2, h1, h2⟩ := parseStringLoop_appendStringLoop_any s.length s s.length
    ((appendStringLoop s.length s ++ 0x22 :: rest).length + 1) rest (le_refl _) (le_refl _)
    (by simp only [List.length_append, List.length_cons]; omega)
  exact ⟨s2, h1, h2 _ (le_refl _)⟩

theorem parse_value_string_of (fuel depth : Nat) (src s2 rest : Bytes)
    (h : parseString src = Except.ok (s2, rest)) :
    parse (fuel + 1) depth ParseMode.value (0x22 :: src) = Except.ok (JValue.string s2, rest) := by
  have hsp : isSpace (0x22 : Byte) = false := by decide
  rw [parse, skipSpace_cons _ _ hsp]
  simp [h, Fin.coe_ofNat_eq_mod]

/-- The call json.Unmarshal on a marshalled Message gives a Message that
json.Marshal writes the same way, whatever the destination held. -/
theorem unmarshalMessage_marshalMessage_any (M T F : Bytes) (m0 : Protocol.Message) :
    ∃ m2 : Protocol.Message, unmarshalMessage (marshalMessage M T F) m0 = (m2, none) ∧
      marshalMessage m2.Message m2.To m2.From = marshalMessage M T F := by
  have k1 : ValidString (ascii "Message") = true := by decide
  have k2 : ValidString (ascii "To") = true := by decide
  have k3 : ValidString (ascii "From") = true := by decide
  have s1 : isSpace (0x22 : Byte) = false := by decide
  have f1 : findField messageFields (ascii "Message") = some 0 := by decide
  have f2 : findField messageFields (ascii "To") = some 1 := by decide
  have f3 : findField messageFields (ascii "From") = some 2 := by decide
  obtain ⟨F2, hF, hF2⟩ := parseString_appendString_any F [0x7D]
  obtain ⟨T2, hT, hT2⟩ := parseString_appendString_any T
    (0x2C :: 0x22 :: (appendStringLoop (ascii "From").length (ascii "From") ++ 0x22 :: 0x3A
      :: 0x22 :: (appendStringLoop F.length F ++ 0x22 :: 0x7D :: [])))
  obtain ⟨M2, hM, hM2⟩ := parseString_appendString_any M
    (0x2C :: 0x22 :: (appendStringLoop (ascii "To").length (ascii "To") ++ 0x22 :: 0x3A
      :: 0x22 :: (appendStringLoop T.length T ++ 0x22 :: 0x2C
      :: 0x22 :: (appendStringLoop (ascii "From").length (ascii "From") ++ 0x22 :: 0x3A
      :: 0x22 :: (appendStringLoop F.length F ++ 0x22 :: 0x7D :: [])))))
  have hparse : ∀ fuel, parse (fuel + 5) 0 ParseMode.value (marshalMessage M T F)
      = Except.ok (JValue.object [(ascii "Message", JValue.string M2),
          (ascii "To", JValue.string T2), (ascii "From", JValue.string F2)], []) := by
    intro fuel
    rw [marshalMessage_shape, parse_object_open]
    rw [parse_member (fuel + 3) 1 [] (ascii "Message") _ (JValue.string M2) 0x2C _ k1
      (parse_value_string_of (fuel + 2) 1 _ M2 _ hM) (Or.inl rfl)]
    simp only [Fin.coe_ofNat_eq_mod, Nat.reduceMod, if_true, skipSpace_cons _ _ s1, List.nil_append]
    rw [parse_member (fuel + 2) 1 _ (ascii "To") _ (JValue.string T2) 0x2C _ k2
      (parse_value_string_of (fuel + 1) 1 _ T2 _ hT) (Or.inl rfl)]
    simp only [Fin.coe_ofNat_eq_mod, Nat.reduceMod, if_true, skipSpace_cons _ _ s1,
      List.cons_append, List.nil_append]
    rw [parse_member (fuel + 1) 1 _ (ascii "From") _ (JValue.string F2) 0x7D _ k3
      (parse_value_string_of fuel 1 _ F2 _ hF) (Or.inr rfl)]
    simp [Fin.coe_ofNat_eq_mod]
  have hlen : 4 ≤ (marshalMessage M T F).length := by
    rw [marshalMessage_shape]
    simp only [List.length_cons, List.length_append]
    omega
  refine ⟨{ Message := M2, To := T2, From := F2 }, ?_, ?_⟩
  · unfold unmarshalMessage
    rw [parseJSON_of_parse _ _ hlen hparse]
    simp [storeMessageField, f1, f2, f3]
  · rw [marshalMessage_shape, marshalMessage_shape]
    simp only [hM2, hT2, hF2]


/-! ## The Message frame on an in-memory source -/

/-- What Message.ReadFrom does behind the synthesized prefix when the in-memory
source starts with the body of a Message: it returns a Message that json.Marshal
writes the same way and leaves what follows the body. -/
theorem Message_ReadFrom_frame (m0 m : Protocol.Message) (rest : Bytes)
    (hlt : (EncodeToString (marshalMessage m.Message m.To m.From)).length < 2 ^ 32) :
    ∃ m2 : Protocol.Message,
      Message.ReadFrom m0 (multiReader bufferReader)
          (NewMultiReader (PutUint32 (EncodeToString (marshalMessage m.Message m.To m.From)).length)
            (EncodeToString (marshalMessage m.Message m.To m.From) ++ rest))
        = ((m2, (EncodeToString (marshalMessage m.Message m.To m.From)).length, none),
            { first := [], second := rest, remaining := 1 }) ∧
      marshalMessage m2.Message m2.To m2.From = marshalMessage m.Message m.To m.From := by
  have hdec := DecodeString_EncodeToString (marshalMessage m.Message m.To m.From)
  obtain ⟨m2, hum, hsame⟩ := unmarshalMessage_marshalMessage_any m.Message m.To m.From
    { Message := [], To := [], From := [] }
  have hbne : EncodeToString (marshalMessage m.Message m.To m.From) ≠ [] :=
    EncodeToString_ne_nil _ (marshalMessage_ne_nil _ _ _)
  refine ⟨m2, ?_, hsame⟩
  generalize EncodeToString (marshalMessage m.Message m.To m.From) = body at *
  have hmod : body.length % 2 ^ 32 = body.length := Nat.mod_eq_of_lt hlt
  have h0 : ¬ body.length = 0 := by
    intro h
    exact hbne (List.length_eq_zero.mp h)
  have hne : body ++ rest ≠ [] := by
    intro h
    exact hbne (List.append_eq_nil.mp h).1
  rw [Message_ReadFrom_multi, hmod, if_neg h0, if_neg hne, List.take_left, List.drop_left,
    filled_self, hdec]
  dsimp only
  rw [hum]

/-- Decode on an in-memory source that starts with the frame of a Message within
the size limit returns a Message that json.Marshal writes the same way and
leaves what follows the frame. -/
theorem Decode_message_frame (m : Protocol.Message) (rest : Bytes)
    (hsz : (EncodeToString (marshalMessage m.Message m.To m.From)).length ≤ 10485760) :
    ∃ m2 : Protocol.Message,
      Decode bufferReader ((Encode bufferWriter [] (Payload.Message m) MessageType).2 ++ rest)
        = ((some (Payload.Message m2), none), rest) ∧
      marshalMessage m2.Message m2.To m2.From = marshalMessage m.Message m.To m.From := by
  have hu : uint32 (EncodeToString (marshalMessage m.Message m.To m.From)).length
      = (EncodeToString (marshalMessage m.Message m.To m.From)).length :=
    uint32_of_lt _ (by omega)
  obtain ⟨m2, hrf, hsame⟩ := Message_ReadFrom_frame { Message := [], To := [], From := [] } m rest
    (by omega)
  have hhl := header_length_lt (EncodeToString (marshalMessage m.Message m.To m.From)).length 0
  have hdec := DecodeString_EncodeToString (marshalHeaders
    { Size := (EncodeToString (marshalMessage m.Message m.To m.From)).length, Type_ := 0,
      Encoding := [] })
  have hjson := unmarshalHeaders_marshalHeaders
    (EncodeToString (marshalMessage m.Message m.To m.From)).length 0 [] (by omega)
    (by norm_num) (by decide) { Size := 0, Type_ := 0, Encoding := [] }
  have hmax : ¬ (EncodeToString (marshalMessage m.Message m.To m.From)).length
      > MaxPayloadsize := by
    rw [MaxPayloadsize_eq]
    omega
  refine ⟨m2, ?_, hsame⟩
  rw [Encode_message_buffer, hu]
  dsimp only
  generalize EncodeToString (marshalMessage m.Message m.To m.From) = body at *
  generalize EncodeToString (marshalHeaders
    { Size := body.length, Type_ := 0, Encoding := [] }) = header at *
  have e : ([] ++ ([1] ++ [(Fin.ofNat header.length : Byte)] ++ header ++ body)) ++ rest
      = 1 :: (Fin.ofNat header.length : Byte) :: (header ++ (body ++ rest)) := by simp
  rw [e, Decode_message_tag, decodeMessage_buffer header (body ++ rest) hhl, hdec]
  dsimp only
  rw [hjson]
  dsimp only
  rw [if_neg hmax, hrf]

/-- C1. Message round trip: for every Message m whose base64-encoded JSON body
is at most 10,485,760 bytes long, Decode on an in-memory source holding exactly
the bytes that Encode wrote for m with tag 1 succeeds, consumes them all, and
returns a Message whose display string and bytes equal those of m. -/
theorem Decode_Encode_message (m : Protocol.Message)
    (hsize : (EncodeToString (marshalMessage m.Message m.To m.From)).length ≤ 10485760) :
    ∃ m2 : Protocol.Message,
      Decode bufferReader (Encode bufferWriter [] (Payload.Message m) MessageType).2
        = ((some (Payload.Message m2), none), []) ∧
      (Payload.Message m2).String = (Payload.Message m).String ∧
      (Payload.Message m2).Byte = (Payload.Message m).Byte := by
  obtain ⟨m2, h, hsame⟩ := Decode_message_frame m [] hsize
  rw [List.append_nil] at h
  exact ⟨m2, h, hsame, hsame⟩

/-- The Message round trip at the Message of the test TestMessagePayloadDecoding,
with its display string. -/
theorem Decode_Encode_message_witness :
    (EncodeToString (marshalMessage (ascii "Hello, world") (ascii "John Doe")
      (ascii "Jane Doe"))).length ≤ 10485760 ∧
    (Payload.Message
        { Message := ascii "Hello, world", To := ascii "John Doe", From := ascii "Jane Doe" }).String
      = ascii "\x7b\"Message\":\"Hello, world\",\"To\":\"John Doe\",\"From\":\"Jane Doe\"\x7d" ∧
    ∃ m2 : Protocol.Message,
      Decode bufferReader (Encode bufferWriter [] (Payload.Message
            { Message := ascii "Hello, world", To := ascii "John Doe", From := ascii "Jane Doe" })
            MessageType).2 = ((some (Payload.Message m2), none), []) ∧
      (Payload.Message m2).String = (Payload.Message
            { Message := ascii "Hello, world", To := ascii "John Doe", From := ascii "Jane Doe" }).String ∧
      (Payload.Message m2).Byte = (Payload.Message
            { Message := ascii "Hello, world", To := ascii "John Doe", From := ascii "Jane Doe" }).Byte :=
  ⟨by decide, by decide,
    Decode_Encode_message
      { Message := ascii "Hello, world", To := ascii "John Doe", From := ascii "Jane Doe" }
      (by decide)⟩

/-- Decode on an in-memory source that starts with the frame of a payload with
its matching tag and a body within the size limit returns a payload of the same
content and leaves what follows the frame. -/
theorem Decode_frame (p : Payload) (t : Byte) (rest : Bytes) (h : validFrame p t) :
    ∃ p2, Decode bufferReader ((Encode bufferWriter [] p t).2 ++ rest) = ((some p2, none), rest) ∧
      p2.String = p.String ∧ p2.Byte = p.Byte := by
  cases p with
  | Beat b =>
    have ht : t = HeartBeat := h
    subst ht
    refine ⟨Payload.Beat [], ?_, rfl, rfl⟩
    have hE : Encode bufferWriter [] (Payload.Beat b) HeartBeat = ((1, none), [2]) := by
      simp [Encode, encodeBeat, binaryWriteUint8, bufferWriter, Buffer.Write, Payload.WriteTo,
        Beat.WriteTo, HeartBeat]
    rw [hE]
    show Decode bufferReader (2 :: rest) = _
    unfold Decode
    rw [binaryReadUint8_buffer_cons]
    simp [HeartBeat, decodeBeat]
  | Error_ e =>
    obtain ⟨ht, hsz⟩ : t = Error ∧ (EncodeToString e).length ≤ 10485760 := h
    subst ht
    refine ⟨Payload.Error_ e, ?_, rfl, rfl⟩
    have hu : uint32 (EncodeToString e).length = (EncodeToString e).length :=
      uint32_of_lt _ (by omega)
    rw [Encode_error_buffer, hu]
    dsimp only
    rw [List.nil_append, List.append_assoc, Decode_error_frame _ _ hsz,
      Error_ReadFrom_frame [] e rest (by omega)]
  | Message m =>
    obtain ⟨ht, hsz⟩ : t = MessageType ∧
      (EncodeToString (marshalMessage m.Message m.To m.From)).length ≤ 10485760 := h
    subst ht
    obtain ⟨m2, hd, hsame⟩ := Decode_message_frame m rest hsz
    exact ⟨Payload.Message m2, hd, hsame, hsame⟩

/-- C17. Decode consumes exactly one frame: for payloads p and q of any of the
three variants with their matching tags and bodies within the size limit, and
for every byte sequence rest, Decode on an in-memory source holding the frame of
q followed by rest succeeds with the content of q and leaves exactly rest; and on
the frame of p followed by the frame of q and rest it succeeds with the content
of p and leaves exactly the frame of q and rest, so the two frames decode to the
same payloads in the same order. -/
theorem Decode_one_frame (p q : Payload) (t u : Byte) (rest : Bytes) (hp : validFrame p t)
    (hq : validFrame q u) :
    ∃ p2 q2,
      Decode bufferReader ((Encode bufferWriter [] p t).2
          ++ ((Encode bufferWriter [] q u).2 ++ rest))
        = ((some p2, none), (Encode bufferWriter [] q u).2 ++ rest) ∧
      Decode bufferReader ((Encode bufferWriter [] q u).2 ++ rest) = ((some q2, none), rest) ∧
      p2.String = p.String ∧ p2.Byte = p.Byte ∧ q2.String = q.String ∧ q2.Byte = q.Byte := by
  obtain ⟨p2, h1, h2, h3⟩ := Decode_frame p t ((Encode bufferWriter [] q u).2 ++ rest) hp
  obtain ⟨q2, h4, h5, h6⟩ := Decode_frame q u rest hq
  exact ⟨p2, q2, h1, h4, h2, h3, h5, h6⟩

/-- The frame of a Message with a field that is not valid UTF-8 and the frame of
the test ErrorText, one after the other and followed by two more bytes, decode
in order. -/
theorem Decode_one_frame_witness :
    validFrame (Payload.Message { Message := ascii "Hello", To := [0x80], From := [0xFF, 0x41] })
      MessageType ∧
    validFrame (Payload.Error_ (ascii "Something went wrong")) Error ∧
    ∃ p2 q2,
      Decode bufferReader ((Encode bufferWriter [] (Payload.Message
            { Message := ascii "Hello", To := [0x80], From := [0xFF, 0x41] }) MessageType).2
          ++ ((Encode bufferWriter [] (Payload.Error_ (ascii "Something went wrong")) Error).2
            ++ [2, 7]))
        = ((some p2, none),
            (Encode bufferWriter [] (Payload.Error_ (ascii "Something went wrong")) Error).2
              ++ [2, 7]) ∧
      Decode bufferReader
          ((Encode bufferWriter [] (Payload.Error_ (ascii "Something went wrong")) Error).2
            ++ [2, 7])
        = ((some q2, none), [2, 7]) ∧
      p2.String = (Payload.Message
        { Message := ascii "Hello", To := [0x80], From := [0xFF, 0x41] }).String ∧
      p2.Byte = (Payload.Message
        { Message := ascii "Hello", To := [0x80], From := [0xFF, 0x41] }).Byte ∧
      q2.String = (Payload.Error_ (ascii "Something went wrong")).String ∧
      q2.Byte = (Payload.Error_ (ascii "Something went wrong")).Byte :=
  ⟨⟨rfl, by decide⟩, ⟨rfl, by decide⟩,
    Decode_one_frame _ _ _ _ [2, 7] ⟨rfl, by decide⟩ ⟨rfl, by decide⟩⟩

/-! ## The Message frame on any sink -/

/-- Two frames whose headers differ in length differ. -/
theorem frame_ne_of_header_length (a c : Byte) (h1 h2 b : Bytes) (h : h1.length ≠ h2.length) :
    [1] ++ [a] ++ h1 ++ b ≠ [1] ++ [c] ++ h2 ++ b := by
  intro e
  apply h
  have hl := congrArg List.length e
  simp only [List.length_append, List.length_cons, List.length_nil] at hl
  omega

/-- The base64 body of the Message whose text is 3,221,225,472 letters a is
4,294,967,340 bytes long, which is 2^32 + 44. -/
theorem body_3GiB_length :
    (EncodeToString (marshalMessage (List.replicate 3221225472 (0x61 : Byte)) [] [])).length
      = 4294967340 := by
  rw [body_replicate_length]

/-- What Encode writes into an in-memory sink for the Message whose text is
3,221,225,472 letters a: the header declares Size 44. -/
theorem Encode_3GiB_buffer :
    (Encode bufferWriter [] (Payload.Message
        { Message := List.replicate 3221225472 (0x61 : Byte), To := [], From := [] })
        MessageType).2
      = [1] ++ [48]
          ++ EncodeToString (marshalHeaders { Size := 44, Type_ := 0, Encoding := [] })
          ++ EncodeToString (marshalMessage (List.replicate 3221225472 (0x61 : Byte)) [] []) := by
  have hu : uint32 4294967340 = 44 := by
    unfold uint32
    norm_num
  have h44 : (EncodeToString (marshalHeaders
      { Size := 44, Type_ := 0, Encoding := [] })).length = 48 := by decide
  have hbyte : (Fin.ofNat 48 : Byte) = 48 := by decide
  rw [Encode_message_buffer]
  dsimp only
  rw [body_3GiB_length, hu, h44, hbyte, List.nil_append]

/-- The header that declares the length of the body of the Message whose text is
3,221,225,472 letters a is 56 bytes long. -/
theorem header_3GiB_length :
    (EncodeToString (marshalHeaders
      { Size := (EncodeToString (marshalMessage (List.replicate 3221225472 (0x61 : Byte)) []
          [])).length, Type_ := 0, Encoding := [] })).length = 56 := by
  have hbig : ∀ n : Nat, n = 4294967340 → (EncodeToString (marshalHeaders
      { Size := n, Type_ := 0, Encoding := [] })).length = 56 := by
    intro n h
    subst h
    decide
  exact hbig _ body_3GiB_length

/-- C3 (the claim fails). Two inputs at which a successful Encode of a Message
does not append the four parts the claim lists.  On a sink that accepts two
writes and fails the third, Encode of the Message of the test
TestMessagePayloadDecoding returns a nil error and the sink holds only the tag
byte and the header-length byte 48.  On an in-memory sink, for the Message whose
text is 3,221,225,472 letters a, the body is 4,294,967,340 bytes long and the
header that was written declares Size 44, so the bytes appended are not the
layout whose header declares the length of the body. -/
theorem Encode_message_wire_layout_fails :
    ((Encode limitedWriter (2, []) (Payload.Message
        { Message := ascii "Hello, world", To := ascii "John Doe", From := ascii "Jane Doe" })
        MessageType).1.2 = none ∧
      (Encode limitedWriter (2, []) (Payload.Message
        { Message := ascii "Hello, world", To := ascii "John Doe", From := ascii "Jane Doe" })
        MessageType).2.2 = [1, 48] ∧
      (Encode limitedWriter (2, []) (Payload.Message
        { Message := ascii "Hello, world", To := ascii "John Doe", From := ascii "Jane Doe" })
        MessageType).2.2
        ≠ [1] ++ [Fin.ofNat (EncodeToString (marshalHeaders
            { Size := (EncodeToString (marshalMessage (ascii "Hello, world") (ascii "John Doe")
                (ascii "Jane Doe"))).length, Type_ := 0, Encoding := [] })).length]
          ++ EncodeToString (marshalHeaders
            { Size := (EncodeToString (marshalMessage (ascii "Hello, world") (ascii "John Doe")
                (ascii "Jane Doe"))).length, Type_ := 0, Encoding := [] })
          ++ EncodeToString (marshalMessage (ascii "Hello, world") (ascii "John Doe")
                (ascii "Jane Doe"))) ∧
    ((Encode bufferWriter [] (Payload.Message
        { Message := List.replicate 3221225472 (0x61 : Byte), To := [], From := [] })
        MessageType).1.2 = none ∧
      (EncodeToString (marshalMessage (List.replicate 3221225472 (0x61 : Byte)) [] [])).length
        = 4294967340 ∧
      (Encode bufferWriter [] (Payload.Message
        { Message := List.replicate 3221225472 (0x61 : Byte), To := [], From := [] })
        MessageType).2
        = [1] ++ [48]
          ++ EncodeToString (marshalHeaders { Size := 44, Type_ := 0, Encoding := [] })
          ++ EncodeToString (marshalMessage (List.replicate 3221225472 (0x61 : Byte)) [] []) ∧
      (Encode bufferWriter [] (Payload.Message
        { Message := List.replicate 3221225472 (0x61 : Byte), To := [], From := [] })
        MessageType).2
        ≠ [1] ++ [Fin.ofNat (EncodeToString (marshalHeaders
            { Size := (EncodeToString (marshalMessage (List.replicate 3221225472 (0x61 : Byte))
                [] [])).length, Type_ := 0, Encoding := [] })).length]
          ++ EncodeToString (marshalHeaders
            { Size := (EncodeToString (marshalMessage (List.replicate 3221225472 (0x61 : Byte))
                [] [])).length, Type_ := 0, Encoding := [] })
          ++ EncodeToString (marshalMessage (List.replicate 3221225472 (0x61 : Byte)) [] [])) :=
  have h44 : (EncodeToString (marshalHeaders
      { Size := 44, Type_ := 0, Encoding := [] })).length = 48 := by decide
  have hok : (Encode bufferWriter [] (Payload.Message
      { Message := List.replicate 3221225472 (0x61 : Byte), To := [], From := [] })
      MessageType).1.2 = none := by
    rw [Encode_message_buffer]
  ⟨⟨by decide, by decide, by decide⟩, hok, body_3GiB_length, Encode_3GiB_buffer,
    fun h => frame_ne_of_header_length _ _ _ _ _
      (fun e => absurd (h44.symm.trans (e.trans header_3GiB_length)) (by decide))
      (Encode_3GiB_buffer.symm.trans h)⟩

/-- C3 (as amended). Message wire layout: for every Message m and every sink on
which a write that reports no error appends its bytes, when Encode with tag 1
returns a nil error and the write of the header bytes did not fail, the sink
holds after its prior content exactly the tag byte 1, one byte holding the
length of the header, the header, and the body with no length in front of it;
the body is the base64 text of the JSON serialization of m, the header the
base64 text of the JSON serialization of PayloadHeaders with
Size = uint32(len(body)), the length of the body modulo 2^32, Type 0 and empty
Encoding, and the header is shorter than 256 bytes, so its one-byte length is
its length. -/
theorem Encode_message_wire_layout {σ : Type} (W : Writer σ) (contents : σ → Bytes) (s : σ)
    (m : Protocol.Message)
    (hW : ∀ (t : σ) (p : Bytes), (W.Write t p).1.2 = none →
      contents (W.Write t p).2 = contents t ++ p)
    (hok : (Encode W s (Payload.Message m) MessageType).1.2 = none)
    (hhdr : (W.Write (W.Write (W.Write s [MessageType]).2
        [Fin.ofNat (EncodeToString (marshalHeaders
          { Size := uint32 (EncodeToString (marshalMessage m.Message m.To m.From)).length,
            Type_ := 0, Encoding := [] })).length]).2
        (EncodeToString (marshalHeaders
          { Size := uint32 (EncodeToString (marshalMessage m.Message m.To m.From)).length,
            Type_ := 0, Encoding := [] }))).1.2 = none) :
    contents (Encode W s (Payload.Message m) MessageType).2
      = contents s ++ ([1]
          ++ [Fin.ofNat (EncodeToString (marshalHeaders
              { Size := uint32 (EncodeToString (marshalMessage m.Message m.To m.From)).length,
                Type_ := 0, Encoding := [] })).length]
          ++ EncodeToString (marshalHeaders
              { Size := uint32 (EncodeToString (marshalMessage m.Message m.To m.From)).length,
                Type_ := 0, Encoding := [] })
          ++ EncodeToString (marshalMessage m.Message m.To m.From)) ∧
    uint32 (EncodeToString (marshalMessage m.Message m.To m.From)).length
      = (EncodeToString (marshalMessage m.Message m.To m.From)).length % 2 ^ 32 ∧
    (EncodeToString (marshalHeaders
        { Size := uint32 (EncodeToString (marshalMessage m.Message m.To m.From)).length,
          Type_ := 0, Encoding := [] })).length < 256 := by
  have hl := header_length_lt (uint32 (EncodeToString (marshalMessage m.Message m.To m.From)).length) 0
  have hu : uint8 (EncodeToString (marshalHeaders
      { Size := uint32 (EncodeToString (marshalMessage m.Message m.To m.From)).length,
        Type_ := 0, Encoding := [] })).length
      = (EncodeToString (marshalHeaders
      { Size := uint32 (EncodeToString (marshalMessage m.Message m.To m.From)).length,
        Type_ := 0, Encoding := [] })).length := by
    unfold uint8
    omega
  have hE : Encode W s (Payload.Message m) MessageType
      = encodeMessage W s (Payload.Message m) := by
    simp [Encode, HeartBeat, MessageType]
  refine ⟨?_, rfl, hl⟩
  rw [hE] at hok ⊢
  unfold encodeMessage at hok ⊢
  simp only [binaryWriteUint8, Payload.Byte, Message.Byte, Payload.WriteTo, Message.WriteTo, hu]
    at hok hhdr ⊢
  generalize EncodeToString (marshalMessage m.Message m.To m.From) = body at *
  generalize EncodeToString (marshalHeaders
    { Size := uint32 body.length, Type_ := 0, Encoding := [] }) = header at *
  have h1 : (W.Write s [MessageType]).1.2 = none := by
    cases h : (W.Write s [MessageType]).1.2 with
    | none => rfl
    | some e => rw [h] at hok; simp at hok
  rw [h1] at hok ⊢
  dsimp only at hok ⊢
  have h2 : (W.Write (W.Write s [MessageType]).2 [Fin.ofNat header.length]).1.2 = none := by
    cases h : (W.Write (W.Write s [MessageType]).2 [Fin.ofNat header.length]).1.2 with
    | none => rfl
    | some e => rw [h] at hok; simp at hok
  rw [h2] at hok ⊢
  dsimp only at hok ⊢
  rw [hhdr] at hok ⊢
  dsimp only at hok ⊢
  rw [hW _ _ hok, hW _ _ hhdr, hW _ _ h2, hW _ _ h1]
  simp [MessageType]

/-- The Message wire layout at the Message of the test TestMessagePayloadDecoding
on a sink that accepts four more writes and already holds one byte: Encode
returns a nil error and the sink then holds 131 bytes, the byte it held and the
frame. -/
theorem Encode_message_wire_layout_witness :
    (Encode limitedWriter (4, [9]) (Payload.Message
        { Message := ascii "Hello, world", To := ascii "John Doe", From := ascii "Jane Doe" })
        MessageType).1.2 = none ∧
    (Encode limitedWriter (4, [9]) (Payload.Message
        { Message := ascii "Hello, world", To := ascii "John Doe", From := ascii "Jane Doe" })
        MessageType).2.2.length = 131 ∧
    Prod.snd (Encode limitedWriter (4, [9]) (Payload.Message
        { Message := ascii "Hello, world", To := ascii "John Doe", From := ascii "Jane Doe" })
        MessageType).2
      = Prod.snd ((4, [9]) : Nat × Bytes) ++ ([1]
          ++ [Fin.ofNat (EncodeToString (marshalHeaders
              { Size := uint32 (EncodeToString (marshalMessage (ascii "Hello, world")
                  (ascii "John Doe") (ascii "Jane Doe"))).length,
                Type_ := 0, Encoding := [] })).length]
          ++ EncodeToString (marshalHeaders
              { Size := uint32 (EncodeToString (marshalMessage (ascii "Hello, world")
                  (ascii "John Doe") (ascii "Jane Doe"))).length,
                Type_ := 0, Encoding := [] })
          ++ EncodeToString (marshalMessage (ascii "Hello, world") (ascii "John Doe")
              (ascii "Jane Doe"))) ∧
    uint32 (EncodeToString (marshalMessage (ascii "Hello, world") (ascii "John Doe")
        (ascii "Jane Doe"))).length
      = (EncodeToString (marshalMessage (ascii "Hello, world") (ascii "John Doe")
        (ascii "Jane Doe"))).length % 2 ^ 32 ∧
    (EncodeToString (marshalHeaders
        { Size := uint32 (EncodeToString (marshalMessage (ascii "Hello, world")
            (ascii "John Doe") (ascii "Jane Doe"))).length,
          Type_ := 0, Encoding := [] })).length < 256 :=
  have hW : ∀ (t : Nat × Bytes) (p : Bytes), (limitedWriter.Write t p).1.2 = none →
      Prod.snd (limitedWriter.Write t p).2 = Prod.snd t ++ p := by
    intro t p h
    rcases t with ⟨_ | k, b⟩
    · simp [limitedWriter] at h
    · rfl
  ⟨by decide, by decide,
    Encode_message_wire_layout limitedWriter Prod.snd (4, [9])
      { Message := ascii "Hello, world", To := ascii "John Doe", From := ascii "Jane Doe" }
      hW (by decide) (by decide)⟩

end Protocol
